import Mathlib

/-!
# CourseBuilder: the course document and its mutation handlers

A shallow embedding of `src/components/modules/CourseBuilder.jsx`.  Every handler of
the component updates the document through `setData(prev => next)`; here each handler
is the function `prev ↦ next`, and the pieces of component state or of the environment
it reads (`currentModule`, `currentModuleId`, `currentResource`, the clock) are
explicit arguments.

Representation of JavaScript values

* Every id the program creates is `Date.now().toString()`, the decimal string of a
  clock reading.  Such a string is represented by the number it prints (`Nat`); it is
  non-empty, hence truthy, and as a property key it differs from `"null"` and
  `"undefined"`.
* A value that stands where an id is expected but may also be `null` or `undefined`
  (a resource's `moduleId`, an element of an order array, a handler argument) is a `Val`.
* `resourceOrder` is a plain object.  A key can be absent, present with the value
  `undefined`, or present with an array; all three are kept apart.  The enumeration
  order of the keys is not part of any statement below.
-/

namespace CourseBuilder

/-- A JavaScript value in id position: `undefined`, `null`, or an id string. -/
inductive Val where
  | undefined : Val
  | null : Val
  | id (n : Nat) : Val
  deriving DecidableEq, Repr

/-- JavaScript truthiness of a `Val`: id strings are non-empty, so truthy. -/
def Val.truthy : Val → Bool
  | .id _ => true
  | _ => false

/-- A module record `{ id, name, createdAt }`. -/
structure CourseModule where
  id : Nat
  name : String
  createdAt : Option String
  deriving DecidableEq, Repr

/-- A resource record.  Link and file resources share one record; a field that the
variant does not carry is `none` (the property reads `undefined`). -/
structure Resource where
  id : Nat
  moduleId : Val
  type : String
  title : String
  url : Option String
  fileName : Option String
  fileSize : Option Nat
  fileType : Option String
  filePreview : Option String
  createdAt : Option String
  deriving DecidableEq, Repr

/-- The object stored in `resourceOrder`: property key, then its value, where `none`
is a stored `undefined` and `some l` an array. -/
abbrev OrderMap := List (Val × Option (List Val))

/-- Property read `o[k]`: `none` when the key is absent or holds `undefined`. -/
def OrderMap.get : OrderMap → Val → Option (List Val)
  | [], _ => none
  | (k', v) :: t, k => if k' = k then v else OrderMap.get t k

/-- Whether `k` is an own property of the object (`k in o`). -/
def OrderMap.hasKey : OrderMap → Val → Bool
  | [], _ => false
  | (k', _) :: t, k => if k' = k then true else OrderMap.hasKey t k

/-- The object `{ ...o, [k]: v }` (also `copy[k] = v` on a fresh copy of `o`). -/
def OrderMap.set : OrderMap → Val → Option (List Val) → OrderMap
  | [], k, v => [(k, v)]
  | (k', v') :: t, k, v => if k' = k then (k', v) :: t else (k', v') :: OrderMap.set t k v

/-- The expression `x || []` for `x` read from `resourceOrder`. -/
def orEmpty : Option (List Val) → List Val
  | some l => l
  | none => []

/-- The document held in the `data` state of the component. -/
structure CourseData where
  modules : List CourseModule
  resources : List Resource
  moduleOrder : List Val
  resourceOrder : OrderMap
  deriving DecidableEq, Repr

/-- The constant `initialData`. -/
def initialData : CourseData :=
  { modules := [], resources := [], moduleOrder := [], resourceOrder := [] }

/-! ## Array primitives -/

/-- Index read `arr[i]`: `undefined` outside the array. -/
def jsIndex (arr : List Val) (i : Int) : Val :=
  if 0 ≤ i then arr.getD i.toNat Val.undefined else Val.undefined

/-- The actual start position `Array.prototype.splice` computes from its first
argument: a negative `start` counts from the end, and the result is clamped to
`[0, len]`. -/
def spliceStart (len : Nat) (start : Int) : Nat :=
  if start < 0 then ((len : Int) + start).toNat else min start.toNat len

/-- The array after `arr.splice(start, 1)`. -/
def spliceRemove (arr : List Val) (start : Int) : List Val :=
  arr.eraseIdx (spliceStart arr.length start)

/-- The array after `arr.splice(start, 0, item)`. -/
def spliceInsert (arr : List Val) (start : Int) (item : Val) : List Val :=
  arr.take (spliceStart arr.length start) ++ item :: arr.drop (spliceStart arr.length start)

/-- The three statements shared by both reorder handlers:
`dragged = arr[dragIndex]; arr.splice(dragIndex, 1); arr.splice(hoverIndex, 0, dragged)`. -/
def moveItem (arr : List Val) (dragIndex hoverIndex : Int) : List Val :=
  spliceInsert (spliceRemove arr dragIndex) hoverIndex (jsIndex arr dragIndex)

/-! ## Queries -/

/-- `getModuleResources(moduleId)`. -/
def getModuleResources (data : CourseData) (moduleId : Val) : List Resource :=
  data.resources.filter (fun resource => resource.moduleId = moduleId)

/-- `getStandaloneResources()`. -/
def getStandaloneResources (data : CourseData) : List Resource :=
  data.resources.filter (fun resource => !resource.moduleId.truthy)

/-- `orderedModules`: look every entry of `moduleOrder` up, drop the misses. -/
def orderedModules (data : CourseData) : List CourseModule :=
  data.moduleOrder.filterMap (fun id => data.modules.find? (fun m => Val.id m.id = id))

/-- `getOrderedResources(moduleId)`. -/
def getOrderedResources (data : CourseData) (moduleId : Val) : List Resource :=
  (orEmpty (data.resourceOrder.get moduleId)).filterMap
    (fun id => data.resources.find? (fun r => Val.id r.id = id))

/-! ## Mutation handlers -/

/-- `handleSaveModule(module)`; `now` is the value of `Date.now()` and `iso` that of
`new Date().toISOString()`. -/
def handleSaveModule (currentModule : Option CourseModule) (now : Nat) (iso : String)
    (module : CourseModule) (prev : CourseData) : CourseData :=
  match currentModule with
  | some _ =>
    { prev with modules := prev.modules.map (fun m => if m.id = module.id then module else m) }
  | none =>
    let newModule : CourseModule := { module with id := now, createdAt := some iso }
    { prev with
      modules := prev.modules ++ [newModule]
      moduleOrder := prev.moduleOrder ++ [Val.id newModule.id]
      resourceOrder := prev.resourceOrder.set (Val.id newModule.id) (some []) }

/-- `handleDeleteModule(moduleId)`. -/
def handleDeleteModule (moduleId : Val) (prev : CourseData) : CourseData :=
  { prev with
    modules := prev.modules.filter (fun module => Val.id module.id ≠ moduleId)
    moduleOrder := prev.moduleOrder.filter (fun id => id ≠ moduleId)
    resources := prev.resources.filter (fun resource => resource.moduleId ≠ moduleId)
    resourceOrder := prev.resourceOrder.set moduleId none }

/-- `handleSaveLink(linkItem)`. -/
def handleSaveLink (currentResource : Option Resource) (currentModuleId : Val)
    (now : Nat) (iso : String) (linkItem : Resource) (prev : CourseData) : CourseData :=
  match currentResource with
  | some _ =>
    { prev with
      resources := prev.resources.map (fun r => if r.id = linkItem.id then linkItem else r) }
  | none =>
    let newResource : Resource :=
      { linkItem with id := now, moduleId := currentModuleId, createdAt := some iso }
    { prev with
      resources := prev.resources ++ [newResource]
      resourceOrder := prev.resourceOrder.set currentModuleId
        (some (orEmpty (prev.resourceOrder.get currentModuleId) ++ [Val.id newResource.id])) }

/-- `handleSaveUpload(fileItem)`. -/
def handleSaveUpload (currentResource : Option Resource) (currentModuleId : Val)
    (now : Nat) (iso : String) (fileItem : Resource) (prev : CourseData) : CourseData :=
  match currentResource with
  | some _ =>
    { prev with
      resources := prev.resources.map (fun r => if r.id = fileItem.id then fileItem else r) }
  | none =>
    let newResource : Resource :=
      { fileItem with id := now, moduleId := currentModuleId, createdAt := some iso }
    { prev with
      resources := prev.resources ++ [newResource]
      resourceOrder := prev.resourceOrder.set currentModuleId
        (some (orEmpty (prev.resourceOrder.get currentModuleId) ++ [Val.id newResource.id])) }

/-- `handleDeleteItem(itemId)`. -/
def handleDeleteItem (itemId : Val) (prev : CourseData) : CourseData :=
  match prev.resources.find? (fun r => Val.id r.id = itemId) with
  | some resource =>
    if resource.moduleId.truthy then
      let updatedResourceOrder : OrderMap :=
        match prev.resourceOrder.get resource.moduleId with
        | some l => prev.resourceOrder.set resource.moduleId (some (l.filter (fun id => id ≠ itemId)))
        | none => prev.resourceOrder
      { prev with
        resources := prev.resources.filter (fun r => Val.id r.id ≠ itemId)
        resourceOrder := updatedResourceOrder }
    else
      { prev with resources := prev.resources.filter (fun r => Val.id r.id ≠ itemId) }
  | none =>
    { prev with resources := prev.resources.filter (fun r => Val.id r.id ≠ itemId) }

/-- `handleModuleReorder(dragIndex, hoverIndex)`. -/
def handleModuleReorder (dragIndex hoverIndex : Int) (prev : CourseData) : CourseData :=
  { prev with moduleOrder := moveItem prev.moduleOrder dragIndex hoverIndex }

/-- `handleResourceReorder(moduleId, dragIndex, hoverIndex)`. -/
def handleResourceReorder (moduleId : Val) (dragIndex hoverIndex : Int)
    (prev : CourseData) : CourseData :=
  { prev with
    resourceOrder := prev.resourceOrder.set moduleId
      (some (moveItem (orEmpty (prev.resourceOrder.get moduleId)) dragIndex hoverIndex)) }

/-- First block of `handleResourceMove`, "remove from source module's resource order":
the copy of `resourceOrder` after
`if (fromModuleId && copy[fromModuleId]) copy[fromModuleId] = copy[fromModuleId].filter(id => id !== resourceId)`. -/
def removedOrder (resourceId fromModuleId : Val) (o : OrderMap) : OrderMap :=
  if fromModuleId.truthy then
    match o.get fromModuleId with
    | some l => o.set fromModuleId (some (l.filter (fun id => id ≠ resourceId)))
    | none => o
  else o

/-- `handleResourceMove(resourceId, fromModuleId, toModuleId)`. -/
def handleResourceMove (resourceId fromModuleId toModuleId : Val)
    (prev : CourseData) : CourseData :=
  let removed : OrderMap := removedOrder resourceId fromModuleId prev.resourceOrder
  let updatedResourceOrder : OrderMap :=
    if toModuleId.truthy then
      removed.set toModuleId (some (orEmpty (removed.get toModuleId) ++ [resourceId]))
    else removed
  let updatedResources : List Resource :=
    prev.resources.map (fun r => if Val.id r.id = resourceId then { r with moduleId := toModuleId } else r)
  { prev with resources := updatedResources, resourceOrder := updatedResourceOrder }

/-! ## The modal forms -/

/-- The characters `String.prototype.trim` strips: ECMAScript WhiteSpace and
LineTerminator code points. -/
def isJsWhiteSpace (c : Char) : Bool :=
  c.val = 0x09 || c.val = 0x0A || c.val = 0x0B || c.val = 0x0C || c.val = 0x0D
    || c.val = 0x20 || c.val = 0xA0 || c.val = 0x1680
    || (0x2000 ≤ c.val && c.val ≤ 0x200A)
    || c.val = 0x2028 || c.val = 0x2029 || c.val = 0x202F || c.val = 0x205F
    || c.val = 0x3000 || c.val = 0xFEFF

/-- `s.trim()`. -/
def jsTrim (s : String) : String :=
  String.mk ((s.toList.dropWhile isJsWhiteSpace).reverse.dropWhile isJsWhiteSpace).reverse

/-- The file picked in the upload form (`selectedFile`): its `name`, `size`, `type`. -/
structure SelectedFile where
  name : String
  size : Nat
  type : String
  deriving DecidableEq, Repr

/-- `isValid` of `LinkModal`, as a truth value: `linkTitle.trim() && linkUrl.trim()`.
The submit button is disabled while it is falsy. -/
def LinkModal.isValid (linkTitle linkUrl : String) : Bool :=
  (jsTrim linkTitle != "") && (jsTrim linkUrl != "")

/-- `isValid` of `UploadModal`, as a truth value:
`fileTitle.trim() && (selectedFile || (isEditing && resource))`. -/
def UploadModal.isValid (fileTitle : String) (selectedFile : Option SelectedFile)
    (resource : Option Resource) : Bool :=
  (jsTrim fileTitle != "") && (selectedFile.isSome || (resource.isSome && resource.isSome))

/-! ## Persistence -/

/-- An array as `JSON.stringify` writes it and `JSON.parse` reads it back: an
`undefined` element is written as `null`. -/
def jsonArray (arr : List Val) : List Val :=
  arr.map (fun v => if v = Val.undefined then Val.null else v)

/-- The `resourceOrder` object after `JSON.stringify` and `JSON.parse`: a property whose
value is `undefined` is not written. -/
def jsonOrderMap : OrderMap → OrderMap
  | [] => []
  | (k, some l) :: t => (k, some (jsonArray l)) :: jsonOrderMap t
  | (_, none) :: t => jsonOrderMap t

/-- The document `JSON.parse(JSON.stringify(data))`: what the save effect stores under
`'courseBuilderData'` and the load effect reads back.  Strings, numbers, `null`, arrays
and plain objects are read back as written; a record field holding `undefined` is
left out and reads `undefined` again. -/
def saveThenLoad (data : CourseData) : CourseData :=
  { modules := data.modules
    resources := data.resources
    moduleOrder := jsonArray data.moduleOrder
    resourceOrder := jsonOrderMap data.resourceOrder }

/-! ## Sequences of handler calls -/

/-- One call of a mutation handler, with the component state and clock it reads. -/
inductive Op where
  | saveModule (currentModule : Option CourseModule) (now : Nat) (iso : String)
      (module : CourseModule)
  | deleteModule (moduleId : Val)
  | saveLink (currentResource : Option Resource) (currentModuleId : Val) (now : Nat)
      (iso : String) (linkItem : Resource)
  | saveUpload (currentResource : Option Resource) (currentModuleId : Val) (now : Nat)
      (iso : String) (fileItem : Resource)
  | deleteItem (itemId : Val)
  | moduleReorder (dragIndex hoverIndex : Int)
  | resourceReorder (moduleId : Val) (dragIndex hoverIndex : Int)
  | resourceMove (resourceId fromModuleId toModuleId : Val)
  deriving DecidableEq, Repr

/-- The document after one handler call. -/
def Op.apply : Op → CourseData → CourseData
  | .saveModule currentModule now iso module, d => handleSaveModule currentModule now iso module d
  | .deleteModule moduleId, d => handleDeleteModule moduleId d
  | .saveLink currentResource currentModuleId now iso linkItem, d =>
    handleSaveLink currentResource currentModuleId now iso linkItem d
  | .saveUpload currentResource currentModuleId now iso fileItem, d =>
    handleSaveUpload currentResource currentModuleId now iso fileItem d
  | .deleteItem itemId, d => handleDeleteItem itemId d
  | .moduleReorder dragIndex hoverIndex, d => handleModuleReorder dragIndex hoverIndex d
  | .resourceReorder moduleId dragIndex hoverIndex, d =>
    handleResourceReorder moduleId dragIndex hoverIndex d
  | .resourceMove resourceId fromModuleId toModuleId, d =>
    handleResourceMove resourceId fromModuleId toModuleId d

/-- The document after a sequence of handler calls, first call first. -/
def run (ops : List Op) (d : CourseData) : CourseData :=
  ops.foldl (fun acc op => op.apply acc) d

/-- Whether the id `n` already occurs in the document: as the id of a module or of a
resource, or as the `moduleId` of a resource. -/
def idInUse (data : CourseData) (n : Nat) : Bool :=
  data.modules.any (fun m => m.id = n)
    || data.resources.any (fun r => r.id = n || r.moduleId = Val.id n)

/-- Whether `arr[i]` is an element of the array. -/
def indexInRange (arr : List Val) (i : Int) : Bool :=
  0 ≤ i && i < arr.length

/-- The calls the component makes when its parts work as intended:
* a creation gets a generated id that is not in use;
* an edited resource keeps the `moduleId` of the stored resource with its id;
* a reorder drags an element of the list it reorders;
* a move names a stored resource and that resource's current `moduleId`.
Module edits and both deletions are unrestricted. -/
def Op.wellFormed : Op → CourseData → Bool
  | .saveModule none now _ _, d => !idInUse d now
  | .saveModule (some _) _ _ _, _ => true
  | .deleteModule _, _ => true
  | .saveLink none _ now _ _, d => !idInUse d now
  | .saveLink (some _) _ _ _ linkItem, d =>
    d.resources.all (fun r => r.id ≠ linkItem.id || r.moduleId = linkItem.moduleId)
  | .saveUpload none _ now _ _, d => !idInUse d now
  | .saveUpload (some _) _ _ _ fileItem, d =>
    d.resources.all (fun r => r.id ≠ fileItem.id || r.moduleId = fileItem.moduleId)
  | .deleteItem _, _ => true
  | .moduleReorder dragIndex _, d => indexInRange d.moduleOrder dragIndex
  | .resourceReorder moduleId dragIndex _, d =>
    indexInRange (orEmpty (d.resourceOrder.get moduleId)) dragIndex
  | .resourceMove resourceId fromModuleId _, d =>
    d.resources.any (fun r => Val.id r.id = resourceId && r.moduleId = fromModuleId)

/-- The documents built from `initialData` by well-formed handler calls. -/
inductive Reachable : CourseData → Prop where
  | init : Reachable initialData
  | step {d : CourseData} (op : Op) (hd : Reachable d) (hw : op.wellFormed d = true) :
      Reachable (op.apply d)

/-! ## The ordering invariants -/

/-- The ids of the stored modules, in storage order. -/
def moduleIds (data : CourseData) : List Val :=
  data.modules.map (fun m => Val.id m.id)

/-- The ids of the resources whose `moduleId` is `k`, in storage order. -/
def resourceIdsOf (data : CourseData) (k : Val) : List Val :=
  (getModuleResources data k).map (fun r => Val.id r.id)

/-- The two ordering invariants of the document: `moduleOrder` is a duplicate-free
permutation of the module ids, and for every module `m`, `resourceOrder[m]` is an
array that is a duplicate-free permutation of the ids of the resources whose
`moduleId` is `m`. -/
def OrdersConsistent (data : CourseData) : Prop :=
  data.moduleOrder.Nodup ∧ data.moduleOrder.Perm (moduleIds data)
    ∧ ∀ k ∈ moduleIds data,
        (data.resourceOrder.get k).isSome = true
          ∧ (orEmpty (data.resourceOrder.get k)).Nodup
          ∧ (orEmpty (data.resourceOrder.get k)).Perm (resourceIdsOf data k)

/-- The invariant carried along a sequence of calls: module ids, resource ids and
`moduleOrder` are duplicate-free, `moduleOrder` has the module ids as members, and
each module's order list is a duplicate-free array whose members are the ids of the
module's resources. -/
structure Inv (d : CourseData) : Prop where
  modNodup : (moduleIds d).Nodup
  ordNodup : d.moduleOrder.Nodup
  ordMem : ∀ v, v ∈ d.moduleOrder ↔ v ∈ moduleIds d
  resNodup : (d.resources.map (fun r => r.id)).Nodup
  lists : ∀ k ∈ moduleIds d, ∃ l, d.resourceOrder.get k = some l ∧ l.Nodup
    ∧ ∀ v, v ∈ l ↔ v ∈ resourceIdsOf d k

/-- Every array stored in the object is free of `undefined`. -/
def OrderMap.Clean (o : OrderMap) : Prop :=
  ∀ p ∈ o, ∀ l, p.2 = some l → Val.undefined ∉ l

/-- No order array of the document holds `undefined`. -/
def ArraysClean (d : CourseData) : Prop :=
  Val.undefined ∉ d.moduleOrder ∧ d.resourceOrder.Clean

/-- Whether every call of the sequence is well-formed on the document it is applied
to. -/
def runWellFormed : List Op → CourseData → Bool
  | [], _ => true
  | op :: rest, d => op.wellFormed d && runWellFormed rest (op.apply d)

/-- A drag gesture, as a sequence of handler calls.  Two modules are created (ids `1`
and `2`), three links in module `1` (ids `3`, `4`, `5`) and one link in module `2`
(id `6`).  The link `5`, at index `2` of module `1`, is then dragged over the card of
module `2`: the `hover` of `ModuleCard` calls `onMove(5, 1, 2)` and sets
`draggedItem.moduleId = 2`, leaving `draggedItem.index` at `2`. -/
def dragAcrossModules : List Op :=
  [ Op.saveModule none 1 "" ⟨0, "A", none⟩,
    Op.saveModule none 2 "" ⟨0, "B", none⟩,
    Op.saveLink none (Val.id 1) 3 "" ⟨0, Val.null, "link", "x", some "u", none, none, none, none, none⟩,
    Op.saveLink none (Val.id 1) 4 "" ⟨0, Val.null, "link", "y", some "u", none, none, none, none, none⟩,
    Op.saveLink none (Val.id 1) 5 "" ⟨0, Val.null, "link", "r", some "u", none, none, none, none, none⟩,
    Op.saveLink none (Val.id 2) 6 "" ⟨0, Val.null, "link", "p", some "u", none, none, none, none, none⟩,
    Op.resourceMove (Val.id 5) (Val.id 1) (Val.id 2) ]

/-- The gesture continued: the dragged link now hovers over the link `6`, which sits at
index `0` of module `2`; the `hover` of `ModuleItem` finds `draggedItem.moduleId`
equal to its own `moduleId` and calls `onReorder(2, draggedItem.index, 0)`, that is
`handleResourceReorder(2, 2, 0)`. -/
def dragAcrossModulesThenHover : List Op :=
  dragAcrossModules ++ [Op.resourceReorder (Val.id 2) 2 0]

/-- The object without the keys that hold `undefined`. -/
def OrderMap.dropUndefined : OrderMap → OrderMap
  | [] => []
  | (k, some l) :: t => (k, some l) :: OrderMap.dropUndefined t
  | (_, none) :: t => OrderMap.dropUndefined t

/-- The expression `a || b` on values in id position. -/
def jsOr (a b : Val) : Val :=
  if a.truthy then a else b

/-- What `handleEditResource(resource)` leaves in the component state:
`currentResource` and `currentModuleId`, which `CourseBuilder` hands to the modal as
its props `resource` and `moduleId`. -/
structure EditState where
  currentResource : Option Resource
  currentModuleId : Val
  deriving DecidableEq, Repr

/-- `handleEditResource(resource)`. -/
def handleEditResource (resource : Resource) : EditState :=
  { currentResource := some resource, currentModuleId := resource.moduleId }

/-- `handleSubmit` of `LinkModal`: the `linkData` it passes to `onSave`.  `resource` and
`moduleId` are the props of the modal, `linkTitle` and `linkUrl` its form state, and
`now` the value of `Date.now()`. -/
def LinkModal.handleSubmit (resource : Option Resource) (moduleId : Val) (now : Nat)
    (linkTitle linkUrl : String) : Resource :=
  { id := match resource with
      | some r => r.id
      | none => now
    moduleId := jsOr moduleId (match resource with
      | some r => r.moduleId
      | none => Val.undefined)
    type := "link"
    title := jsTrim linkTitle
    url := some (jsTrim linkUrl)
    fileName := none
    fileSize := none
    fileType := none
    filePreview := none
    createdAt := none }

/-- `handleSubmit` of `UploadModal`: the item it passes to `onSave`, or `none` when it
calls `onSave` in neither branch.  `selectedFile` and `filePreview` are the form
state. -/
def UploadModal.handleSubmit (resource : Option Resource) (moduleId : Val) (now : Nat)
    (fileTitle : String) (selectedFile : Option SelectedFile) (filePreview : Option String) :
    Option Resource :=
  match resource, selectedFile with
  | some r, none =>
    some { id := r.id
           moduleId := jsOr moduleId r.moduleId
           type := "file"
           title := jsTrim fileTitle
           url := none
           fileName := r.fileName
           fileSize := r.fileSize
           fileType := r.fileType
           filePreview := r.filePreview
           createdAt := none }
  | _, some f =>
    some { id := match resource with
             | some r => r.id
             | none => now
           moduleId := jsOr moduleId (match resource with
             | some r => r.moduleId
             | none => Val.undefined)
           type := "file"
           title := jsTrim fileTitle
           url := none
           fileName := some f.name
           fileSize := some f.size
           fileType := some f.type
           filePreview := filePreview
           createdAt := none }
  | none, none => none

/-! ## The queries as the specification words them -/

/-- The spec's lookup `modules[id]`: the stored module with this id, if there is one. -/
def moduleWithId : List CourseModule → Val → Option CourseModule
  | [], _ => none
  | m :: rest, id => if Val.id m.id = id then some m else moduleWithId rest id

/-- The spec's lookup `resources[id]`: the stored resource with this id, if there is
one. -/
def resourceWithId : List Resource → Val → Option Resource
  | [], _ => none
  | r :: rest, id => if Val.id r.id = id then some r else resourceWithId rest id

/-- The walk of the spec's `orderedModules()`: go through the ids in order, produce the
module each id resolves to, and skip an id that resolves to none. -/
def resolveModules (modules : List CourseModule) : List Val → List CourseModule
  | [] => []
  | id :: rest =>
    match moduleWithId modules id with
    | some m => m :: resolveModules modules rest
    | none => resolveModules modules rest

/-- The same walk for resources. -/
def resolveResources (resources : List Resource) : List Val → List Resource
  | [] => []
  | id :: rest =>
    match resourceWithId resources id with
    | some r => r :: resolveResources resources rest
    | none => resolveResources resources rest

/-- The spec's `orderedModules()`: the walk over `moduleOrder`. -/
def orderedModulesSpec (data : CourseData) : List CourseModule :=
  resolveModules data.modules data.moduleOrder

/-- The spec's `orderedResourcesOf(moduleId)`: the walk over `resourceOrder[moduleId]`,
and the empty sequence when that list is missing. -/
def orderedResourcesOfSpec (data : CourseData) (moduleId : Val) : List Resource :=
  match data.resourceOrder.get moduleId with
  | none => []
  | some order => resolveResources data.resources order

/-! ## Loading at startup -/

/-- A JavaScript value as `JSON.parse` can return it.  The `data` state is viewed as
such a value here, since the load effect stores whatever `JSON.parse` returns. -/
inductive JsValue where
  | null : JsValue
  | bool (b : Bool) : JsValue
  | number (q : ℚ) : JsValue
  | string (s : String) : JsValue
  | array (items : List JsValue) : JsValue
  | object (fields : List (String × JsValue)) : JsValue

/-- `Array.isArray(v)`. -/
def JsValue.isArray : JsValue → Bool
  | .array _ => true
  | _ => false

/-- Whether `v` is a plain object (not `null`, not an array, not a primitive). -/
def JsValue.isObject : JsValue → Bool
  | .object _ => true
  | _ => false

/-- The own property `key` of an object; `none` when it is missing or `v` is no object. -/
def JsValue.field (v : JsValue) (key : String) : Option JsValue :=
  match v with
  | .object fields => fields.lookup key
  | _ => none

/-- Whether `v` is a document with the four collections: an object whose `modules`,
`resources` and `moduleOrder` are arrays and whose `resourceOrder` is an object.  The
component reads `data.modules.filter`, `data.resources.filter`,
`data.moduleOrder.map` and `data.resourceOrder[moduleId]` on every render. -/
def isCourseDocument (v : JsValue) : Bool :=
  (match v.field "modules" with
    | some a => a.isArray
    | none => false)
  && (match v.field "resources" with
    | some a => a.isArray
    | none => false)
  && (match v.field "moduleOrder" with
    | some a => a.isArray
    | none => false)
  && (match v.field "resourceOrder" with
    | some o => o.isObject
    | none => false)

/-- The constant `initialData` as a JavaScript value. -/
def initialDataValue : JsValue :=
  .object [("modules", .array []), ("resources", .array []), ("moduleOrder", .array []),
    ("resourceOrder", .object [])]

/-- The load effect: the `data` state after
`const savedData = localStorage.getItem('courseBuilderData');
 if (savedData) { try { setData(JSON.parse(savedData)) } catch (error) { console.error(..) } }`.
`savedData` is `none` when the key is absent; `parse` stands for `JSON.parse`, an error
for the exception it throws; `data` is the state before the effect. -/
def loadEffect (parse : String → Except String JsValue) (savedData : Option String)
    (data : JsValue) : JsValue :=
  match savedData with
  | none => data
  | some text =>
    if text = "" then data
    else
      match parse text with
      | .ok value => value
      | .error _ => data

/-- The ordering invariants together with distinct resource ids. -/
def Invariants (d : CourseData) : Prop :=
  OrdersConsistent d ∧ (d.resources.map (fun r => r.id)).Nodup

/-! ## Lemmas on the array primitives -/


theorem spliceStart_of_inRange (len : Nat) (i : Int) (h0 : 0 ≤ i) (h1 : i < len) :
    spliceStart len i = i.toNat := by
  unfold spliceStart
  have : ¬ i < 0 := by omega
  simp only [this, if_false]
  omega

theorem spliceStart_le (len : Nat) (i : Int) : spliceStart len i ≤ len := by
  unfold spliceStart
  split <;> omega

theorem take_eraseIdx_self {α : Type} (l : List α) (i : Nat) :
    (l.eraseIdx i).take i = l.take i := by
  induction l generalizing i with
  | nil => simp
  | cons a t ih =>
    cases i with
    | zero => simp
    | succ n => simp [List.eraseIdx, ih]

theorem drop_eraseIdx_self {α : Type} (l : List α) (i : Nat) :
    (l.eraseIdx i).drop i = l.drop (i + 1) := by
  induction l generalizing i with
  | nil => simp
  | cons a t ih =>
    cases i with
    | zero => simp
    | succ n => simp [List.eraseIdx, ih]

theorem insert_eraseIdx_self {α : Type} (l : List α) (i : Nat) (h : i < l.length) :
    (l.eraseIdx i).take i ++ l[i] :: (l.eraseIdx i).drop i = l := by
  rw [take_eraseIdx_self, drop_eraseIdx_self]
  induction l generalizing i with
  | nil => simp at h
  | cons a t ih =>
    cases i with
    | zero => simp
    | succ n =>
      simp only [List.length_cons, Nat.add_lt_add_iff_right] at h
      simp [ih n h]

theorem eraseIdx_insert {α : Type} (e : List α) (j : Nat) (x : α) (h : j ≤ e.length) :
    (e.take j ++ x :: e.drop j).eraseIdx j = e := by
  induction e generalizing j with
  | nil =>
    have : j = 0 := by simpa using h
    subst this; simp
  | cons a t ih =>
    cases j with
    | zero => simp
    | succ n =>
      simp only [List.length_cons, Nat.add_le_add_iff_right] at h
      simp [ih n h]

theorem getElem?_insert {α : Type} (e : List α) (j : Nat) (x : α) (h : j ≤ e.length) :
    (e.take j ++ x :: e.drop j)[j]? = some x := by
  induction e generalizing j with
  | nil =>
    have : j = 0 := by simpa using h
    subst this; simp
  | cons a t ih =>
    cases j with
    | zero => simp
    | succ n =>
      simp only [List.length_cons, Nat.add_le_add_iff_right] at h
      simp [ih n h]

theorem jsIndex_of_inRange (arr : List Val) (i : Int) (h0 : 0 ≤ i) (h1 : i < arr.length) :
    ∃ h : i.toNat < arr.length, jsIndex arr i = arr[i.toNat] := by
  have h : i.toNat < arr.length := by omega
  refine ⟨h, ?_⟩
  unfold jsIndex
  simp [h0, List.getD, List.getElem?_eq_getElem h]

/-- In range, `moveItem` is "erase at `i`, insert the erased element at `j`". -/
theorem moveItem_of_inRange (arr : List Val) (i j : Int)
    (hi0 : 0 ≤ i) (hi : i < arr.length) (hj0 : 0 ≤ j) (hj : j < arr.length) :
    ∃ h : i.toNat < arr.length,
      moveItem arr i j =
        (arr.eraseIdx i.toNat).take j.toNat ++ arr[i.toNat] :: (arr.eraseIdx i.toNat).drop j.toNat := by
  obtain ⟨h, hx⟩ := jsIndex_of_inRange arr i hi0 hi
  refine ⟨h, ?_⟩
  unfold moveItem spliceInsert spliceRemove
  rw [spliceStart_of_inRange arr.length i hi0 hi, hx]
  have hlen : (arr.eraseIdx i.toNat).length = arr.length - 1 := by
    rw [List.length_eraseIdx]; simp [h]
  have : spliceStart (arr.eraseIdx i.toNat).length j = j.toNat := by
    unfold spliceStart
    have : ¬ j < 0 := by omega
    simp only [this, if_false]
    omega
  rw [this]


theorem moveItem_moveItem (arr : List Val) (i j : Int)
    (hi0 : 0 ≤ i) (hi : i < arr.length) (hj0 : 0 ≤ j) (hj : j < arr.length) :
    moveItem (moveItem arr i j) j i = arr := by
  obtain ⟨h, hm⟩ := moveItem_of_inRange arr i j hi0 hi hj0 hj
  have hlen : (arr.eraseIdx i.toNat).length = arr.length - 1 := by
    rw [List.length_eraseIdx]; simp [h]
  have hjle : j.toNat ≤ (arr.eraseIdx i.toNat).length := by omega
  have hmlen : (moveItem arr i j).length = arr.length := by
    rw [hm]
    simp only [List.length_append, List.length_take, List.length_cons, List.length_drop]
    omega
  obtain ⟨h2, hm2⟩ := moveItem_of_inRange (moveItem arr i j) j i hj0 (by omega) hi0 (by omega)
  rw [hm2]
  have hget : (moveItem arr i j)[j.toNat] = arr[i.toNat] := by
    have := getElem?_insert (arr.eraseIdx i.toNat) j.toNat arr[i.toNat] hjle
    rw [← hm, List.getElem?_eq_getElem h2] at this
    exact Option.some.inj this
  have hers : (moveItem arr i j).eraseIdx j.toNat = arr.eraseIdx i.toNat := by
    rw [hm]; exact eraseIdx_insert _ _ _ hjle
  rw [hget, hers]
  exact insert_eraseIdx_self arr i.toNat h

/-- C5: inside the index range, `handleModuleReorder(i, j)` followed by
`handleModuleReorder(j, i)` restores `moduleOrder` exactly (and with it the whole
document), for `i ≠ j`. -/
theorem handleModuleReorder_inverse (prev : CourseData) (i j : Int)
    (hi0 : 0 ≤ i) (hi : i < prev.moduleOrder.length)
    (hj0 : 0 ≤ j) (hj : j < prev.moduleOrder.length) (_hij : i ≠ j) :
    (handleModuleReorder j i (handleModuleReorder i j prev)).moduleOrder = prev.moduleOrder
      ∧ handleModuleReorder j i (handleModuleReorder i j prev) = prev := by
  have h := moveItem_moveItem prev.moduleOrder i j hi0 hi hj0 hj
  constructor
  · simpa [handleModuleReorder] using h
  · simp [handleModuleReorder, h]

theorem handleModuleReorder_inverse_witness :
    (handleModuleReorder 2 0 (handleModuleReorder 0 2
        { initialData with moduleOrder := [Val.id 1, Val.id 2, Val.id 3] })).moduleOrder
      = [Val.id 1, Val.id 2, Val.id 3] :=
  (handleModuleReorder_inverse { initialData with moduleOrder := [Val.id 1, Val.id 2, Val.id 3] }
    0 2 (by decide) (by decide) (by decide) (by decide) (by decide)).1

theorem moveItem_perm (arr : List Val) (i j : Int)
    (hi0 : 0 ≤ i) (hi : i < arr.length) (hj0 : 0 ≤ j) (hj : j < arr.length) :
    (moveItem arr i j).Perm arr := by
  obtain ⟨h, hm⟩ := moveItem_of_inRange arr i j hi0 hi hj0 hj
  rw [hm]
  have h1 : ((arr.eraseIdx i.toNat).take j.toNat ++ arr[i.toNat] ::
      (arr.eraseIdx i.toNat).drop j.toNat).Perm (arr[i.toNat] :: arr.eraseIdx i.toNat) := by
    refine List.perm_middle.trans ?_
    rw [List.take_append_drop]
  refine h1.trans ?_
  have h2 := insert_eraseIdx_self arr i.toNat h
  have h3 : ((arr.eraseIdx i.toNat).take i.toNat ++ arr[i.toNat] ::
      (arr.eraseIdx i.toNat).drop i.toNat).Perm (arr[i.toNat] :: arr.eraseIdx i.toNat) := by
    refine List.perm_middle.trans ?_
    rw [List.take_append_drop]
  rw [h2] at h3
  exact h3.symm

/-- C6: with both indices inside the range, `handleModuleReorder(from, to)` removes the
element at `from` and re-inserts it so that it sits at index `to`: the new
`moduleOrder` has the same length, is a permutation of the old one, holds the moved id
at index `to`, and after deleting that position equals the old list with position
`from` deleted (all other ids keep their relative order); `modules`, `resources` and
`resourceOrder` are untouched. -/
theorem handleModuleReorder_relocates (prev : CourseData) (fromIndex toIndex : Int)
    (hf0 : 0 ≤ fromIndex) (hf : fromIndex < prev.moduleOrder.length)
    (ht0 : 0 ≤ toIndex) (ht : toIndex < prev.moduleOrder.length) :
    (∃ x, prev.moduleOrder[fromIndex.toNat]? = some x
        ∧ (handleModuleReorder fromIndex toIndex prev).moduleOrder
            = (prev.moduleOrder.eraseIdx fromIndex.toNat).take toIndex.toNat
                ++ x :: (prev.moduleOrder.eraseIdx fromIndex.toNat).drop toIndex.toNat
        ∧ (handleModuleReorder fromIndex toIndex prev).moduleOrder[toIndex.toNat]? = some x)
      ∧ (handleModuleReorder fromIndex toIndex prev).moduleOrder.length
          = prev.moduleOrder.length
      ∧ (handleModuleReorder fromIndex toIndex prev).moduleOrder.Perm prev.moduleOrder
      ∧ (handleModuleReorder fromIndex toIndex prev).moduleOrder.eraseIdx toIndex.toNat
          = prev.moduleOrder.eraseIdx fromIndex.toNat
      ∧ (handleModuleReorder fromIndex toIndex prev).modules = prev.modules
      ∧ (handleModuleReorder fromIndex toIndex prev).resources = prev.resources
      ∧ (handleModuleReorder fromIndex toIndex prev).resourceOrder = prev.resourceOrder := by
  obtain ⟨h, hm⟩ := moveItem_of_inRange prev.moduleOrder fromIndex toIndex hf0 hf ht0 ht
  have hlen : (prev.moduleOrder.eraseIdx fromIndex.toNat).length
      = prev.moduleOrder.length - 1 := by
    rw [List.length_eraseIdx]; simp [h]
  have htle : toIndex.toNat ≤ (prev.moduleOrder.eraseIdx fromIndex.toNat).length := by omega
  have hperm := moveItem_perm prev.moduleOrder fromIndex toIndex hf0 hf ht0 ht
  have hmo : (handleModuleReorder fromIndex toIndex prev).moduleOrder
      = moveItem prev.moduleOrder fromIndex toIndex := rfl
  refine ⟨⟨prev.moduleOrder[fromIndex.toNat], List.getElem?_eq_getElem h, ?_, ?_⟩,
    ?_, ?_, ?_, rfl, rfl, rfl⟩
  · rw [hmo, hm]
  · rw [hmo, hm]; exact getElem?_insert _ _ _ htle
  · rw [hmo]; exact hperm.length_eq
  · rw [hmo]; exact hperm
  · rw [hmo, hm]; exact eraseIdx_insert _ _ _ htle

/-- The scenario of C6: two modules created one after the other (ids `1` and `2`), then
`handleModuleReorder(0, 1)`; `moduleOrder` becomes `[2, 1]`. -/
theorem handleModuleReorder_relocates_witness :
    (handleSaveModule none 2 "" ⟨0, "B", none⟩
        (handleSaveModule none 1 "" ⟨0, "A", none⟩ initialData)).moduleOrder
        = [Val.id 1, Val.id 2]
      ∧ (handleModuleReorder 0 1 (handleSaveModule none 2 "" ⟨0, "B", none⟩
          (handleSaveModule none 1 "" ⟨0, "A", none⟩ initialData))).moduleOrder
        = [Val.id 2, Val.id 1]
      ∧ (handleModuleReorder 0 1 (handleSaveModule none 2 "" ⟨0, "B", none⟩
          (handleSaveModule none 1 "" ⟨0, "A", none⟩ initialData))).moduleOrder.Perm
          (handleSaveModule none 2 "" ⟨0, "B", none⟩
            (handleSaveModule none 1 "" ⟨0, "A", none⟩ initialData)).moduleOrder :=
  ⟨by decide, by decide,
    (handleModuleReorder_relocates (handleSaveModule none 2 "" ⟨0, "B", none⟩
      (handleSaveModule none 1 "" ⟨0, "A", none⟩ initialData)) 0 1
      (by decide) (by decide) (by decide) (by decide)).2.2.1⟩

/-! ## Lemmas on `OrderMap` -/

theorem OrderMap.get_set_self (o : OrderMap) (k : Val) (v : Option (List Val)) :
    (o.set k v).get k = v := by
  induction o with
  | nil => simp [OrderMap.set, OrderMap.get]
  | cons p t ih =>
    obtain ⟨k', v'⟩ := p
    by_cases h : k' = k
    · simp [OrderMap.set, OrderMap.get, h]
    · simp [OrderMap.set, OrderMap.get, h, ih]

theorem OrderMap.get_set_of_ne (o : OrderMap) (k k₁ : Val) (v : Option (List Val))
    (hne : k₁ ≠ k) : (o.set k v).get k₁ = o.get k₁ := by
  induction o with
  | nil =>
    have : ¬ k = k₁ := fun h => hne h.symm
    simp [OrderMap.set, OrderMap.get, this]
  | cons p t ih =>
    obtain ⟨k', v'⟩ := p
    by_cases h : k' = k
    · subst h
      have : ¬ k' = k₁ := fun h => hne h.symm
      simp [OrderMap.set, OrderMap.get, this]
    · by_cases h1 : k' = k₁
      · subst h1
        simp [OrderMap.set, OrderMap.get, h]
      · simp [OrderMap.set, OrderMap.get, h, h1, ih]

theorem OrderMap.hasKey_set_self (o : OrderMap) (k : Val) (v : Option (List Val)) :
    (o.set k v).hasKey k = true := by
  induction o with
  | nil => simp [OrderMap.set, OrderMap.hasKey]
  | cons p t ih =>
    obtain ⟨k', v'⟩ := p
    by_cases h : k' = k
    · simp [OrderMap.set, OrderMap.hasKey, h]
    · simp [OrderMap.set, OrderMap.hasKey, h, ih]

theorem OrderMap.hasKey_set_of_ne (o : OrderMap) (k k₁ : Val) (v : Option (List Val))
    (hne : k₁ ≠ k) : (o.set k v).hasKey k₁ = o.hasKey k₁ := by
  induction o with
  | nil =>
    have : ¬ k = k₁ := fun h => hne h.symm
    simp [OrderMap.set, OrderMap.hasKey, this]
  | cons p t ih =>
    obtain ⟨k', v'⟩ := p
    by_cases h : k' = k
    · subst h
      have : ¬ k' = k₁ := fun h => hne h.symm
      simp [OrderMap.set, OrderMap.hasKey, this]
    · by_cases h1 : k' = k₁
      · subst h1
        simp [OrderMap.set, OrderMap.hasKey, h]
      · simp [OrderMap.set, OrderMap.hasKey, h, h1, ih]

/-- C10: in add mode (`currentModule` is `null`) `handleSaveModule` appends exactly one
module, the payload with the generated id and timestamp, at the end of `modules`,
appends its id at the end of `moduleOrder`, stores the empty array under that id in
`resourceOrder`, and leaves `resources` and every other key of `resourceOrder` as they
were; the old `modules` and `moduleOrder` are prefixes of the new ones. -/
theorem handleSaveModule_add (prev : CourseData) (now : Nat) (iso : String)
    (module : CourseModule) :
    (handleSaveModule none now iso module prev).modules
        = prev.modules ++ [{ module with id := now, createdAt := some iso }]
      ∧ (handleSaveModule none now iso module prev).modules.length
          = prev.modules.length + 1
      ∧ (handleSaveModule none now iso module prev).moduleOrder
          = prev.moduleOrder ++ [Val.id now]
      ∧ (handleSaveModule none now iso module prev).resourceOrder.get (Val.id now) = some []
      ∧ (handleSaveModule none now iso module prev).resources = prev.resources
      ∧ (∀ k, k ≠ Val.id now →
          (handleSaveModule none now iso module prev).resourceOrder.get k
              = prev.resourceOrder.get k
            ∧ (handleSaveModule none now iso module prev).resourceOrder.hasKey k
              = prev.resourceOrder.hasKey k) := by
  refine ⟨rfl, ?_, rfl, ?_, rfl, ?_⟩
  · simp [handleSaveModule]
  · exact OrderMap.get_set_self _ _ _
  · intro k hk
    exact ⟨OrderMap.get_set_of_ne _ _ _ _ hk, OrderMap.hasKey_set_of_ne _ _ _ _ hk⟩

/-- C2, as stated, fails: after a module is created (id `1`) and deleted again,
`resourceOrder` still has an entry for it, the key `1` holding `undefined`. -/
theorem handleDeleteModule_keeps_key :
    (∃ m ∈ (handleSaveModule none 1 "" ⟨0, "A", none⟩ initialData).modules, m.id = 1)
      ∧ (handleDeleteModule (Val.id 1)
          (handleSaveModule none 1 "" ⟨0, "A", none⟩ initialData)).resourceOrder
          = [(Val.id 1, none)]
      ∧ (handleDeleteModule (Val.id 1)
          (handleSaveModule none 1 "" ⟨0, "A", none⟩ initialData)).resourceOrder.hasKey
          (Val.id 1) = true := by
  decide

/-- C2 (amended): for a module id `m` present in `modules`, after
`handleDeleteModule(m)` no module with id `m` and no resource with `moduleId == m`
remains, `m` does not occur in `moduleOrder`, and `resourceOrder[m]` reads `undefined`
(so every `resourceOrder[m] || []` is empty) while the key `m` itself stays in the
object; `modules`, `resources` and `moduleOrder` are the old lists with exactly those
entries filtered out, and every other key of `resourceOrder` is unchanged. -/
theorem handleDeleteModule_cascade (prev : CourseData) (m : Nat)
    (_hm : ∃ x ∈ prev.modules, x.id = m) :
    (∀ x ∈ (handleDeleteModule (Val.id m) prev).modules, x.id ≠ m)
      ∧ (∀ r ∈ (handleDeleteModule (Val.id m) prev).resources, r.moduleId ≠ Val.id m)
      ∧ Val.id m ∉ (handleDeleteModule (Val.id m) prev).moduleOrder
      ∧ (handleDeleteModule (Val.id m) prev).resourceOrder.get (Val.id m) = none
      ∧ orEmpty ((handleDeleteModule (Val.id m) prev).resourceOrder.get (Val.id m)) = []
      ∧ (handleDeleteModule (Val.id m) prev).resourceOrder.hasKey (Val.id m) = true
      ∧ (handleDeleteModule (Val.id m) prev).modules
          = prev.modules.filter (fun x => x.id ≠ m)
      ∧ (handleDeleteModule (Val.id m) prev).resources
          = prev.resources.filter (fun r => r.moduleId ≠ Val.id m)
      ∧ (handleDeleteModule (Val.id m) prev).moduleOrder
          = prev.moduleOrder.filter (fun id => id ≠ Val.id m)
      ∧ (∀ k, k ≠ Val.id m →
          (handleDeleteModule (Val.id m) prev).resourceOrder.get k
              = prev.resourceOrder.get k
            ∧ (handleDeleteModule (Val.id m) prev).resourceOrder.hasKey k
              = prev.resourceOrder.hasKey k) := by
  have hget : (handleDeleteModule (Val.id m) prev).resourceOrder.get (Val.id m) = none :=
    OrderMap.get_set_self _ _ _
  refine ⟨?_, ?_, ?_, hget, ?_, ?_, ?_, rfl, rfl, ?_⟩
  · intro x hx
    simp only [handleDeleteModule, List.mem_filter] at hx
    have := hx.2
    simpa using this
  · intro r hr
    simp only [handleDeleteModule, List.mem_filter] at hr
    have := hr.2
    simpa using this
  · intro h
    simp [handleDeleteModule, List.mem_filter] at h
  · rw [hget]; rfl
  · exact OrderMap.hasKey_set_self _ _ _
  · simp [handleDeleteModule]
  · intro k hk
    exact ⟨OrderMap.get_set_of_ne _ _ _ _ hk, OrderMap.hasKey_set_of_ne _ _ _ _ hk⟩

theorem handleDeleteModule_cascade_witness :
    (handleDeleteModule (Val.id 1)
        (handleSaveLink none (Val.id 1) 3 "" ⟨0, Val.null, "link", "T", some "u", none, none, none, none, none⟩
          (handleSaveModule none 2 "" ⟨0, "B", none⟩
            (handleSaveModule none 1 "" ⟨0, "A", none⟩ initialData)))).resources = []
      ∧ (handleDeleteModule (Val.id 1)
        (handleSaveLink none (Val.id 1) 3 "" ⟨0, Val.null, "link", "T", some "u", none, none, none, none, none⟩
          (handleSaveModule none 2 "" ⟨0, "B", none⟩
            (handleSaveModule none 1 "" ⟨0, "A", none⟩ initialData)))).moduleOrder
          = [Val.id 2] := by
  have h := handleDeleteModule_cascade
    (handleSaveLink none (Val.id 1) 3 "" ⟨0, Val.null, "link", "T", some "u", none, none, none, none, none⟩
      (handleSaveModule none 2 "" ⟨0, "B", none⟩
        (handleSaveModule none 1 "" ⟨0, "A", none⟩ initialData))) 1 (by decide)
  exact ⟨h.2.2.2.2.2.2.2.1.trans (by decide), h.2.2.2.2.2.2.2.2.1.trans (by decide)⟩

/-- C9, as stated, fails: on the empty document `handleDeleteModule(5)` (no module has
id `5`) returns a different document, its `resourceOrder` having gained the key `5`. -/
theorem handleDeleteModule_unknown_changes :
    (∀ x ∈ initialData.modules, Val.id x.id ≠ Val.id 5)
      ∧ handleDeleteModule (Val.id 5) initialData ≠ initialData
      ∧ initialData.resourceOrder.hasKey (Val.id 5) = false
      ∧ (handleDeleteModule (Val.id 5) initialData).resourceOrder.hasKey (Val.id 5) = true := by
  decide

/-- C9 (amended): when `id` names no module, `handleDeleteModule(id)` returns a document
(no error is signalled) with `modules` unchanged; `moduleOrder` and `resources` lose
exactly the entries equal to `id`, respectively with `moduleId == id`, hence nothing
when there is none; every key of `resourceOrder` other than `id` is unchanged, and the
key `id` is present afterwards, holding `undefined`. -/
theorem handleDeleteModule_unknown (prev : CourseData) (id : Val)
    (hno : ∀ x ∈ prev.modules, Val.id x.id ≠ id) :
    (handleDeleteModule id prev).modules = prev.modules
      ∧ (handleDeleteModule id prev).moduleOrder = prev.moduleOrder.filter (fun v => v ≠ id)
      ∧ (id ∉ prev.moduleOrder → (handleDeleteModule id prev).moduleOrder = prev.moduleOrder)
      ∧ (handleDeleteModule id prev).resources
          = prev.resources.filter (fun r => r.moduleId ≠ id)
      ∧ ((∀ r ∈ prev.resources, r.moduleId ≠ id) →
          (handleDeleteModule id prev).resources = prev.resources)
      ∧ (∀ k, k ≠ id →
          (handleDeleteModule id prev).resourceOrder.get k = prev.resourceOrder.get k
            ∧ (handleDeleteModule id prev).resourceOrder.hasKey k = prev.resourceOrder.hasKey k)
      ∧ (handleDeleteModule id prev).resourceOrder.get id = none
      ∧ (handleDeleteModule id prev).resourceOrder.hasKey id = true := by
  refine ⟨?_, rfl, ?_, rfl, ?_, ?_, OrderMap.get_set_self _ _ _, OrderMap.hasKey_set_self _ _ _⟩
  · simp only [handleDeleteModule]
    rw [List.filter_eq_self]
    intro x hx
    simpa using hno x hx
  · intro h
    simp only [handleDeleteModule]
    rw [List.filter_eq_self]
    intro v hv
    have : v ≠ id := fun e => h (e ▸ hv)
    simpa using this
  · intro h
    simp only [handleDeleteModule]
    rw [List.filter_eq_self]
    intro r hr
    simpa using h r hr
  · intro k hk
    exact ⟨OrderMap.get_set_of_ne _ _ _ _ hk, OrderMap.hasKey_set_of_ne _ _ _ _ hk⟩

theorem handleDeleteModule_unknown_witness :
    (handleDeleteModule (Val.id 7)
        (handleSaveModule none 1 "" ⟨0, "A", none⟩ initialData)).modules
        = [⟨1, "A", some ""⟩]
      ∧ (handleDeleteModule (Val.id 7)
        (handleSaveModule none 1 "" ⟨0, "A", none⟩ initialData)).resourceOrder.hasKey
          (Val.id 7) = true :=
  ⟨(handleDeleteModule_unknown (handleSaveModule none 1 "" ⟨0, "A", none⟩ initialData)
      (Val.id 7) (by decide)).1.trans (by decide),
    (handleDeleteModule_unknown (handleSaveModule none 1 "" ⟨0, "A", none⟩ initialData)
      (Val.id 7) (by decide)).2.2.2.2.2.2.2⟩

/-- C8, as stated, fails: in add mode `handleSaveLink` and `handleSaveUpload` store an item
whose title is the empty string; on a document with one module (id `1`) the call
returns a different document, holding the new resource with its empty title. -/
theorem handleSave_emptyTitle_changes :
    handleSaveLink none (Val.id 1) 5 "" ⟨0, Val.null, "link", "", some "https://x", none, none, none, none, none⟩
        (handleSaveModule none 1 "" ⟨0, "Week 1", none⟩ initialData)
        ≠ handleSaveModule none 1 "" ⟨0, "Week 1", none⟩ initialData
      ∧ (handleSaveLink none (Val.id 1) 5 "" ⟨0, Val.null, "link", "", some "https://x", none, none, none, none, none⟩
        (handleSaveModule none 1 "" ⟨0, "Week 1", none⟩ initialData)).resources
        = [⟨5, Val.id 1, "link", "", some "https://x", none, none, none, none, some ""⟩]
      ∧ handleSaveUpload none (Val.id 1) 5 "" ⟨0, Val.null, "file", "", none, some "a.pdf", some 10, some "application/pdf", none, none⟩
        (handleSaveModule none 1 "" ⟨0, "Week 1", none⟩ initialData)
        ≠ handleSaveModule none 1 "" ⟨0, "Week 1", none⟩ initialData := by
  decide

/-- C8 (amended): `handleSaveLink` and `handleSaveUpload` validate nothing.  Called in add
mode with an item whose title is the empty string they return a document (no error is
signalled) in which the item, with that empty title, is appended to `resources`, so
the document does change; `modules` and `moduleOrder` are unchanged.  An empty title is
kept out only by the forms, which submit the trimmed title: `isValid` of `LinkModal`
and of `UploadModal` is falsy whenever the trimmed title is empty (for `LinkModal` it
is truthy exactly when trimmed title and trimmed url are both non-empty, for
`UploadModal` exactly when the trimmed title is non-empty and a file is selected or a
resource is being edited), which disables the submit button. -/
theorem handleSave_emptyTitle (prev : CourseData) (currentModuleId : Val) (now : Nat)
    (iso : String) (item : Resource) (ht : item.title = "") :
    (handleSaveLink none currentModuleId now iso item prev).resources
        = prev.resources
            ++ [{ item with id := now, moduleId := currentModuleId, createdAt := some iso }]
      ∧ (handleSaveUpload none currentModuleId now iso item prev).resources
        = prev.resources
            ++ [{ item with id := now, moduleId := currentModuleId, createdAt := some iso }]
      ∧ (∃ r ∈ (handleSaveLink none currentModuleId now iso item prev).resources,
          r.id = now ∧ r.title = "")
      ∧ (∃ r ∈ (handleSaveUpload none currentModuleId now iso item prev).resources,
          r.id = now ∧ r.title = "")
      ∧ handleSaveLink none currentModuleId now iso item prev ≠ prev
      ∧ handleSaveUpload none currentModuleId now iso item prev ≠ prev
      ∧ (handleSaveLink none currentModuleId now iso item prev).modules = prev.modules
      ∧ (handleSaveLink none currentModuleId now iso item prev).moduleOrder = prev.moduleOrder
      ∧ (handleSaveUpload none currentModuleId now iso item prev).modules = prev.modules
      ∧ (handleSaveUpload none currentModuleId now iso item prev).moduleOrder = prev.moduleOrder
      ∧ (∀ linkUrl, LinkModal.isValid item.title linkUrl = false)
      ∧ (∀ selectedFile resource, UploadModal.isValid item.title selectedFile resource = false)
      ∧ (∀ linkTitle linkUrl, jsTrim linkTitle = "" →
          LinkModal.isValid linkTitle linkUrl = false)
      ∧ (∀ fileTitle selectedFile resource, jsTrim fileTitle = "" →
          UploadModal.isValid fileTitle selectedFile resource = false)
      ∧ (∀ linkTitle linkUrl, LinkModal.isValid linkTitle linkUrl = true
          ↔ jsTrim linkTitle ≠ "" ∧ jsTrim linkUrl ≠ "")
      ∧ (∀ fileTitle selectedFile resource,
          UploadModal.isValid fileTitle selectedFile resource = true
            ↔ jsTrim fileTitle ≠ "" ∧ (selectedFile.isSome = true ∨ resource.isSome = true))
      ∧ (∀ resource moduleId clock linkTitle linkUrl,
          (LinkModal.handleSubmit resource moduleId clock linkTitle linkUrl).title
            = jsTrim linkTitle)
      ∧ (∀ resource moduleId clock fileTitle selectedFile filePreview submitted,
          UploadModal.handleSubmit resource moduleId clock fileTitle selectedFile filePreview
            = some submitted → submitted.title = jsTrim fileTitle) := by
  have hlen : ∀ d : CourseData, d.resources.length = prev.resources.length + 1 → d ≠ prev := by
    intro d hd e
    rw [e] at hd
    omega
  refine ⟨rfl, rfl, ?_, ?_, ?_, ?_, rfl, rfl, rfl, rfl, ?_, ?_, ?_, ?_, ?_, ?_, ?_, ?_⟩
  · exact ⟨{ item with id := now, moduleId := currentModuleId, createdAt := some iso },
      by simp [handleSaveLink], rfl, ht⟩
  · exact ⟨{ item with id := now, moduleId := currentModuleId, createdAt := some iso },
      by simp [handleSaveUpload], rfl, ht⟩
  · exact hlen _ (by simp [handleSaveLink])
  · exact hlen _ (by simp [handleSaveUpload])
  · intro u; rw [ht]; rfl
  · intro f r; rw [ht]; rfl
  · intro linkTitle linkUrl h
    simp [LinkModal.isValid, h]
  · intro fileTitle selectedFile resource h
    simp [UploadModal.isValid, h]
  · intro linkTitle linkUrl
    simp [LinkModal.isValid]
  · intro fileTitle selectedFile resource
    simp [UploadModal.isValid]
  · intro resource moduleId clock linkTitle linkUrl
    rfl
  · intro resource moduleId clock fileTitle selectedFile filePreview submitted h
    cases resource with
    | none =>
      cases selectedFile with
      | none => simp [UploadModal.handleSubmit] at h
      | some f =>
        simp only [UploadModal.handleSubmit, Option.some.injEq] at h
        rw [← h]
    | some r =>
      cases selectedFile with
      | none =>
        simp only [UploadModal.handleSubmit, Option.some.injEq] at h
        rw [← h]
      | some f =>
        simp only [UploadModal.handleSubmit, Option.some.injEq] at h
        rw [← h]

theorem handleSave_emptyTitle_witness :
    (handleSaveLink none Val.null 5 "t"
        ⟨0, Val.null, "link", "", some "https://x", none, none, none, none, none⟩
        initialData).resources
      = [⟨5, Val.null, "link", "", some "https://x", none, none, none, none, some "t"⟩] :=
  (handleSave_emptyTitle initialData Val.null 5 "t"
    ⟨0, Val.null, "link", "", some "https://x", none, none, none, none, none⟩ rfl).1

/-! ## Creating and moving resources -/

@[simp] theorem orEmpty_some (l : List Val) : orEmpty (some l) = l := rfl

@[simp] theorem orEmpty_none : orEmpty none = [] := rfl

theorem handleSaveUpload_eq_handleSaveLink : handleSaveUpload = handleSaveLink := rfl

/-- Looking ids up after a resource with an unused id was appended. -/
theorem filterMap_find_append_fresh (rs : List Resource) (new : Resource) (l : List Val)
    (hl : Val.id new.id ∉ l) :
    l.filterMap (fun id => (rs ++ [new]).find? (fun r => Val.id r.id = id))
      = l.filterMap (fun id => rs.find? (fun r => Val.id r.id = id)) := by
  apply List.filterMap_congr
  intro v hv
  have hne : ¬ Val.id new.id = v := fun e => hl (e ▸ hv)
  simp [List.find?_append, List.find?, hne]

/-- The document after a resource is created with `currentModuleId`, as long as the
generated id is not in use. -/
theorem getOrderedResources_handleSaveLink_add (prev : CourseData) (currentModuleId : Val)
    (now : Nat) (iso : String) (item : Resource)
    (hfresh : ∀ r ∈ prev.resources, r.id ≠ now)
    (hord : Val.id now ∉ orEmpty (prev.resourceOrder.get currentModuleId)) :
    getOrderedResources (handleSaveLink none currentModuleId now iso item prev) currentModuleId
      = getOrderedResources prev currentModuleId
          ++ [{ item with id := now, moduleId := currentModuleId, createdAt := some iso }] := by
  unfold getOrderedResources
  have hget : (handleSaveLink none currentModuleId now iso item prev).resourceOrder.get
      currentModuleId
      = some (orEmpty (prev.resourceOrder.get currentModuleId) ++ [Val.id now]) :=
    OrderMap.get_set_self _ _ _
  rw [hget]
  simp only [orEmpty_some, handleSaveLink, List.filterMap_append]
  have h1 := filterMap_find_append_fresh prev.resources
    { item with id := now, moduleId := currentModuleId, createdAt := some iso }
    (orEmpty (prev.resourceOrder.get currentModuleId)) hord
  rw [h1]
  congr 1
  have hnone : prev.resources.find? (fun r => Val.id r.id = Val.id now) = none := by
    rw [List.find?_eq_none]
    intro r hr
    simpa using hfresh r hr
  simp only [List.filterMap_cons, List.filterMap_nil, List.find?_append, hnone, Option.or,
    List.find?_cons, List.find?_nil, decide_True]

/-- C7, as stated, fails when the generated id is already in use: module `1` holds a
link created at clock reading `5`; a second link created at the same reading gets the
same id, and `getOrderedResources(1)` then lists the first link twice instead of the
previous sequence followed by the new resource. -/
theorem handleSaveLink_add_collision :
    (∃ m ∈ (handleSaveLink none (Val.id 1) 5 ""
          ⟨0, Val.null, "link", "Syllabus", some "https://x", none, none, none, none, none⟩
          (handleSaveModule none 1 "" ⟨0, "Week 1", none⟩ initialData)).modules, m.id = 1)
      ∧ getOrderedResources
          (handleSaveLink none (Val.id 1) 5 ""
            ⟨0, Val.null, "link", "Notes", some "https://y", none, none, none, none, none⟩
            (handleSaveLink none (Val.id 1) 5 ""
              ⟨0, Val.null, "link", "Syllabus", some "https://x", none, none, none, none, none⟩
              (handleSaveModule none 1 "" ⟨0, "Week 1", none⟩ initialData))) (Val.id 1)
        ≠ getOrderedResources
            (handleSaveLink none (Val.id 1) 5 ""
              ⟨0, Val.null, "link", "Syllabus", some "https://x", none, none, none, none, none⟩
              (handleSaveModule none 1 "" ⟨0, "Week 1", none⟩ initialData)) (Val.id 1)
          ++ [⟨5, Val.id 1, "link", "Notes", some "https://y", none, none, none, none, some ""⟩]
      ∧ getOrderedResources
          (handleSaveLink none (Val.id 1) 5 ""
            ⟨0, Val.null, "link", "Notes", some "https://y", none, none, none, none, none⟩
            (handleSaveLink none (Val.id 1) 5 ""
              ⟨0, Val.null, "link", "Syllabus", some "https://x", none, none, none, none, none⟩
              (handleSaveModule none 1 "" ⟨0, "Week 1", none⟩ initialData))) (Val.id 1)
        = [⟨5, Val.id 1, "link", "Syllabus", some "https://x", none, none, none, none, some ""⟩,
           ⟨5, Val.id 1, "link", "Syllabus", some "https://x", none, none, none, none, some ""⟩] := by
  decide

/-- C7 (amended): for every document, in add mode `handleSaveLink` and `handleSaveUpload`
with `currentModuleId = m` append the new resource at the end of `resources` and the
generated id at the end of `resourceOrder[m]`, and leave `modules`, `moduleOrder` and
every other key of `resourceOrder` unchanged, also when the generated id is already
in use.  When the generated id is not the id of an existing resource and not already
listed in `resourceOrder[m]`, `getOrderedResources(m)` afterwards is the previous
`getOrderedResources(m)` followed by the new resource. -/
theorem handleSave_add_appends (prev : CourseData) (m : Val) (now : Nat) (iso : String)
    (item : Resource) :
    ((handleSaveLink none m now iso item prev).resources
        = prev.resources ++ [{ item with id := now, moduleId := m, createdAt := some iso }]
      ∧ (handleSaveLink none m now iso item prev).resourceOrder.get m
        = some (orEmpty (prev.resourceOrder.get m) ++ [Val.id now])
      ∧ (handleSaveLink none m now iso item prev).modules = prev.modules
      ∧ (handleSaveLink none m now iso item prev).moduleOrder = prev.moduleOrder
      ∧ (∀ k, k ≠ m →
          (handleSaveLink none m now iso item prev).resourceOrder.get k
              = prev.resourceOrder.get k
            ∧ (handleSaveLink none m now iso item prev).resourceOrder.hasKey k
              = prev.resourceOrder.hasKey k)
      ∧ ((∀ r ∈ prev.resources, r.id ≠ now) →
          Val.id now ∉ orEmpty (prev.resourceOrder.get m) →
          getOrderedResources (handleSaveLink none m now iso item prev) m
            = getOrderedResources prev m
                ++ [{ item with id := now, moduleId := m, createdAt := some iso }]))
    ∧ ((handleSaveUpload none m now iso item prev).resources
        = prev.resources ++ [{ item with id := now, moduleId := m, createdAt := some iso }]
      ∧ (handleSaveUpload none m now iso item prev).resourceOrder.get m
        = some (orEmpty (prev.resourceOrder.get m) ++ [Val.id now])
      ∧ (handleSaveUpload none m now iso item prev).modules = prev.modules
      ∧ (handleSaveUpload none m now iso item prev).moduleOrder = prev.moduleOrder
      ∧ (∀ k, k ≠ m →
          (handleSaveUpload none m now iso item prev).resourceOrder.get k
              = prev.resourceOrder.get k
            ∧ (handleSaveUpload none m now iso item prev).resourceOrder.hasKey k
              = prev.resourceOrder.hasKey k)
      ∧ ((∀ r ∈ prev.resources, r.id ≠ now) →
          Val.id now ∉ orEmpty (prev.resourceOrder.get m) →
          getOrderedResources (handleSaveUpload none m now iso item prev) m
            = getOrderedResources prev m
                ++ [{ item with id := now, moduleId := m, createdAt := some iso }])) := by
  have key : (handleSaveLink none m now iso item prev).resources
        = prev.resources ++ [{ item with id := now, moduleId := m, createdAt := some iso }]
      ∧ (handleSaveLink none m now iso item prev).resourceOrder.get m
        = some (orEmpty (prev.resourceOrder.get m) ++ [Val.id now])
      ∧ (handleSaveLink none m now iso item prev).modules = prev.modules
      ∧ (handleSaveLink none m now iso item prev).moduleOrder = prev.moduleOrder
      ∧ (∀ k, k ≠ m →
          (handleSaveLink none m now iso item prev).resourceOrder.get k
              = prev.resourceOrder.get k
            ∧ (handleSaveLink none m now iso item prev).resourceOrder.hasKey k
              = prev.resourceOrder.hasKey k)
      ∧ ((∀ r ∈ prev.resources, r.id ≠ now) →
          Val.id now ∉ orEmpty (prev.resourceOrder.get m) →
          getOrderedResources (handleSaveLink none m now iso item prev) m
            = getOrderedResources prev m
                ++ [{ item with id := now, moduleId := m, createdAt := some iso }]) := by
    refine ⟨rfl, OrderMap.get_set_self _ _ _, rfl, rfl, ?_, ?_⟩
    · intro k hk
      exact ⟨OrderMap.get_set_of_ne _ _ _ _ hk, OrderMap.hasKey_set_of_ne _ _ _ _ hk⟩
    · intro hfresh hord
      exact getOrderedResources_handleSaveLink_add prev m now iso item hfresh hord
  refine ⟨key, ?_⟩
  rw [handleSaveUpload_eq_handleSaveLink]
  exact key

/-- The scenario of C7: module "Week 1" is created (id `1`), then the link
`{title: "Syllabus", url: "https://x"}` is created in it (id `2`);
`getOrderedResources(1)` is then exactly that one resource. -/
theorem handleSave_add_appends_witness :
    getOrderedResources
        (handleSaveLink none (Val.id 1) 2 ""
          ⟨0, Val.null, "link", "Syllabus", some "https://x", none, none, none, none, none⟩
          (handleSaveModule none 1 "" ⟨0, "Week 1", none⟩ initialData)) (Val.id 1)
      = [⟨2, Val.id 1, "link", "Syllabus", some "https://x", none, none, none, none, some ""⟩] :=
  (handleSave_add_appends (handleSaveModule none 1 "" ⟨0, "Week 1", none⟩ initialData)
    (Val.id 1) 2 ""
    ⟨0, Val.null, "link", "Syllabus", some "https://x", none, none, none, none, none⟩).1.2.2.2.2.2
    (by decide) (by decide)

theorem handleResourceMove_resourceOrder (resourceId fromModuleId toModuleId : Val)
    (prev : CourseData) :
    (handleResourceMove resourceId fromModuleId toModuleId prev).resourceOrder
      = if toModuleId.truthy then
          (removedOrder resourceId fromModuleId prev.resourceOrder).set toModuleId
            (some (orEmpty ((removedOrder resourceId fromModuleId prev.resourceOrder).get
              toModuleId) ++ [resourceId]))
        else removedOrder resourceId fromModuleId prev.resourceOrder := rfl

theorem removedOrder_get_self (resourceId fromModuleId : Val) (o : OrderMap) (l : List Val)
    (ht : fromModuleId.truthy = true) (hl : o.get fromModuleId = some l) :
    (removedOrder resourceId fromModuleId o).get fromModuleId
      = some (l.filter (fun id => id ≠ resourceId)) := by
  simp only [removedOrder, ht, if_true, hl]
  exact OrderMap.get_set_self _ _ _

theorem removedOrder_get_of_ne (resourceId fromModuleId k : Val) (o : OrderMap)
    (hk : k ≠ fromModuleId) :
    (removedOrder resourceId fromModuleId o).get k = o.get k := by
  unfold removedOrder
  split
  · split
    · exact OrderMap.get_set_of_ne _ _ _ _ hk
    · rfl
  · rfl

theorem find?_id_some {rs : List Resource} {v : Val} {r : Resource}
    (h : rs.find? (fun r => Val.id r.id = v) = some r) : Val.id r.id = v ∧ r ∈ rs := by
  have h1 := List.find?_some h
  exact ⟨by simpa using h1, List.mem_of_find?_eq_some h⟩

theorem find?_id_exists {rs : List Resource} {v : Val} {r : Resource}
    (hr : r ∈ rs) (hv : Val.id r.id = v) :
    ∃ r₁, rs.find? (fun r => Val.id r.id = v) = some r₁ := by
  have h : (rs.find? (fun r => Val.id r.id = v)).isSome = true := by
    rw [List.find?_isSome]
    exact ⟨r, hr, by simpa using hv⟩
  exact Option.isSome_iff_exists.mp h

/-- Core of C3, for `handleSaveLink`. -/
theorem create_then_move_link (prev : CourseData) (a b now : Nat) (iso : String)
    (item : Resource) (hab : a ≠ b) :
    (∃ r ∈ getOrderedResources (handleResourceMove (Val.id now) (Val.id a) (Val.id b)
          (handleSaveLink none (Val.id a) now iso item prev)) (Val.id b), r.id = now)
      ∧ (∀ r ∈ getOrderedResources (handleResourceMove (Val.id now) (Val.id a) (Val.id b)
          (handleSaveLink none (Val.id a) now iso item prev)) (Val.id a), r.id ≠ now)
      ∧ (∃ r ∈ (handleResourceMove (Val.id now) (Val.id a) (Val.id b)
          (handleSaveLink none (Val.id a) now iso item prev)).resources, r.id = now)
      ∧ (∀ r ∈ (handleResourceMove (Val.id now) (Val.id a) (Val.id b)
          (handleSaveLink none (Val.id a) now iso item prev)).resources,
            r.id = now → r.moduleId = Val.id b) := by
  have hab' : Val.id a ≠ Val.id b := fun e => hab (Val.id.inj e)
  -- the order map after the move
  have hro := handleResourceMove_resourceOrder (Val.id now) (Val.id a) (Val.id b)
    (handleSaveLink none (Val.id a) now iso item prev)
  simp only [Val.truthy, if_true] at hro
  have hgetA1 : (handleSaveLink none (Val.id a) now iso item prev).resourceOrder.get (Val.id a)
      = some (orEmpty (prev.resourceOrder.get (Val.id a)) ++ [Val.id now]) :=
    OrderMap.get_set_self _ _ _
  have hgetB : (handleResourceMove (Val.id now) (Val.id a) (Val.id b)
      (handleSaveLink none (Val.id a) now iso item prev)).resourceOrder.get (Val.id b)
      = some (orEmpty ((removedOrder (Val.id now) (Val.id a)
          (handleSaveLink none (Val.id a) now iso item prev).resourceOrder).get (Val.id b))
          ++ [Val.id now]) := by
    rw [hro]; exact OrderMap.get_set_self _ _ _
  have hgetA : (handleResourceMove (Val.id now) (Val.id a) (Val.id b)
      (handleSaveLink none (Val.id a) now iso item prev)).resourceOrder.get (Val.id a)
      = some ((orEmpty (prev.resourceOrder.get (Val.id a)) ++ [Val.id now]).filter
          (fun id => id ≠ Val.id now)) := by
    rw [hro, OrderMap.get_set_of_ne _ _ _ _ hab']
    exact removedOrder_get_self _ _ _ _ rfl hgetA1
  -- the moved resource is stored
  have hmem : ({ item with id := now, moduleId := Val.id b, createdAt := some iso } : Resource)
      ∈ (handleResourceMove (Val.id now) (Val.id a) (Val.id b)
          (handleSaveLink none (Val.id a) now iso item prev)).resources := by
    simp only [handleResourceMove, handleSaveLink, List.mem_map]
    refine ⟨{ item with id := now, moduleId := Val.id a, createdAt := some iso }, ?_, ?_⟩
    · simp
    · simp
  refine ⟨?_, ?_, ⟨_, hmem, rfl⟩, ?_⟩
  · obtain ⟨r₁, hr₁⟩ := find?_id_exists hmem (v := Val.id now) rfl
    refine ⟨r₁, ?_, ?_⟩
    · unfold getOrderedResources
      rw [hgetB, orEmpty_some, List.mem_filterMap]
      exact ⟨Val.id now, by simp, hr₁⟩
    · have := (find?_id_some hr₁).1
      exact Val.id.inj this
  · intro r hr
    unfold getOrderedResources at hr
    rw [hgetA, orEmpty_some, List.mem_filterMap] at hr
    obtain ⟨v, hv, hf⟩ := hr
    have hv2 : v ≠ Val.id now := by
      have := (List.mem_filter.mp hv).2
      simpa using this
    have := (find?_id_some hf).1
    intro e
    exact hv2 (by rw [← this, e])
  · intro r hr hid
    simp only [handleResourceMove, List.mem_map] at hr
    obtain ⟨r₀, _, hr₀⟩ := hr
    by_cases h : Val.id r₀.id = Val.id now
    · rw [if_pos h] at hr₀
      rw [← hr₀]
    · rw [if_neg h] at hr₀
      rw [← hr₀] at hid
      exact absurd (congrArg Val.id hid) h

/-- C3: for two distinct existing modules `a` and `b`, a resource `r` created with
`currentModuleId = a` (by `handleSaveLink` or by `handleSaveUpload`) and then moved by
`handleResourceMove(r, a, b)` appears in `getOrderedResources(b)`, does not appear in
`getOrderedResources(a)`, and is stored with `moduleId == b`. -/
theorem create_then_move (prev : CourseData) (a b now : Nat) (iso : String) (item : Resource)
    (_ha : ∃ x ∈ prev.modules, x.id = a) (_hb : ∃ x ∈ prev.modules, x.id = b)
    (hab : a ≠ b) :
    ((∃ r ∈ getOrderedResources (handleResourceMove (Val.id now) (Val.id a) (Val.id b)
          (handleSaveLink none (Val.id a) now iso item prev)) (Val.id b), r.id = now)
      ∧ (∀ r ∈ getOrderedResources (handleResourceMove (Val.id now) (Val.id a) (Val.id b)
          (handleSaveLink none (Val.id a) now iso item prev)) (Val.id a), r.id ≠ now)
      ∧ (∃ r ∈ (handleResourceMove (Val.id now) (Val.id a) (Val.id b)
          (handleSaveLink none (Val.id a) now iso item prev)).resources, r.id = now)
      ∧ (∀ r ∈ (handleResourceMove (Val.id now) (Val.id a) (Val.id b)
          (handleSaveLink none (Val.id a) now iso item prev)).resources,
            r.id = now → r.moduleId = Val.id b))
    ∧ ((∃ r ∈ getOrderedResources (handleResourceMove (Val.id now) (Val.id a) (Val.id b)
          (handleSaveUpload none (Val.id a) now iso item prev)) (Val.id b), r.id = now)
      ∧ (∀ r ∈ getOrderedResources (handleResourceMove (Val.id now) (Val.id a) (Val.id b)
          (handleSaveUpload none (Val.id a) now iso item prev)) (Val.id a), r.id ≠ now)
      ∧ (∃ r ∈ (handleResourceMove (Val.id now) (Val.id a) (Val.id b)
          (handleSaveUpload none (Val.id a) now iso item prev)).resources, r.id = now)
      ∧ (∀ r ∈ (handleResourceMove (Val.id now) (Val.id a) (Val.id b)
          (handleSaveUpload none (Val.id a) now iso item prev)).resources,
            r.id = now → r.moduleId = Val.id b)) := by
  refine ⟨create_then_move_link prev a b now iso item hab, ?_⟩
  rw [handleSaveUpload_eq_handleSaveLink]
  exact create_then_move_link prev a b now iso item hab

/-- An instance of C3: modules `1` and `2`, a link created in `1` (id `3`) and moved to
`2`. -/
theorem create_then_move_witness :
    (∃ r ∈ getOrderedResources (handleResourceMove (Val.id 3) (Val.id 1) (Val.id 2)
          (handleSaveLink none (Val.id 1) 3 ""
            ⟨0, Val.null, "link", "Syllabus", some "https://x", none, none, none, none, none⟩
            (handleSaveModule none 2 "" ⟨0, "Week 2", none⟩
              (handleSaveModule none 1 "" ⟨0, "Week 1", none⟩ initialData)))) (Val.id 2),
        r.id = 3)
      ∧ getOrderedResources (handleResourceMove (Val.id 3) (Val.id 1) (Val.id 2)
          (handleSaveLink none (Val.id 1) 3 ""
            ⟨0, Val.null, "link", "Syllabus", some "https://x", none, none, none, none, none⟩
            (handleSaveModule none 2 "" ⟨0, "Week 2", none⟩
              (handleSaveModule none 1 "" ⟨0, "Week 1", none⟩ initialData)))) (Val.id 1) = [] :=
  ⟨(create_then_move (handleSaveModule none 2 "" ⟨0, "Week 2", none⟩
      (handleSaveModule none 1 "" ⟨0, "Week 1", none⟩ initialData)) 1 2 3 ""
      ⟨0, Val.null, "link", "Syllabus", some "https://x", none, none, none, none, none⟩
      (by decide) (by decide) (by decide)).1.1, by decide⟩

/-! ## Preservation of the ordering invariants -/

theorem mem_moduleIds {d : CourseData} {v : Val} :
    v ∈ moduleIds d ↔ ∃ m ∈ d.modules, Val.id m.id = v := by
  simp [moduleIds]

theorem mem_resourceIdsOf {d : CourseData} {k v : Val} :
    v ∈ resourceIdsOf d k ↔ ∃ r ∈ d.resources, r.moduleId = k ∧ Val.id r.id = v := by
  simp [resourceIdsOf, getModuleResources, and_assoc]

theorem truthy_of_mem_moduleIds {d : CourseData} {k : Val} (hk : k ∈ moduleIds d) :
    k.truthy = true := by
  obtain ⟨m, _, rfl⟩ := mem_moduleIds.mp hk
  rfl

theorem Inv.initial : Inv initialData where
  modNodup := by simp [moduleIds, initialData]
  ordNodup := by simp [initialData]
  ordMem := by simp [moduleIds, initialData]
  resNodup := by simp [initialData]
  lists := by simp [moduleIds, initialData]

/-- Two stored resources with the same id are the same resource. -/
theorem Inv.resource_unique {d : CourseData} (h : Inv d) {r₁ r₂ : Resource}
    (h₁ : r₁ ∈ d.resources) (h₂ : r₂ ∈ d.resources) (he : r₁.id = r₂.id) : r₁ = r₂ :=
  List.inj_on_of_nodup_map h.resNodup h₁ h₂ he

/-- `Inv` only looks at the module ids, the resources' ids and owners, and the two
orders. -/
theorem Inv.transfer {d d₁ : CourseData} (h : Inv d)
    (hmods : moduleIds d₁ = moduleIds d) (hord : d₁.moduleOrder = d.moduleOrder)
    (hres : d₁.resources.map (fun r => r.id) = d.resources.map (fun r => r.id))
    (hown : ∀ k v, v ∈ resourceIdsOf d₁ k ↔ v ∈ resourceIdsOf d k)
    (hro : d₁.resourceOrder = d.resourceOrder) : Inv d₁ where
  modNodup := by rw [hmods]; exact h.modNodup
  ordNodup := by rw [hord]; exact h.ordNodup
  ordMem := by rw [hord, hmods]; exact h.ordMem
  resNodup := by rw [hres]; exact h.resNodup
  lists := by
    intro k hk
    rw [hmods] at hk
    obtain ⟨l, hl, hnd, hmem⟩ := h.lists k hk
    exact ⟨l, by rw [hro]; exact hl, hnd, fun v => (hmem v).trans (hown k v).symm⟩

theorem inv_handleSaveModule_add {d : CourseData} (h : Inv d) (now : Nat) (iso : String)
    (module : CourseModule) (hfresh : Val.id now ∉ moduleIds d)
    (href : ∀ r ∈ d.resources, r.moduleId ≠ Val.id now) :
    Inv (handleSaveModule none now iso module d) := by
  have hmods : moduleIds (handleSaveModule none now iso module d)
      = moduleIds d ++ [Val.id now] := by
    simp [moduleIds, handleSaveModule]
  have hown : ∀ k, resourceIdsOf (handleSaveModule none now iso module d) k
      = resourceIdsOf d k := fun _ => rfl
  refine ⟨?_, ?_, ?_, h.resNodup, ?_⟩
  · rw [hmods, List.nodup_append]
    refine ⟨h.modNodup, by simp, ?_⟩
    intro a ha hb
    have : a = Val.id now := by simpa using hb
    exact hfresh (this ▸ ha)
  · show (d.moduleOrder ++ [Val.id now]).Nodup
    rw [List.nodup_append]
    refine ⟨h.ordNodup, by simp, ?_⟩
    intro a ha hb
    have : a = Val.id now := by simpa using hb
    exact hfresh ((h.ordMem _).mp (this ▸ ha))
  · intro v
    rw [hmods]
    show v ∈ d.moduleOrder ++ [Val.id now] ↔ _
    simp only [List.mem_append, h.ordMem v]
  · intro k hk
    rw [hmods, List.mem_append] at hk
    by_cases hkn : k = Val.id now
    · subst hkn
      refine ⟨[], OrderMap.get_set_self _ _ _, List.nodup_nil, ?_⟩
      intro v
      rw [hown, mem_resourceIdsOf]
      constructor
      · intro hv; simp at hv
      · rintro ⟨r, hr, hm, _⟩
        exact absurd hm (href r hr)
    · have hk' : k ∈ moduleIds d := by
        rcases hk with hk | hk
        · exact hk
        · exact absurd (by simpa using hk) hkn
      obtain ⟨l, hl, hnd, hmem⟩ := h.lists k hk'
      refine ⟨l, ?_, hnd, ?_⟩
      · show (d.resourceOrder.set (Val.id now) (some [])).get k = some l
        rw [OrderMap.get_set_of_ne _ _ _ _ hkn]; exact hl
      · intro v; rw [hown]; exact hmem v

theorem inv_handleSaveModule_edit {d : CourseData} (h : Inv d) (c : CourseModule)
    (now : Nat) (iso : String) (module : CourseModule) :
    Inv (handleSaveModule (some c) now iso module d) := by
  apply h.transfer
  · simp only [moduleIds, handleSaveModule, List.map_map]
    apply List.map_congr_left
    intro m _
    simp only [Function.comp]
    split
    · next e => rw [e]
    · rfl
  · rfl
  · rfl
  · intro k v; rfl
  · rfl

theorem nodup_map_id_filter {rs : List Resource} (p : Resource → Bool)
    (h : (rs.map (fun r => r.id)).Nodup) : ((rs.filter p).map (fun r => r.id)).Nodup :=
  h.sublist ((List.filter_sublist rs).map _)

theorem inv_handleDeleteModule {d : CourseData} (h : Inv d) (moduleId : Val) :
    Inv (handleDeleteModule moduleId d) := by
  have hmods : moduleIds (handleDeleteModule moduleId d)
      = (moduleIds d).filter (fun v => v ≠ moduleId) := by
    simp only [moduleIds, handleDeleteModule, List.filter_map]
    rfl
  refine ⟨?_, ?_, ?_, ?_, ?_⟩
  · rw [hmods]; exact h.modNodup.filter _
  · exact h.ordNodup.filter _
  · intro v
    rw [hmods]
    show v ∈ d.moduleOrder.filter (fun id => id ≠ moduleId) ↔ _
    simp only [List.mem_filter, h.ordMem v]
  · exact nodup_map_id_filter _ h.resNodup
  · intro k hk
    rw [hmods, List.mem_filter] at hk
    have hne : k ≠ moduleId := by simpa using hk.2
    obtain ⟨l, hl, hnd, hmem⟩ := h.lists k hk.1
    refine ⟨l, ?_, hnd, ?_⟩
    · show (d.resourceOrder.set moduleId none).get k = some l
      rw [OrderMap.get_set_of_ne _ _ _ _ hne]; exact hl
    · intro v
      rw [hmem v, mem_resourceIdsOf, mem_resourceIdsOf]
      simp only [handleDeleteModule, List.mem_filter]
      constructor
      · rintro ⟨r, hr, hm, hv⟩
        exact ⟨r, ⟨hr, by simpa [hm] using hne⟩, hm, hv⟩
      · rintro ⟨r, ⟨hr, _⟩, hm, hv⟩
        exact ⟨r, hr, hm, hv⟩

theorem inv_handleSaveLink_add {d : CourseData} (h : Inv d) (currentModuleId : Val)
    (now : Nat) (iso : String) (linkItem : Resource)
    (hfresh : ∀ r ∈ d.resources, r.id ≠ now) :
    Inv (handleSaveLink none currentModuleId now iso linkItem d) := by
  have hown : ∀ k v, v ∈ resourceIdsOf (handleSaveLink none currentModuleId now iso linkItem d) k
      ↔ v ∈ resourceIdsOf d k ∨ (currentModuleId = k ∧ Val.id now = v) := by
    intro k v
    rw [mem_resourceIdsOf, mem_resourceIdsOf]
    simp only [handleSaveLink, List.mem_append, List.mem_singleton]
    constructor
    · rintro ⟨r, hr | hr, hm, hv⟩
      · exact Or.inl ⟨r, hr, hm, hv⟩
      · subst hr; exact Or.inr ⟨hm, hv⟩
    · rintro (⟨r, hr, hm, hv⟩ | ⟨hm, hv⟩)
      · exact ⟨r, Or.inl hr, hm, hv⟩
      · exact ⟨_, Or.inr rfl, hm, hv⟩
  refine ⟨h.modNodup, h.ordNodup, h.ordMem, ?_, ?_⟩
  · have hids : (handleSaveLink none currentModuleId now iso linkItem d).resources.map
        (fun r => r.id) = d.resources.map (fun r => r.id) ++ [now] := by
      simp [handleSaveLink]
    rw [hids, List.nodup_append]
    refine ⟨h.resNodup, by simp, ?_⟩
    intro a ha hb
    have hb' : a = now := by simpa using hb
    obtain ⟨r, hr, hra⟩ := List.mem_map.mp ha
    exact hfresh r hr (hra.trans hb')
  · intro k hk
    have hk' : k ∈ moduleIds d := hk
    obtain ⟨l, hl, hnd, hmem⟩ := h.lists k hk'
    by_cases hkc : k = currentModuleId
    · subst hkc
      refine ⟨l ++ [Val.id now], ?_, ?_, ?_⟩
      · show (d.resourceOrder.set k (some (orEmpty (d.resourceOrder.get k) ++ [Val.id now]))).get k
          = _
        rw [OrderMap.get_set_self, hl, orEmpty_some]
      · rw [List.nodup_append]
        refine ⟨hnd, by simp, ?_⟩
        intro a ha hb
        have hb' : a = Val.id now := by simpa using hb
        subst hb'
        obtain ⟨r, hr, _, hv⟩ := mem_resourceIdsOf.mp ((hmem _).mp ha)
        exact hfresh r hr (Val.id.inj hv)
      · intro v
        rw [hown, List.mem_append, hmem v, List.mem_singleton]
        constructor
        · rintro (hv | hv)
          · exact Or.inl hv
          · exact Or.inr ⟨rfl, hv.symm⟩
        · rintro (hv | ⟨_, hv⟩)
          · exact Or.inl hv
          · exact Or.inr hv.symm
    · refine ⟨l, ?_, hnd, ?_⟩
      · show (d.resourceOrder.set currentModuleId _).get k = some l
        rw [OrderMap.get_set_of_ne _ _ _ _ hkc]; exact hl
      · intro v
        rw [hown, hmem v]
        constructor
        · exact Or.inl
        · rintro (hv | ⟨hm, _⟩)
          · exact hv
          · exact absurd hm.symm hkc

theorem inv_handleSaveLink_edit {d : CourseData} (h : Inv d) (c : Resource)
    (currentModuleId : Val) (now : Nat) (iso : String) (linkItem : Resource)
    (hkeep : ∀ r ∈ d.resources, r.id = linkItem.id → r.moduleId = linkItem.moduleId) :
    Inv (handleSaveLink (some c) currentModuleId now iso linkItem d) := by
  have hg : ∀ r ∈ d.resources,
      (if r.id = linkItem.id then linkItem else r).id = r.id
        ∧ (if r.id = linkItem.id then linkItem else r).moduleId = r.moduleId := by
    intro r hr
    by_cases e : r.id = linkItem.id
    · rw [if_pos e]; exact ⟨e.symm, (hkeep r hr e).symm⟩
    · rw [if_neg e]; exact ⟨rfl, rfl⟩
  apply h.transfer
  · rfl
  · rfl
  · simp only [handleSaveLink, List.map_map]
    apply List.map_congr_left
    intro r hr
    exact (hg r hr).1
  · intro k v
    rw [mem_resourceIdsOf, mem_resourceIdsOf]
    simp only [handleSaveLink, List.mem_map]
    constructor
    · rintro ⟨r', ⟨r, hr, rfl⟩, hm, hv⟩
      exact ⟨r, hr, (hg r hr).2 ▸ hm, (hg r hr).1 ▸ hv⟩
    · rintro ⟨r, hr, hm, hv⟩
      exact ⟨_, ⟨r, hr, rfl⟩, (hg r hr).2.trans hm, by rw [(hg r hr).1]; exact hv⟩
  · rfl

/-- Dragging an element of the array yields a permutation, wherever it is dropped. -/
theorem moveItem_perm_of_drag (arr : List Val) (i j : Int)
    (hi0 : 0 ≤ i) (hi : i < arr.length) : (moveItem arr i j).Perm arr := by
  obtain ⟨h, hx⟩ := jsIndex_of_inRange arr i hi0 hi
  unfold moveItem spliceInsert spliceRemove
  rw [spliceStart_of_inRange arr.length i hi0 hi, hx]
  refine List.perm_middle.trans ?_
  rw [List.take_append_drop]
  have h2 := insert_eraseIdx_self arr i.toNat h
  have h3 : ((arr.eraseIdx i.toNat).take i.toNat ++ arr[i.toNat] ::
      (arr.eraseIdx i.toNat).drop i.toNat).Perm (arr[i.toNat] :: arr.eraseIdx i.toNat) := by
    refine List.perm_middle.trans ?_
    rw [List.take_append_drop]
  rw [h2] at h3
  exact h3.symm

theorem indexInRange_iff (arr : List Val) (i : Int) :
    indexInRange arr i = true ↔ 0 ≤ i ∧ i < arr.length := by
  simp [indexInRange]

theorem inv_handleModuleReorder {d : CourseData} (h : Inv d) (dragIndex hoverIndex : Int)
    (h0 : 0 ≤ dragIndex) (h1 : dragIndex < d.moduleOrder.length) :
    Inv (handleModuleReorder dragIndex hoverIndex d) := by
  have hp := moveItem_perm_of_drag d.moduleOrder dragIndex hoverIndex h0 h1
  refine ⟨h.modNodup, ?_, ?_, h.resNodup, h.lists⟩
  · exact hp.nodup_iff.mpr h.ordNodup
  · intro v
    exact hp.mem_iff.trans (h.ordMem v)

theorem inv_handleResourceReorder {d : CourseData} (h : Inv d) (moduleId : Val)
    (dragIndex hoverIndex : Int) (h0 : 0 ≤ dragIndex)
    (h1 : dragIndex < (orEmpty (d.resourceOrder.get moduleId)).length) :
    Inv (handleResourceReorder moduleId dragIndex hoverIndex d) := by
  have hp := moveItem_perm_of_drag (orEmpty (d.resourceOrder.get moduleId))
    dragIndex hoverIndex h0 h1
  refine ⟨h.modNodup, h.ordNodup, h.ordMem, h.resNodup, ?_⟩
  intro k hk
  have hk' : k ∈ moduleIds d := hk
  obtain ⟨l, hl, hnd, hmem⟩ := h.lists k hk'
  by_cases hkm : k = moduleId
  · subst hkm
    rw [hl, orEmpty_some] at hp
    refine ⟨moveItem l dragIndex hoverIndex, ?_, hp.nodup_iff.mpr hnd, ?_⟩
    · show (d.resourceOrder.set k
        (some (moveItem (orEmpty (d.resourceOrder.get k)) dragIndex hoverIndex))).get k = _
      rw [OrderMap.get_set_self, hl, orEmpty_some]
    · intro v
      exact hp.mem_iff.trans (hmem v)
  · refine ⟨l, ?_, hnd, hmem⟩
    show (d.resourceOrder.set moduleId _).get k = some l
    rw [OrderMap.get_set_of_ne _ _ _ _ hkm]; exact hl

/-- Membership among a module's resource ids after the resources with id `x` are
filtered out. -/
theorem mem_resourceIdsOf_filter_id {d d₁ : CourseData} {x : Val}
    (hres : d₁.resources = d.resources.filter (fun r => Val.id r.id ≠ x)) (k v : Val) :
    v ∈ resourceIdsOf d₁ k ↔ v ∈ resourceIdsOf d k ∧ v ≠ x := by
  rw [mem_resourceIdsOf, mem_resourceIdsOf, hres]
  simp only [List.mem_filter]
  constructor
  · rintro ⟨r, ⟨hr, hx⟩, hm, hv⟩
    exact ⟨⟨r, hr, hm, hv⟩, by rw [← hv]; simpa using hx⟩
  · rintro ⟨⟨r, hr, hm, hv⟩, hx⟩
    exact ⟨r, ⟨hr, by rw [← hv] at hx; simpa using hx⟩, hm, hv⟩

theorem handleDeleteItem_resources (itemId : Val) (d : CourseData) :
    (handleDeleteItem itemId d).resources
      = d.resources.filter (fun r => Val.id r.id ≠ itemId) := by
  unfold handleDeleteItem
  split
  · split <;> rfl
  · rfl

theorem handleDeleteItem_modules (itemId : Val) (d : CourseData) :
    (handleDeleteItem itemId d).modules = d.modules
      ∧ (handleDeleteItem itemId d).moduleOrder = d.moduleOrder := by
  unfold handleDeleteItem
  split
  · split <;> exact ⟨rfl, rfl⟩
  · exact ⟨rfl, rfl⟩

/-- Under the invariant, filtering `resourceId` out of its owner's list takes it out of
every module's list and changes nothing else. -/
theorem removedOrder_lists {d : CourseData} (h : Inv d) (resourceId fromModuleId : Val)
    (hown : ∀ r ∈ d.resources, Val.id r.id = resourceId → r.moduleId = fromModuleId) :
    ∀ k ∈ moduleIds d, ∃ l,
      (removedOrder resourceId fromModuleId d.resourceOrder).get k = some l ∧ l.Nodup
        ∧ ∀ v, v ∈ l ↔ v ∈ resourceIdsOf d k ∧ v ≠ resourceId := by
  intro k hk
  obtain ⟨l, hl, hnd, hmem⟩ := h.lists k hk
  by_cases hkf : k = fromModuleId
  · subst hkf
    refine ⟨l.filter (fun id => id ≠ resourceId), ?_, hnd.filter _, ?_⟩
    · exact removedOrder_get_self _ _ _ _ (truthy_of_mem_moduleIds hk) hl
    · intro v
      simp only [List.mem_filter, hmem v, decide_eq_true_eq]
  · refine ⟨l, ?_, hnd, ?_⟩
    · rw [removedOrder_get_of_ne _ _ _ _ hkf]; exact hl
    · intro v
      rw [hmem v]
      constructor
      · intro hv
        refine ⟨hv, ?_⟩
        intro e
        obtain ⟨r, hr, hm, hid⟩ := mem_resourceIdsOf.mp hv
        exact hkf (hm.symm.trans (hown r hr (hid.trans e)))
      · exact fun hv => hv.1

theorem handleDeleteItem_resourceOrder (itemId : Val) (d : CourseData) :
    (handleDeleteItem itemId d).resourceOrder
      = removedOrder itemId
          (match d.resources.find? (fun r => Val.id r.id = itemId) with
            | some resource => resource.moduleId
            | none => Val.null)
          d.resourceOrder := by
  unfold handleDeleteItem
  split
  · next resource hfind =>
    by_cases ht : resource.moduleId.truthy = true
    · simp only [ht, if_true, removedOrder]
    · simp only [ht, if_false, removedOrder]
      rfl
  · rfl

theorem inv_handleDeleteItem {d : CourseData} (h : Inv d) (itemId : Val) :
    Inv (handleDeleteItem itemId d) := by
  have hres := handleDeleteItem_resources itemId d
  have hmo := handleDeleteItem_modules itemId d
  have hmods : moduleIds (handleDeleteItem itemId d) = moduleIds d := by
    unfold moduleIds; rw [hmo.1]
  have hown : ∀ r ∈ d.resources, Val.id r.id = itemId →
      r.moduleId = (match d.resources.find? (fun r => Val.id r.id = itemId) with
            | some resource => resource.moduleId
            | none => Val.null) := by
    intro r hr hid
    obtain ⟨r₁, hr₁⟩ := find?_id_exists hr hid
    rw [hr₁]
    have h2 := find?_id_some hr₁
    have : r.id = r₁.id := Val.id.inj (hid.trans h2.1.symm)
    rw [h.resource_unique hr h2.2 this]
  refine ⟨?_, ?_, ?_, ?_, ?_⟩
  · rw [hmods]; exact h.modNodup
  · rw [hmo.2]; exact h.ordNodup
  · rw [hmo.2, hmods]; exact h.ordMem
  · rw [hres]; exact nodup_map_id_filter _ h.resNodup
  · intro k hk
    rw [hmods] at hk
    obtain ⟨l, hl, hnd, hmem⟩ := removedOrder_lists h itemId _ hown k hk
    refine ⟨l, ?_, hnd, ?_⟩
    · rw [handleDeleteItem_resourceOrder]; exact hl
    · intro v
      rw [hmem v, mem_resourceIdsOf_filter_id hres]

theorem inv_handleResourceMove {d : CourseData} (h : Inv d)
    (resourceId fromModuleId toModuleId : Val)
    (hr : ∃ r ∈ d.resources, Val.id r.id = resourceId ∧ r.moduleId = fromModuleId) :
    Inv (handleResourceMove resourceId fromModuleId toModuleId d) := by
  obtain ⟨r₀, hr₀, hid₀, hm₀⟩ := hr
  have hown : ∀ r ∈ d.resources, Val.id r.id = resourceId → r.moduleId = fromModuleId := by
    intro r hr hid
    have : r.id = r₀.id := Val.id.inj (hid.trans hid₀.symm)
    rw [h.resource_unique hr hr₀ this]; exact hm₀
  have hids : (handleResourceMove resourceId fromModuleId toModuleId d).resources.map
      (fun r => r.id) = d.resources.map (fun r => r.id) := by
    simp only [handleResourceMove, List.map_map]
    apply List.map_congr_left
    intro r _
    simp only [Function.comp]
    split <;> rfl
  have hmemres : ∀ k v,
      v ∈ resourceIdsOf (handleResourceMove resourceId fromModuleId toModuleId d) k
        ↔ (v ∈ resourceIdsOf d k ∧ v ≠ resourceId) ∨ (toModuleId = k ∧ v = resourceId) := by
    intro k v
    rw [mem_resourceIdsOf, mem_resourceIdsOf]
    simp only [handleResourceMove, List.mem_map]
    constructor
    · rintro ⟨r', ⟨r, hr, rfl⟩, hm, hv⟩
      by_cases e : Val.id r.id = resourceId
      · rw [if_pos e] at hm hv
        exact Or.inr ⟨hm, hv.symm.trans e⟩
      · rw [if_neg e] at hm hv
        exact Or.inl ⟨⟨r, hr, hm, hv⟩, by rw [← hv]; exact e⟩
    · rintro (⟨⟨r, hr, hm, hv⟩, hne⟩ | ⟨hm, hv⟩)
      · have e : ¬ Val.id r.id = resourceId := by rw [hv]; exact hne
        exact ⟨_, ⟨r, hr, rfl⟩, by rw [if_neg e]; exact hm, by rw [if_neg e]; exact hv⟩
      · exact ⟨_, ⟨r₀, hr₀, rfl⟩, by rw [if_pos hid₀]; exact hm,
          by rw [if_pos hid₀]; exact hid₀.trans hv.symm⟩
  refine ⟨h.modNodup, h.ordNodup, h.ordMem, by rw [hids]; exact h.resNodup, ?_⟩
  intro k hk
  have hk' : k ∈ moduleIds d := hk
  obtain ⟨l, hl, hnd, hmem⟩ := removedOrder_lists h resourceId fromModuleId hown k hk'
  rw [handleResourceMove_resourceOrder]
  by_cases hkt : k = toModuleId
  · subst hkt
    rw [if_pos (truthy_of_mem_moduleIds hk')]
    refine ⟨l ++ [resourceId], ?_, ?_, ?_⟩
    · rw [OrderMap.get_set_self, hl, orEmpty_some]
    · rw [List.nodup_append]
      refine ⟨hnd, by simp, ?_⟩
      intro a ha hb
      have hb' : a = resourceId := by simpa using hb
      exact ((hmem a).mp ha).2 hb'
    · intro v
      rw [hmemres, List.mem_append, hmem v, List.mem_singleton]
      constructor
      · rintro (hv | hv)
        · exact Or.inl hv
        · exact Or.inr ⟨rfl, hv⟩
      · rintro (hv | ⟨_, hv⟩)
        · exact Or.inl hv
        · exact Or.inr hv
  · have hget : (if toModuleId.truthy = true then
          (removedOrder resourceId fromModuleId d.resourceOrder).set toModuleId
            (some (orEmpty ((removedOrder resourceId fromModuleId d.resourceOrder).get
              toModuleId) ++ [resourceId]))
        else removedOrder resourceId fromModuleId d.resourceOrder).get k = some l := by
      split
      · rw [OrderMap.get_set_of_ne _ _ _ _ hkt]; exact hl
      · exact hl
    refine ⟨l, hget, hnd, ?_⟩
    intro v
    rw [hmemres, hmem v]
    constructor
    · exact Or.inl
    · rintro (hv | ⟨hm, _⟩)
      · exact hv
      · exact absurd hm.symm hkt

/-! ## Order arrays without `undefined` -/

theorem OrderMap.mem_set {o : OrderMap} {k : Val} {v : Option (List Val)}
    {p : Val × Option (List Val)} (hp : p ∈ o.set k v) : p ∈ o ∨ p = (k, v) := by
  induction o with
  | nil =>
    simp only [OrderMap.set, List.mem_singleton] at hp
    exact Or.inr hp
  | cons q t ih =>
    obtain ⟨k', v'⟩ := q
    by_cases hk : k' = k
    · simp only [OrderMap.set, hk, if_true, List.mem_cons] at hp
      rcases hp with hp | hp
      · exact Or.inr hp
      · exact Or.inl (List.mem_cons_of_mem _ hp)
    · simp only [OrderMap.set, hk, if_false, List.mem_cons] at hp
      rcases hp with hp | hp
      · exact Or.inl (hp ▸ List.mem_cons_self _ _)
      · rcases ih hp with h | h
        · exact Or.inl (List.mem_cons_of_mem _ h)
        · exact Or.inr h

theorem OrderMap.mem_of_get {o : OrderMap} {k : Val} {l : List Val}
    (h : o.get k = some l) : ∃ p ∈ o, p.2 = some l := by
  induction o with
  | nil => simp [OrderMap.get] at h
  | cons q t ih =>
    obtain ⟨k', v'⟩ := q
    by_cases hk : k' = k
    · simp only [OrderMap.get, hk, if_true] at h
      exact ⟨(k', v'), List.mem_cons_self _ _, h⟩
    · simp only [OrderMap.get, hk, if_false] at h
      obtain ⟨p, hp, hl⟩ := ih h
      exact ⟨p, List.mem_cons_of_mem _ hp, hl⟩

theorem OrderMap.Clean.set {o : OrderMap} (h : o.Clean) (k : Val) (v : Option (List Val))
    (hv : ∀ l, v = some l → Val.undefined ∉ l) : (o.set k v).Clean := by
  intro p hp l hl
  rcases OrderMap.mem_set hp with hp | hp
  · exact h p hp l hl
  · subst hp; exact hv l hl

theorem OrderMap.Clean.orEmpty_get {o : OrderMap} (h : o.Clean) (k : Val) :
    Val.undefined ∉ orEmpty (o.get k) := by
  cases hg : o.get k with
  | none => simp
  | some l =>
    obtain ⟨p, hp, hl⟩ := OrderMap.mem_of_get hg
    exact h p hp l hl

theorem OrderMap.Clean.removedOrder {o : OrderMap} (h : o.Clean) (resourceId fromModuleId : Val) :
    (CourseBuilder.removedOrder resourceId fromModuleId o).Clean := by
  unfold CourseBuilder.removedOrder
  split
  · split
    · next l hl =>
      apply h.set
      intro l₁ hl₁ hu
      have hl₁' : l.filter (fun id => id ≠ resourceId) = l₁ := Option.some.inj hl₁
      rw [← hl₁'] at hu
      have := h.orEmpty_get fromModuleId
      rw [hl, orEmpty_some] at this
      exact this (List.mem_filter.mp hu).1
    · exact h
  · exact h

theorem idInUse_eq_false {d : CourseData} {n : Nat} (h : idInUse d n = false) :
    Val.id n ∉ moduleIds d ∧ (∀ r ∈ d.resources, r.id ≠ n)
      ∧ (∀ r ∈ d.resources, r.moduleId ≠ Val.id n) := by
  simp only [idInUse, Bool.or_eq_false_iff, List.any_eq_false, decide_eq_true_eq,
    Bool.or_eq_true, not_or] at h
  refine ⟨?_, fun r hr => (h.2 r hr).1, fun r hr => (h.2 r hr).2⟩
  intro hm
  obtain ⟨m, hmem, hid⟩ := mem_moduleIds.mp hm
  exact h.1 m hmem (Val.id.inj hid)

/-- A well-formed call preserves the invariant. -/
theorem inv_apply {d : CourseData} (h : Inv d) (op : Op) (hw : op.wellFormed d = true) :
    Inv (op.apply d) := by
  cases op with
  | saveModule currentModule now iso module =>
    cases currentModule with
    | none =>
      have hf := idInUse_eq_false (d := d) (n := now) (by simpa [Op.wellFormed] using hw)
      exact inv_handleSaveModule_add h now iso module hf.1 hf.2.2
    | some c => exact inv_handleSaveModule_edit h c now iso module
  | deleteModule moduleId => exact inv_handleDeleteModule h moduleId
  | saveLink currentResource currentModuleId now iso linkItem =>
    cases currentResource with
    | none =>
      have hf := idInUse_eq_false (d := d) (n := now) (by simpa [Op.wellFormed] using hw)
      exact inv_handleSaveLink_add h currentModuleId now iso linkItem hf.2.1
    | some c =>
      refine inv_handleSaveLink_edit h c currentModuleId now iso linkItem ?_
      intro r hr e
      simp only [Op.wellFormed, List.all_eq_true, Bool.or_eq_true, decide_eq_true_eq] at hw
      rcases hw r hr with h1 | h1
      · exact absurd e h1
      · exact h1
  | saveUpload currentResource currentModuleId now iso fileItem =>
    show Inv (handleSaveUpload currentResource currentModuleId now iso fileItem d)
    rw [handleSaveUpload_eq_handleSaveLink]
    cases currentResource with
    | none =>
      have hf := idInUse_eq_false (d := d) (n := now) (by simpa [Op.wellFormed] using hw)
      exact inv_handleSaveLink_add h currentModuleId now iso fileItem hf.2.1
    | some c =>
      refine inv_handleSaveLink_edit h c currentModuleId now iso fileItem ?_
      intro r hr e
      simp only [Op.wellFormed, List.all_eq_true, Bool.or_eq_true, decide_eq_true_eq] at hw
      rcases hw r hr with h1 | h1
      · exact absurd e h1
      · exact h1
  | deleteItem itemId => exact inv_handleDeleteItem h itemId
  | moduleReorder dragIndex hoverIndex =>
    have hr := (indexInRange_iff _ _).mp hw
    exact inv_handleModuleReorder h dragIndex hoverIndex hr.1 hr.2
  | resourceReorder moduleId dragIndex hoverIndex =>
    have hr := (indexInRange_iff _ _).mp hw
    exact inv_handleResourceReorder h moduleId dragIndex hoverIndex hr.1 hr.2
  | resourceMove resourceId fromModuleId toModuleId =>
    refine inv_handleResourceMove h resourceId fromModuleId toModuleId ?_
    simp only [Op.wellFormed, List.any_eq_true, Bool.and_eq_true, decide_eq_true_eq] at hw
    exact hw

/-- A well-formed call puts no `undefined` into an order array. -/
theorem arraysClean_apply {d : CourseData} (h : ArraysClean d) (op : Op)
    (hw : op.wellFormed d = true) : ArraysClean (op.apply d) := by
  obtain ⟨h₁, h₂⟩ := h
  have hsave : ∀ (c : Option Resource) (currentModuleId : Val) (now : Nat) (iso : String)
      (item : Resource), ArraysClean (handleSaveLink c currentModuleId now iso item d) := by
    intro c currentModuleId now iso item
    cases c with
    | some _ => exact ⟨h₁, h₂⟩
    | none =>
      refine ⟨h₁, h₂.set _ _ ?_⟩
      intro l hl hu
      have hl' : orEmpty (d.resourceOrder.get currentModuleId) ++ [Val.id now] = l :=
        Option.some.inj hl
      rw [← hl', List.mem_append] at hu
      rcases hu with hu | hu
      · exact h₂.orEmpty_get _ hu
      · simp at hu
  cases op with
  | saveModule currentModule now iso module =>
    cases currentModule with
    | none =>
      refine ⟨?_, h₂.set _ _ ?_⟩
      · show Val.undefined ∉ d.moduleOrder ++ [Val.id now]
        simp [h₁]
      · intro l hl
        have : [] = l := Option.some.inj hl
        simp [← this]
    | some c => exact ⟨h₁, h₂⟩
  | deleteModule moduleId =>
    refine ⟨?_, h₂.set _ _ ?_⟩
    · intro hu
      exact h₁ (List.mem_filter.mp hu).1
    · intro l hl; cases hl
  | saveLink currentResource currentModuleId now iso linkItem =>
    exact hsave currentResource currentModuleId now iso linkItem
  | saveUpload currentResource currentModuleId now iso fileItem =>
    show ArraysClean (handleSaveUpload currentResource currentModuleId now iso fileItem d)
    rw [handleSaveUpload_eq_handleSaveLink]
    exact hsave currentResource currentModuleId now iso fileItem
  | deleteItem itemId =>
    refine ⟨?_, ?_⟩
    · rw [show (Op.apply (Op.deleteItem itemId) d).moduleOrder = d.moduleOrder from
        (handleDeleteItem_modules itemId d).2]
      exact h₁
    · show (handleDeleteItem itemId d).resourceOrder.Clean
      rw [handleDeleteItem_resourceOrder]
      exact h₂.removedOrder _ _
  | moduleReorder dragIndex hoverIndex =>
    have hr := (indexInRange_iff _ _).mp hw
    have hp := moveItem_perm_of_drag d.moduleOrder dragIndex hoverIndex hr.1 hr.2
    exact ⟨fun hu => h₁ (hp.mem_iff.mp hu), h₂⟩
  | resourceReorder moduleId dragIndex hoverIndex =>
    have hr := (indexInRange_iff _ _).mp hw
    have hp := moveItem_perm_of_drag (orEmpty (d.resourceOrder.get moduleId))
      dragIndex hoverIndex hr.1 hr.2
    refine ⟨h₁, h₂.set _ _ ?_⟩
    intro l hl hu
    have hl' : moveItem (orEmpty (d.resourceOrder.get moduleId)) dragIndex hoverIndex = l :=
      Option.some.inj hl
    rw [← hl'] at hu
    exact h₂.orEmpty_get _ (hp.mem_iff.mp hu)
  | resourceMove resourceId fromModuleId toModuleId =>
    simp only [Op.wellFormed, List.any_eq_true, Bool.and_eq_true, decide_eq_true_eq] at hw
    obtain ⟨r, _, hid, _⟩ := hw
    refine ⟨h₁, ?_⟩
    show (handleResourceMove resourceId fromModuleId toModuleId d).resourceOrder.Clean
    rw [handleResourceMove_resourceOrder]
    have hc := h₂.removedOrder resourceId fromModuleId
    split
    · apply hc.set
      intro l hl hu
      have hl' : orEmpty ((removedOrder resourceId fromModuleId d.resourceOrder).get
          toModuleId) ++ [resourceId] = l := Option.some.inj hl
      rw [← hl', List.mem_append] at hu
      rcases hu with hu | hu
      · exact hc.orEmpty_get _ hu
      · rw [← hid] at hu
        simp at hu
    · exact hc

theorem Reachable.inv {d : CourseData} (h : Reachable d) : Inv d ∧ ArraysClean d := by
  induction h with
  | init => exact ⟨Inv.initial, by simp [ArraysClean, OrderMap.Clean, initialData]⟩
  | step op _ hw ih => exact ⟨inv_apply ih.1 op hw, arraysClean_apply ih.2 op hw⟩

theorem nodup_resourceIdsOf {d : CourseData} (h : Inv d) (k : Val) :
    (resourceIdsOf d k).Nodup := by
  have h1 : ((getModuleResources d k).map (fun r => r.id)).Nodup :=
    nodup_map_id_filter _ h.resNodup
  have h2 := h1.map (f := Val.id) (fun a b e => Val.id.inj e)
  rw [List.map_map] at h2
  exact h2

/-- The invariant gives the two ordering invariants in permutation form. -/
theorem Inv.ordersConsistent {d : CourseData} (h : Inv d) : OrdersConsistent d := by
  refine ⟨h.ordNodup, (List.perm_ext_iff_of_nodup h.ordNodup h.modNodup).mpr h.ordMem, ?_⟩
  intro k hk
  obtain ⟨l, hl, hnd, hmem⟩ := h.lists k hk
  rw [hl]
  exact ⟨rfl, hnd, (List.perm_ext_iff_of_nodup hnd (nodup_resourceIdsOf h k)).mpr hmem⟩

/-! ## The ordering invariants along sequences of calls -/

theorem reachable_run {d : CourseData} (hd : Reachable d) (ops : List Op)
    (hw : runWellFormed ops d = true) : Reachable (run ops d) := by
  induction ops generalizing d with
  | nil => exact hd
  | cons op rest ih =>
    simp only [runWellFormed, Bool.and_eq_true] at hw
    exact ih (Reachable.step op hd hw.1) hw.2

/-- C1, as stated, fails.  In the drag gesture `dragAcrossModulesThenHover` every call up
to the last is well-formed; the last one, `handleResourceReorder(2, 2, 0)`, is made
with the stale index of the dragged link and inserts `undefined` into
`resourceOrder[2]`, which is then no permutation of the ids of the resources of
module `2`. -/
theorem stale_drag_breaks_orders :
    runWellFormed dragAcrossModules initialData = true
      ∧ (run dragAcrossModulesThenHover initialData).resourceOrder.get (Val.id 2)
          = some [Val.undefined, Val.id 6, Val.id 5]
      ∧ resourceIdsOf (run dragAcrossModulesThenHover initialData) (Val.id 2)
          = [Val.id 5, Val.id 6]
      ∧ ¬ OrdersConsistent (run dragAcrossModulesThenHover initialData) := by
  refine ⟨by decide, by decide, by decide, ?_⟩
  intro h
  have h2 := (h.2.2 (Val.id 2) (by decide)).2.2
  have h3 : Val.undefined ∈
      orEmpty ((run dragAcrossModulesThenHover initialData).resourceOrder.get (Val.id 2)) := by
    decide
  have h4 := h2.mem_iff.mp h3
  revert h4
  decide

/-- C1 (amended): starting from `initialData`, after any finite sequence of well-formed
handler calls (`Op.wellFormed`: creations get an id that is not in use, a resource edit
keeps the stored `moduleId`, a reorder drags an index inside the list, a move names a
stored resource and its current `moduleId`; module edits and deletions are
unrestricted) `moduleOrder` is a duplicate-free permutation of the module ids and,
for every module `m`, `resourceOrder[m]` is a duplicate-free permutation of the ids
of the resources whose `moduleId` is `m`. -/
theorem run_ordersConsistent (ops : List Op) (hw : runWellFormed ops initialData = true) :
    OrdersConsistent (run ops initialData) :=
  (reachable_run Reachable.init ops hw).inv.1.ordersConsistent

theorem run_ordersConsistent_witness :
    runWellFormed dragAcrossModules initialData = true
      ∧ OrdersConsistent (run dragAcrossModules initialData) :=
  ⟨by decide, run_ordersConsistent dragAcrossModules (by decide)⟩

/-! ## Saving and loading -/

theorem jsonArray_of_clean {l : List Val} (h : Val.undefined ∉ l) : jsonArray l = l := by
  unfold jsonArray
  conv_rhs => rw [← List.map_id l]
  apply List.map_congr_left
  intro v hv
  have : v ≠ Val.undefined := fun e => h (e ▸ hv)
  simp [this]

theorem jsonOrderMap_of_clean {o : OrderMap} (h : o.Clean) :
    jsonOrderMap o = o.dropUndefined := by
  induction o with
  | nil => rfl
  | cons q t ih =>
    have ht : OrderMap.Clean t := fun p hp => h p (List.mem_cons_of_mem _ hp)
    obtain ⟨k, v⟩ := q
    cases v with
    | none => simp only [jsonOrderMap, OrderMap.dropUndefined]; exact ih ht
    | some l =>
      have hl : Val.undefined ∉ l := h (k, some l) (List.mem_cons_self _ _) l rfl
      simp only [jsonOrderMap, OrderMap.dropUndefined, jsonArray_of_clean hl]
      rw [ih ht]

theorem OrderMap.keys_set_subset {o : OrderMap} {k k₁ : Val} {v : Option (List Val)}
    (h : k₁ ∈ (o.set k v).map Prod.fst) : k₁ ∈ o.map Prod.fst ∨ k₁ = k := by
  obtain ⟨p, hp, rfl⟩ := List.mem_map.mp h
  rcases OrderMap.mem_set hp with hp | hp
  · exact Or.inl (List.mem_map.mpr ⟨p, hp, rfl⟩)
  · exact Or.inr (by rw [hp])

theorem OrderMap.keysNodup_set {o : OrderMap} (h : (o.map Prod.fst).Nodup) (k : Val)
    (v : Option (List Val)) : ((o.set k v).map Prod.fst).Nodup := by
  induction o with
  | nil => simp [OrderMap.set]
  | cons q t ih =>
    obtain ⟨k', v'⟩ := q
    simp only [List.map_cons, List.nodup_cons] at h
    by_cases hk : k' = k
    · simp only [OrderMap.set, hk, if_true, List.map_cons, List.nodup_cons]
      rw [← hk]; exact h
    · simp only [OrderMap.set, hk, if_false, List.map_cons, List.nodup_cons]
      refine ⟨?_, ih h.2⟩
      intro hm
      rcases OrderMap.keys_set_subset hm with hm | hm
      · exact h.1 hm
      · exact hk hm

theorem OrderMap.keysNodup_removedOrder {o : OrderMap} (h : (o.map Prod.fst).Nodup)
    (resourceId fromModuleId : Val) :
    ((removedOrder resourceId fromModuleId o).map Prod.fst).Nodup := by
  unfold removedOrder
  split
  · split
    · exact OrderMap.keysNodup_set h _ _
    · exact h
  · exact h

/-- No handler call, with whatever arguments, makes a key of `resourceOrder` occur
twice. -/
theorem keysNodup_apply {d : CourseData} (h : (d.resourceOrder.map Prod.fst).Nodup)
    (op : Op) : ((op.apply d).resourceOrder.map Prod.fst).Nodup := by
  have hsave : ∀ (c : Option Resource) (currentModuleId : Val) (now : Nat) (iso : String)
      (item : Resource),
      ((handleSaveLink c currentModuleId now iso item d).resourceOrder.map Prod.fst).Nodup := by
    intro c currentModuleId now iso item
    cases c with
    | some _ => exact h
    | none => exact OrderMap.keysNodup_set h _ _
  cases op with
  | saveModule currentModule now iso module =>
    cases currentModule with
    | none => exact OrderMap.keysNodup_set h _ _
    | some c => exact h
  | deleteModule moduleId => exact OrderMap.keysNodup_set h _ _
  | saveLink currentResource currentModuleId now iso linkItem =>
    exact hsave currentResource currentModuleId now iso linkItem
  | saveUpload currentResource currentModuleId now iso fileItem =>
    show ((handleSaveUpload currentResource currentModuleId now iso fileItem
      d).resourceOrder.map Prod.fst).Nodup
    rw [handleSaveUpload_eq_handleSaveLink]
    exact hsave currentResource currentModuleId now iso fileItem
  | deleteItem itemId =>
    show ((handleDeleteItem itemId d).resourceOrder.map Prod.fst).Nodup
    rw [handleDeleteItem_resourceOrder]
    exact OrderMap.keysNodup_removedOrder h _ _
  | moduleReorder dragIndex hoverIndex => exact h
  | resourceReorder moduleId dragIndex hoverIndex => exact OrderMap.keysNodup_set h _ _
  | resourceMove resourceId fromModuleId toModuleId =>
    show ((handleResourceMove resourceId fromModuleId toModuleId d).resourceOrder.map
      Prod.fst).Nodup
    rw [handleResourceMove_resourceOrder]
    split
    · exact OrderMap.keysNodup_set (OrderMap.keysNodup_removedOrder h _ _) _ _
    · exact OrderMap.keysNodup_removedOrder h _ _

theorem keysNodup_run (ops : List Op) {d : CourseData}
    (h : (d.resourceOrder.map Prod.fst).Nodup) :
    ((run ops d).resourceOrder.map Prod.fst).Nodup := by
  induction ops generalizing d with
  | nil => exact h
  | cons op rest ih => exact ih (keysNodup_apply h op)

theorem OrderMap.get_eq_none_of_not_mem {o : OrderMap} {k : Val}
    (h : k ∉ o.map Prod.fst) : o.get k = none ∧ o.hasKey k = false := by
  induction o with
  | nil => exact ⟨rfl, rfl⟩
  | cons q t ih =>
    obtain ⟨k', v'⟩ := q
    simp only [List.map_cons, List.mem_cons, not_or] at h
    have hk : ¬ k' = k := fun e => h.1 e.symm
    simp only [OrderMap.get, OrderMap.hasKey, hk, if_false]
    exact ih h.2

/-- Reading the object after the keys that hold `undefined` are dropped. -/
theorem OrderMap.get_dropUndefined {o : OrderMap} (h : (o.map Prod.fst).Nodup) (k : Val) :
    o.dropUndefined.get k = o.get k ∧ o.dropUndefined.hasKey k = (o.get k).isSome := by
  induction o with
  | nil => exact ⟨rfl, rfl⟩
  | cons q t ih =>
    obtain ⟨k', v'⟩ := q
    simp only [List.map_cons, List.nodup_cons] at h
    have iht := ih h.2
    cases v' with
    | some l =>
      by_cases hk : k' = k
      · simp [OrderMap.dropUndefined, OrderMap.get, OrderMap.hasKey, hk]
      · simp only [OrderMap.dropUndefined, OrderMap.get, OrderMap.hasKey, hk, if_false]
        exact iht
    | none =>
      by_cases hk : k' = k
      · subst hk
        have hn := OrderMap.get_eq_none_of_not_mem h.1
        simp only [OrderMap.dropUndefined, OrderMap.get, if_true]
        rw [iht.1, iht.2, hn.1]
        exact ⟨rfl, rfl⟩
      · simp only [OrderMap.dropUndefined, OrderMap.get, hk, if_false]
        exact iht

theorem OrderMap.dropUndefined_eq_self {o : OrderMap} (h : ∀ p ∈ o, p.2.isSome = true) :
    o.dropUndefined = o := by
  induction o with
  | nil => rfl
  | cons q t ih =>
    obtain ⟨k, v⟩ := q
    have hv := h (k, v) (List.mem_cons_self _ _)
    cases v with
    | none => simp at hv
    | some l =>
      simp only [OrderMap.dropUndefined]
      rw [ih (fun p hp => h p (List.mem_cons_of_mem _ hp))]

/-- C4, as stated, fails: a module is created (id `1`) and deleted; the document then
stores `undefined` under the key `1` of `resourceOrder`, the saved text has no such
key, and the reloaded document differs from the one that was saved. -/
theorem saveThenLoad_drops_deleted_key :
    runWellFormed [Op.saveModule none 1 "" ⟨0, "A", none⟩, Op.deleteModule (Val.id 1)]
        initialData = true
      ∧ (run [Op.saveModule none 1 "" ⟨0, "A", none⟩, Op.deleteModule (Val.id 1)]
          initialData).resourceOrder = [(Val.id 1, none)]
      ∧ (saveThenLoad (run [Op.saveModule none 1 "" ⟨0, "A", none⟩,
          Op.deleteModule (Val.id 1)] initialData)).resourceOrder = []
      ∧ saveThenLoad (run [Op.saveModule none 1 "" ⟨0, "A", none⟩,
          Op.deleteModule (Val.id 1)] initialData)
        ≠ run [Op.saveModule none 1 "" ⟨0, "A", none⟩, Op.deleteModule (Val.id 1)]
            initialData := by
  decide

/-- C4 (amended): for every document built from `initialData` by well-formed handler
calls, saving and reloading yields identical `modules`, `resources` and `moduleOrder`,
and a `resourceOrder` that is the saved one without the keys holding `undefined`
(the keys `handleDeleteModule` leaves behind), the remaining keys and their arrays
unchanged and in the same order; every read `resourceOrder[k]` gives the same value
before and after, and the whole document is identical when no key holds
`undefined`. -/
theorem saveThenLoad_run (ops : List Op) (hw : runWellFormed ops initialData = true) :
    (saveThenLoad (run ops initialData)).modules = (run ops initialData).modules
      ∧ (saveThenLoad (run ops initialData)).resources = (run ops initialData).resources
      ∧ (saveThenLoad (run ops initialData)).moduleOrder = (run ops initialData).moduleOrder
      ∧ (saveThenLoad (run ops initialData)).resourceOrder
          = (run ops initialData).resourceOrder.dropUndefined
      ∧ (∀ k, (saveThenLoad (run ops initialData)).resourceOrder.get k
          = (run ops initialData).resourceOrder.get k)
      ∧ (∀ k, (saveThenLoad (run ops initialData)).resourceOrder.hasKey k
          = ((run ops initialData).resourceOrder.get k).isSome)
      ∧ ((∀ p ∈ (run ops initialData).resourceOrder, p.2.isSome = true) →
          saveThenLoad (run ops initialData) = run ops initialData) := by
  have hclean := (reachable_run Reachable.init ops hw).inv.2
  have hkeys : (((run ops initialData).resourceOrder).map Prod.fst).Nodup :=
    keysNodup_run ops (d := initialData) (by simp [initialData])
  have hmo : (saveThenLoad (run ops initialData)).moduleOrder
      = (run ops initialData).moduleOrder := jsonArray_of_clean hclean.1
  have hro : (saveThenLoad (run ops initialData)).resourceOrder
      = (run ops initialData).resourceOrder.dropUndefined := jsonOrderMap_of_clean hclean.2
  refine ⟨rfl, rfl, hmo, hro, ?_, ?_, ?_⟩
  · intro k; rw [hro]; exact (OrderMap.get_dropUndefined hkeys k).1
  · intro k; rw [hro]; exact (OrderMap.get_dropUndefined hkeys k).2
  · intro hall
    have h1 := OrderMap.dropUndefined_eq_self hall
    rw [h1] at hro
    cases hd : run ops initialData with
    | mk ms rs mo ro =>
      rw [hd] at hmo hro
      simp only [saveThenLoad] at hmo hro ⊢
      rw [hmo, hro]

theorem saveThenLoad_run_witness :
    (saveThenLoad (run dragAcrossModules initialData)).resourceOrder
        = [(Val.id 1, some [Val.id 3, Val.id 4]), (Val.id 2, some [Val.id 6, Val.id 5])]
      ∧ saveThenLoad (run dragAcrossModules initialData) = run dragAcrossModules initialData :=
  ⟨(saveThenLoad_run dragAcrossModules (by decide)).2.2.2.1.trans (by decide),
    (saveThenLoad_run dragAcrossModules (by decide)).2.2.2.2.2.2 (by decide)⟩

/-! ## Creating modules and standalone resources -/

/-- C11, as stated, fails: in add mode `handleSaveModule` stores a payload whose name is
empty, and one whose name is only blanks; on the empty document each call returns a
document with one module more. -/
theorem handleSaveModule_emptyName_changes :
    jsTrim "" = "" ∧ jsTrim "   " = ""
      ∧ handleSaveModule none 1 "" ⟨0, "", none⟩ initialData ≠ initialData
      ∧ (handleSaveModule none 1 "" ⟨0, "", none⟩ initialData).modules = [⟨1, "", some ""⟩]
      ∧ (handleSaveModule none 1 "" ⟨0, "   ", none⟩ initialData).modules
          = [⟨1, "   ", some ""⟩]
      ∧ (handleSaveModule none 1 "" ⟨0, "   ", none⟩ initialData).moduleOrder = [Val.id 1] := by
  decide

/-- C11 (amended): `handleSaveModule` validates nothing.  In add mode, with a payload whose
name is empty after trimming, it returns a document (no error is signalled) in which
the module, with that name as given, is appended to `modules`, its id to
`moduleOrder`, and the empty array is stored under its id in `resourceOrder`; so the
document does change.  `resources` is unchanged. -/
theorem handleSaveModule_emptyName (prev : CourseData) (now : Nat) (iso : String)
    (module : CourseModule) (hname : jsTrim module.name = "") :
    (handleSaveModule none now iso module prev).modules
        = prev.modules ++ [{ module with id := now, createdAt := some iso }]
      ∧ (∃ m ∈ (handleSaveModule none now iso module prev).modules,
          m.id = now ∧ jsTrim m.name = "")
      ∧ (handleSaveModule none now iso module prev).moduleOrder
          = prev.moduleOrder ++ [Val.id now]
      ∧ (handleSaveModule none now iso module prev).resourceOrder.get (Val.id now) = some []
      ∧ (handleSaveModule none now iso module prev).resourceOrder.hasKey (Val.id now) = true
      ∧ (handleSaveModule none now iso module prev).resources = prev.resources
      ∧ handleSaveModule none now iso module prev ≠ prev := by
  refine ⟨rfl, ?_, rfl, OrderMap.get_set_self _ _ _, OrderMap.hasKey_set_self _ _ _, rfl, ?_⟩
  · exact ⟨{ module with id := now, createdAt := some iso }, by simp [handleSaveModule],
      rfl, hname⟩
  · intro e
    have h := congrArg (fun d => d.modules.length) e
    simp [handleSaveModule] at h

theorem handleSaveModule_emptyName_witness :
    (handleSaveModule none 7 "t" ⟨0, " ", none⟩ initialData).modules = [⟨7, " ", some "t"⟩] :=
  (handleSaveModule_emptyName initialData 7 "t" ⟨0, " ", none⟩ (by decide)).1

/-- C12, the code at the failing input: on the empty document a link is created with
`currentModuleId = null` (clock reading `5`).  The stored resource has `moduleId`
`null` and is the last standalone resource, but its id is also listed in
`resourceOrder`, under the key `null`; the same holds for `handleSaveUpload`, and, for
every document, the id is appended to the list under the key `null`. -/
theorem handleSave_standalone_listed :
    (handleSaveLink none Val.null 5 ""
        ⟨0, Val.undefined, "link", "Syllabus", some "https://x", none, none, none, none, none⟩
        initialData).resources
        = [⟨5, Val.null, "link", "Syllabus", some "https://x", none, none, none, none, some ""⟩]
      ∧ getStandaloneResources (handleSaveLink none Val.null 5 ""
        ⟨0, Val.undefined, "link", "Syllabus", some "https://x", none, none, none, none, none⟩
        initialData)
        = [⟨5, Val.null, "link", "Syllabus", some "https://x", none, none, none, none, some ""⟩]
      ∧ (handleSaveLink none Val.null 5 ""
        ⟨0, Val.undefined, "link", "Syllabus", some "https://x", none, none, none, none, none⟩
        initialData).resourceOrder = [(Val.null, some [Val.id 5])]
      ∧ (handleSaveUpload none Val.null 5 ""
        ⟨0, Val.undefined, "file", "Notes", none, some "a.pdf", some 10, some "application/pdf",
          none, none⟩
        initialData).resourceOrder = [(Val.null, some [Val.id 5])]
      ∧ (∀ (prev : CourseData) (now : Nat) (iso : String) (item : Resource),
          (handleSaveLink none Val.null now iso item prev).resourceOrder.get Val.null
              = some (orEmpty (prev.resourceOrder.get Val.null) ++ [Val.id now])
            ∧ (handleSaveUpload none Val.null now iso item prev).resourceOrder.get Val.null
              = some (orEmpty (prev.resourceOrder.get Val.null) ++ [Val.id now])) := by
  refine ⟨by decide, by decide, by decide, by decide, ?_⟩
  intro prev now iso item
  exact ⟨OrderMap.get_set_self _ _ _, OrderMap.get_set_self _ _ _⟩

/-! ## Moving, reordering and deleting resources -/

theorem removedOrder_hasKey_of_ne (resourceId fromModuleId k : Val) (o : OrderMap)
    (hk : k ≠ fromModuleId) :
    (removedOrder resourceId fromModuleId o).hasKey k = o.hasKey k := by
  unfold removedOrder
  split
  · split
    · exact OrderMap.hasKey_set_of_ne _ _ _ _ hk
    · rfl
  · rfl

theorem removedOrder_not_mem (resourceId fromModuleId : Val) (o : OrderMap)
    (ht : fromModuleId.truthy = true) :
    resourceId ∉ orEmpty ((removedOrder resourceId fromModuleId o).get fromModuleId) := by
  cases hg : o.get fromModuleId with
  | none =>
    have : removedOrder resourceId fromModuleId o = o := by
      simp only [removedOrder, ht, if_true, hg]
    rw [this, hg]
    simp
  | some l =>
    rw [removedOrder_get_self _ _ _ _ ht hg, orEmpty_some]
    intro hm
    have := (List.mem_filter.mp hm).2
    simp at this

theorem handleResourceMove_other_keys (resourceId fromModuleId toModuleId k : Val)
    (prev : CourseData) (hf : k ≠ fromModuleId) (ht : k ≠ toModuleId) :
    (handleResourceMove resourceId fromModuleId toModuleId prev).resourceOrder.get k
        = prev.resourceOrder.get k
      ∧ (handleResourceMove resourceId fromModuleId toModuleId prev).resourceOrder.hasKey k
        = prev.resourceOrder.hasKey k := by
  rw [handleResourceMove_resourceOrder]
  split
  · rw [OrderMap.get_set_of_ne _ _ _ _ ht, OrderMap.hasKey_set_of_ne _ _ _ _ ht]
    exact ⟨removedOrder_get_of_ne _ _ _ _ hf, removedOrder_hasKey_of_ne _ _ _ _ hf⟩
  · exact ⟨removedOrder_get_of_ne _ _ _ _ hf, removedOrder_hasKey_of_ne _ _ _ _ hf⟩

theorem handleResourceMove_resources (rid : Nat) (fromModuleId toModuleId : Val)
    (prev : CourseData) :
    (handleResourceMove (Val.id rid) fromModuleId toModuleId prev).resources
      = prev.resources.map (fun r => if r.id = rid then { r with moduleId := toModuleId } else r) := by
  simp only [handleResourceMove]
  apply List.map_congr_left
  intro r _
  by_cases e : r.id = rid
  · simp [e]
  · have : ¬ Val.id r.id = Val.id rid := fun h => e (Val.id.inj h)
    simp [e, this]

theorem OrderMap.hasKey_of_get {o : OrderMap} {k : Val} {l : List Val}
    (h : o.get k = some l) : o.hasKey k = true := by
  induction o with
  | nil => simp [OrderMap.get] at h
  | cons q t ih =>
    obtain ⟨k', v'⟩ := q
    by_cases hk : k' = k
    · simp [OrderMap.hasKey, hk]
    · simp only [OrderMap.get, hk, if_false] at h
      simp only [OrderMap.hasKey, hk, if_false]
      exact ih h

/-- Filtering a list in place adds and removes no key. -/
theorem removedOrder_hasKey (resourceId fromModuleId k : Val) (o : OrderMap) :
    (removedOrder resourceId fromModuleId o).hasKey k = o.hasKey k := by
  by_cases hk : k = fromModuleId
  · subst hk
    unfold removedOrder
    split
    · split
      · next l hl =>
        rw [OrderMap.hasKey_set_self, OrderMap.hasKey_of_get hl]
      · rfl
    · rfl
  · exact removedOrder_hasKey_of_ne _ _ _ _ hk

theorem removedOrder_get_from (resourceId fromModuleId : Val) (o : OrderMap)
    (ht : fromModuleId.truthy = true) :
    (removedOrder resourceId fromModuleId o).get fromModuleId
      = (o.get fromModuleId).map (fun l => l.filter (fun id => id ≠ resourceId)) := by
  cases hg : o.get fromModuleId with
  | none =>
    have : removedOrder resourceId fromModuleId o = o := by
      simp only [removedOrder, ht, if_true, hg]
    rw [this, hg]
    rfl
  | some l =>
    rw [removedOrder_get_self _ _ _ _ ht hg]
    rfl

theorem removedOrder_of_falsy (resourceId fromModuleId : Val) (o : OrderMap)
    (hf : fromModuleId.truthy = false) : removedOrder resourceId fromModuleId o = o := by
  simp [removedOrder, hf]

/-- What `handleResourceMove` leaves under the keys `from` and `to`, in terms of the old
`resourceOrder`. -/
theorem handleResourceMove_from_to (resourceId fromModuleId toModuleId : Val)
    (prev : CourseData) :
    (fromModuleId.truthy = true → fromModuleId ≠ toModuleId →
        (handleResourceMove resourceId fromModuleId toModuleId prev).resourceOrder.get
            fromModuleId
          = (prev.resourceOrder.get fromModuleId).map
              (fun l => l.filter (fun id => id ≠ resourceId)))
      ∧ (toModuleId.truthy = true → fromModuleId = toModuleId →
          (handleResourceMove resourceId fromModuleId toModuleId prev).resourceOrder.get
              toModuleId
            = some ((orEmpty (prev.resourceOrder.get toModuleId)).filter
                (fun id => id ≠ resourceId) ++ [resourceId]))
      ∧ (toModuleId.truthy = true → fromModuleId ≠ toModuleId →
          (handleResourceMove resourceId fromModuleId toModuleId prev).resourceOrder.get
              toModuleId
            = some (orEmpty (prev.resourceOrder.get toModuleId) ++ [resourceId]))
      ∧ (toModuleId.truthy = true →
          (handleResourceMove resourceId fromModuleId toModuleId prev).resourceOrder.hasKey
            toModuleId = true)
      ∧ (fromModuleId.truthy = false → toModuleId.truthy = false →
          (handleResourceMove resourceId fromModuleId toModuleId prev).resourceOrder
            = prev.resourceOrder)
      ∧ (fromModuleId ≠ toModuleId →
          (handleResourceMove resourceId fromModuleId toModuleId prev).resourceOrder.hasKey
            fromModuleId = prev.resourceOrder.hasKey fromModuleId) := by
  have hro := handleResourceMove_resourceOrder resourceId fromModuleId toModuleId prev
  refine ⟨?_, ?_, ?_, ?_, ?_, ?_⟩
  · intro hf hne
    rw [hro]
    split
    · rw [OrderMap.get_set_of_ne _ _ _ _ hne]
      exact removedOrder_get_from _ _ _ hf
    · exact removedOrder_get_from _ _ _ hf
  · intro ht he
    subst he
    rw [hro, if_pos ht, OrderMap.get_set_self, removedOrder_get_from _ _ _ ht]
    cases prev.resourceOrder.get fromModuleId with
    | none => simp
    | some l => simp
  · intro ht hne
    rw [hro, if_pos ht, OrderMap.get_set_self,
      removedOrder_get_of_ne _ _ _ _ (fun e => hne e.symm)]
  · intro ht
    rw [hro, if_pos ht]
    exact OrderMap.hasKey_set_self _ _ _
  · intro hf ht
    rw [hro]
    simp [ht, removedOrder_of_falsy _ _ _ hf]
  · intro hne
    rw [hro]
    split
    · rw [OrderMap.hasKey_set_of_ne _ _ _ _ hne]
      exact removedOrder_hasKey _ _ _ _
    · exact removedOrder_hasKey _ _ _ _

/-- C13, as stated, fails in its last part.  A link is created standalone (id `5`, which
the creation lists under the key `null`), moved into module `1`, and moved back with
`handleResourceMove(5, 1, null)`, where `1` is its current `moduleId`: afterwards its
`moduleId` is `null`, but its id still occurs in an order list, the one under the key
`null`. -/
theorem handleResourceMove_standalone_still_listed :
    (∃ r ∈ (handleResourceMove (Val.id 5) Val.null (Val.id 1)
          (handleSaveLink none Val.null 5 ""
            ⟨0, Val.undefined, "link", "r", some "u", none, none, none, none, none⟩
            (handleSaveModule none 1 "" ⟨0, "A", none⟩ initialData))).resources,
        r.id = 5 ∧ r.moduleId = Val.id 1)
      ∧ (handleResourceMove (Val.id 5) (Val.id 1) Val.null
          (handleResourceMove (Val.id 5) Val.null (Val.id 1)
            (handleSaveLink none Val.null 5 ""
              ⟨0, Val.undefined, "link", "r", some "u", none, none, none, none, none⟩
              (handleSaveModule none 1 "" ⟨0, "A", none⟩ initialData)))).resources
          = [⟨5, Val.null, "link", "r", some "u", none, none, none, none, some ""⟩]
      ∧ (handleResourceMove (Val.id 5) (Val.id 1) Val.null
          (handleResourceMove (Val.id 5) Val.null (Val.id 1)
            (handleSaveLink none Val.null 5 ""
              ⟨0, Val.undefined, "link", "r", some "u", none, none, none, none, none⟩
              (handleSaveModule none 1 "" ⟨0, "A", none⟩ initialData)))).resourceOrder
          = [(Val.id 1, some []), (Val.null, some [Val.id 5])]
      ∧ Val.id 5 ∈ orEmpty ((handleResourceMove (Val.id 5) (Val.id 1) Val.null
          (handleResourceMove (Val.id 5) Val.null (Val.id 1)
            (handleSaveLink none Val.null 5 ""
              ⟨0, Val.undefined, "link", "r", some "u", none, none, none, none, none⟩
              (handleSaveModule none 1 "" ⟨0, "A", none⟩ initialData)))).resourceOrder.get
          Val.null) := by
  decide

/-- C13 (amended): for a stored resource `r`, `handleResourceMove(r.id, from, to)` with
`from` the `moduleId` of `r` leaves `modules` and `moduleOrder` unchanged.  In
`resources` it sets the `moduleId` of every stored resource whose id is `r.id` to `to`
and changes nothing else: ids, positions and all other fields stay, and a resource
with another id is unchanged; when the resource ids are distinct, `r` is the only
resource that changes.  No key of `resourceOrder` other than `from` and `to` changes.
When `to` is given (truthy), `r.id` is the last element of `resourceOrder[to]`, and
when `from` is given and differs from `to`, `r.id` is filtered out of
`resourceOrder[from]`, the key `from` being neither added nor removed.  When `to` is
`null` (falsy), `r` is stored with `moduleId == to`, and `resourceOrder` is the old
one with `r.id` filtered out of `resourceOrder[from]` when `from` is given, so that
`r.id` is then no longer listed under `from`; `r.id` is listed under a key other than
`from` exactly if it was before. -/
theorem handleResourceMove_frame (prev : CourseData) (r : Resource) (toModuleId : Val)
    (hr : r ∈ prev.resources) :
    (handleResourceMove (Val.id r.id) r.moduleId toModuleId prev).modules = prev.modules
      ∧ (handleResourceMove (Val.id r.id) r.moduleId toModuleId prev).moduleOrder
          = prev.moduleOrder
      ∧ (handleResourceMove (Val.id r.id) r.moduleId toModuleId prev).resources
          = prev.resources.map
              (fun x => if x.id = r.id then { x with moduleId := toModuleId } else x)
      ∧ ((prev.resources.map (fun x => x.id)).Nodup →
          (handleResourceMove (Val.id r.id) r.moduleId toModuleId prev).resources
            = prev.resources.map
                (fun x => if x = r then { r with moduleId := toModuleId } else x))
      ∧ ({ r with moduleId := toModuleId } : Resource)
          ∈ (handleResourceMove (Val.id r.id) r.moduleId toModuleId prev).resources
      ∧ (∀ x ∈ prev.resources, x.id ≠ r.id →
          x ∈ (handleResourceMove (Val.id r.id) r.moduleId toModuleId prev).resources)
      ∧ (∀ k, k ≠ r.moduleId → k ≠ toModuleId →
          (handleResourceMove (Val.id r.id) r.moduleId toModuleId prev).resourceOrder.get k
              = prev.resourceOrder.get k
            ∧ (handleResourceMove (Val.id r.id) r.moduleId toModuleId prev).resourceOrder.hasKey k
              = prev.resourceOrder.hasKey k)
      ∧ (toModuleId.truthy = true → ∃ l,
          (handleResourceMove (Val.id r.id) r.moduleId toModuleId prev).resourceOrder.get
            toModuleId = some (l ++ [Val.id r.id]))
      ∧ (r.moduleId.truthy = true → r.moduleId ≠ toModuleId →
          (handleResourceMove (Val.id r.id) r.moduleId toModuleId prev).resourceOrder.get
              r.moduleId
            = (prev.resourceOrder.get r.moduleId).map
                (fun l => l.filter (fun id => id ≠ Val.id r.id)))
      ∧ (r.moduleId ≠ toModuleId →
          (handleResourceMove (Val.id r.id) r.moduleId toModuleId prev).resourceOrder.hasKey
            r.moduleId = prev.resourceOrder.hasKey r.moduleId)
      ∧ (toModuleId.truthy = false →
          (handleResourceMove (Val.id r.id) r.moduleId toModuleId prev).resourceOrder
              = removedOrder (Val.id r.id) r.moduleId prev.resourceOrder
            ∧ (r.moduleId.truthy = true →
                Val.id r.id ∉ orEmpty ((handleResourceMove (Val.id r.id) r.moduleId toModuleId
                  prev).resourceOrder.get r.moduleId))
            ∧ (∀ k, k ≠ r.moduleId →
                (handleResourceMove (Val.id r.id) r.moduleId toModuleId prev).resourceOrder.get k
                  = prev.resourceOrder.get k)) := by
  have hres := handleResourceMove_resources r.id r.moduleId toModuleId prev
  refine ⟨rfl, rfl, hres, ?_, ?_, ?_, ?_, ?_, ?_,
    (handleResourceMove_from_to (Val.id r.id) r.moduleId toModuleId prev).2.2.2.2.2, ?_⟩
  · intro hnd
    rw [hres]
    apply List.map_congr_left
    intro x hx
    by_cases e : x = r
    · subst e; simp
    · have hid : x.id ≠ r.id := fun h => e (List.inj_on_of_nodup_map hnd hx hr h)
      simp [e, hid]
  · rw [hres, List.mem_map]
    exact ⟨r, hr, by simp⟩
  · intro x hx hid
    rw [hres, List.mem_map]
    exact ⟨x, hx, by simp [hid]⟩
  · intro k hf ht
    exact handleResourceMove_other_keys _ _ _ _ _ hf ht
  · intro ht
    rw [handleResourceMove_resourceOrder, if_pos ht]
    exact ⟨_, OrderMap.get_set_self _ _ _⟩
  · intro hf hne
    exact (handleResourceMove_from_to (Val.id r.id) r.moduleId toModuleId prev).1 hf hne
  · intro ht
    have hro : (handleResourceMove (Val.id r.id) r.moduleId toModuleId prev).resourceOrder
        = removedOrder (Val.id r.id) r.moduleId prev.resourceOrder := by
      rw [handleResourceMove_resourceOrder]
      simp [ht]
    refine ⟨hro, ?_, ?_⟩
    · intro hf
      rw [hro]
      exact removedOrder_not_mem _ _ _ hf
    · intro k hk
      rw [hro]
      exact removedOrder_get_of_ne _ _ _ _ hk

/-- An instance of C13: a link created in module `1` (id `3`) is moved out of it with
`to = null`; it is then standalone and the list of module `1` is empty. -/
theorem handleResourceMove_frame_witness :
    (handleResourceMove (Val.id 3) (Val.id 1) Val.null
        (handleSaveLink none (Val.id 1) 3 ""
          ⟨0, Val.undefined, "link", "r", some "u", none, none, none, none, none⟩
          (handleSaveModule none 1 "" ⟨0, "A", none⟩ initialData))).resourceOrder
        = [(Val.id 1, some [])]
      ∧ (⟨3, Val.null, "link", "r", some "u", none, none, none, none, some ""⟩ : Resource)
        ∈ (handleResourceMove (Val.id 3) (Val.id 1) Val.null
          (handleSaveLink none (Val.id 1) 3 ""
            ⟨0, Val.undefined, "link", "r", some "u", none, none, none, none, none⟩
            (handleSaveModule none 1 "" ⟨0, "A", none⟩ initialData))).resources :=
  ⟨by decide,
    (handleResourceMove_frame (handleSaveLink none (Val.id 1) 3 ""
      ⟨0, Val.undefined, "link", "r", some "u", none, none, none, none, none⟩
      (handleSaveModule none 1 "" ⟨0, "A", none⟩ initialData))
      ⟨3, Val.id 1, "link", "r", some "u", none, none, none, none, some ""⟩ Val.null
      (by decide)).2.2.2.2.1⟩

/-- C14, as stated, fails.  With one module (id `1`) and no resource,
`handleResourceMove(9, null, 1)` names no resource, yet `9` is appended to
`resourceOrder[1]`.  With a link `3` in module `1`, `handleResourceMove(3, 1, 8)` names
no module as target, yet the link is stored with `moduleId == 8` and `resourceOrder`
gains the key `8`. -/
theorem handleResourceMove_unknown_changes :
    (handleSaveModule none 1 "" ⟨0, "A", none⟩ initialData).resources = []
      ∧ (handleSaveModule none 1 "" ⟨0, "A", none⟩ initialData).resourceOrder
          = [(Val.id 1, some [])]
      ∧ (handleResourceMove (Val.id 9) Val.null (Val.id 1)
          (handleSaveModule none 1 "" ⟨0, "A", none⟩ initialData)).resourceOrder
          = [(Val.id 1, some [Val.id 9])]
      ∧ (∀ m ∈ (handleSaveLink none (Val.id 1) 3 ""
            ⟨0, Val.undefined, "link", "r", some "u", none, none, none, none, none⟩
            (handleSaveModule none 1 "" ⟨0, "A", none⟩ initialData)).modules,
          Val.id m.id ≠ Val.id 8)
      ∧ (handleResourceMove (Val.id 3) (Val.id 1) (Val.id 8)
          (handleSaveLink none (Val.id 1) 3 ""
            ⟨0, Val.undefined, "link", "r", some "u", none, none, none, none, none⟩
            (handleSaveModule none 1 "" ⟨0, "A", none⟩ initialData))).resources
          = [⟨3, Val.id 8, "link", "r", some "u", none, none, none, none, some ""⟩]
      ∧ (handleResourceMove (Val.id 3) (Val.id 1) (Val.id 8)
          (handleSaveLink none (Val.id 1) 3 ""
            ⟨0, Val.undefined, "link", "r", some "u", none, none, none, none, none⟩
            (handleSaveModule none 1 "" ⟨0, "A", none⟩ initialData))).resourceOrder
          = [(Val.id 1, some []), (Val.id 8, some [Val.id 3])] := by
  decide

/-- C14 (amended): `handleResourceMove` checks neither the resource nor the target and
signals no error.  `modules` and `moduleOrder` are unchanged.  Every stored resource
with the id `resourceId` is stored with `moduleId == to`, whether or not `to` names a
module, and the other resources are unchanged; when `resourceId` names no resource,
`resources` is unchanged.  `resourceOrder` is updated all the same, in every case:
when `from` is given, `resourceId` is filtered out of `resourceOrder[from]`; when `to`
is given, `resourceId` is then appended at the end of `resourceOrder[to]`, the key
being created if it is absent; every other key is unchanged, a key `from` other than
`to` is neither added nor removed, and `resourceOrder` is left as it was when neither
`from` nor `to` is given. -/
theorem handleResourceMove_unchecked (prev : CourseData)
    (resourceId fromModuleId toModuleId : Val)
    (_h : (∀ r ∈ prev.resources, Val.id r.id ≠ resourceId)
      ∨ (toModuleId.truthy = true ∧ ∀ m ∈ prev.modules, Val.id m.id ≠ toModuleId)) :
    (handleResourceMove resourceId fromModuleId toModuleId prev).modules = prev.modules
      ∧ (handleResourceMove resourceId fromModuleId toModuleId prev).moduleOrder
          = prev.moduleOrder
      ∧ (handleResourceMove resourceId fromModuleId toModuleId prev).resources
          = prev.resources.map
              (fun r => if Val.id r.id = resourceId then { r with moduleId := toModuleId }
                else r)
      ∧ ((∀ r ∈ prev.resources, Val.id r.id ≠ resourceId) →
          (handleResourceMove resourceId fromModuleId toModuleId prev).resources
            = prev.resources)
      ∧ (∀ r ∈ (handleResourceMove resourceId fromModuleId toModuleId prev).resources,
          Val.id r.id = resourceId → r.moduleId = toModuleId)
      ∧ (fromModuleId.truthy = true → fromModuleId ≠ toModuleId →
          (handleResourceMove resourceId fromModuleId toModuleId prev).resourceOrder.get
              fromModuleId
            = (prev.resourceOrder.get fromModuleId).map
                (fun l => l.filter (fun id => id ≠ resourceId)))
      ∧ (toModuleId.truthy = true → fromModuleId = toModuleId →
          (handleResourceMove resourceId fromModuleId toModuleId prev).resourceOrder.get
              toModuleId
            = some ((orEmpty (prev.resourceOrder.get toModuleId)).filter
                (fun id => id ≠ resourceId) ++ [resourceId]))
      ∧ (toModuleId.truthy = true → fromModuleId ≠ toModuleId →
          (handleResourceMove resourceId fromModuleId toModuleId prev).resourceOrder.get
              toModuleId
            = some (orEmpty (prev.resourceOrder.get toModuleId) ++ [resourceId]))
      ∧ (toModuleId.truthy = true →
          (handleResourceMove resourceId fromModuleId toModuleId prev).resourceOrder.hasKey
            toModuleId = true)
      ∧ (∀ k, k ≠ fromModuleId → k ≠ toModuleId →
          (handleResourceMove resourceId fromModuleId toModuleId prev).resourceOrder.get k
              = prev.resourceOrder.get k
            ∧ (handleResourceMove resourceId fromModuleId toModuleId prev).resourceOrder.hasKey k
              = prev.resourceOrder.hasKey k)
      ∧ (fromModuleId.truthy = false → toModuleId.truthy = false →
          (handleResourceMove resourceId fromModuleId toModuleId prev).resourceOrder
            = prev.resourceOrder)
      ∧ (fromModuleId ≠ toModuleId →
          (handleResourceMove resourceId fromModuleId toModuleId prev).resourceOrder.hasKey
            fromModuleId = prev.resourceOrder.hasKey fromModuleId) := by
  have hft := handleResourceMove_from_to resourceId fromModuleId toModuleId prev
  refine ⟨rfl, rfl, rfl, ?_, ?_, hft.1, hft.2.1, hft.2.2.1, hft.2.2.2.1, ?_, hft.2.2.2.2.1,
    hft.2.2.2.2.2⟩
  · intro hno
    simp only [handleResourceMove]
    conv_rhs => rw [← List.map_id prev.resources]
    apply List.map_congr_left
    intro r hr
    simp [hno r hr]
  · intro r hr hid
    simp only [handleResourceMove, List.mem_map] at hr
    obtain ⟨r₀, _, hr₀⟩ := hr
    by_cases e : Val.id r₀.id = resourceId
    · rw [if_pos e] at hr₀
      rw [← hr₀]
    · rw [if_neg e] at hr₀
      rw [← hr₀] at hid
      exact absurd hid e
  · intro k hf ht
    exact handleResourceMove_other_keys _ _ _ _ _ hf ht

/-- An instance of C14: with one module (id `1`) and no resource,
`handleResourceMove(9, null, 1)` leaves `resources` empty and lists `9` under the
module. -/
theorem handleResourceMove_unchecked_witness :
    (handleResourceMove (Val.id 9) Val.null (Val.id 1)
        (handleSaveModule none 1 "" ⟨0, "A", none⟩ initialData)).resources = []
      ∧ (handleResourceMove (Val.id 9) Val.null (Val.id 1)
        (handleSaveModule none 1 "" ⟨0, "A", none⟩ initialData)).resourceOrder.get (Val.id 1)
        = some [Val.id 9] :=
  ⟨((handleResourceMove_unchecked (handleSaveModule none 1 "" ⟨0, "A", none⟩ initialData)
      (Val.id 9) Val.null (Val.id 1) (Or.inl (by decide))).2.2.2.1 (by decide)).trans
      (by decide),
    ((handleResourceMove_unchecked (handleSaveModule none 1 "" ⟨0, "A", none⟩ initialData)
      (Val.id 9) Val.null (Val.id 1) (Or.inl (by decide))).2.2.2.2.2.2.2.1 rfl
      (by decide)).trans (by decide)⟩

theorem jsIndex_of_outOfRange (arr : List Val) (i : Int)
    (h : ¬ (0 ≤ i ∧ i < arr.length)) : jsIndex arr i = Val.undefined := by
  unfold jsIndex
  by_cases h0 : 0 ≤ i
  · have hlen : arr.length ≤ i.toNat := by
      have : ¬ i < arr.length := fun hi => h ⟨h0, hi⟩
      omega
    simp [h0, List.getD, List.getElem?_eq_none hlen]
  · simp [h0]

theorem spliceInsert_length (arr : List Val) (j : Int) (x : Val) :
    (spliceInsert arr j x).length = arr.length + 1 := by
  have h := spliceStart_le arr.length j
  unfold spliceInsert
  simp only [List.length_append, List.length_take, List.length_cons, List.length_drop]
  omega

theorem mem_spliceInsert (arr : List Val) (j : Int) (x : Val) : x ∈ spliceInsert arr j x := by
  unfold spliceInsert
  simp

theorem spliceRemove_of_ge (arr : List Val) (i : Int) (h : (arr.length : Int) ≤ i) :
    spliceRemove arr i = arr := by
  unfold spliceRemove
  have hs : spliceStart arr.length i = arr.length := by
    unfold spliceStart
    have : ¬ i < 0 := by omega
    simp only [this, if_false]
    omega
  rw [hs]
  exact List.eraseIdx_of_length_le (Nat.le_refl _)

/-- With `dragIndex` outside the array, `moveItem` inserts `undefined`. -/
theorem moveItem_of_outOfRange (arr : List Val) (i j : Int)
    (h : ¬ (0 ≤ i ∧ i < arr.length)) :
    moveItem arr i j = spliceInsert (spliceRemove arr i) j Val.undefined := by
  unfold moveItem
  rw [jsIndex_of_outOfRange arr i h]

/-- With `dragIndex` inside the array and `hoverIndex` at or past its end, the dragged
element goes to the end. -/
theorem moveItem_hover_past_end (arr : List Val) (i j : Int)
    (hi0 : 0 ≤ i) (hi : i < arr.length) (hj : (arr.length : Int) ≤ j) :
    ∃ h : i.toNat < arr.length, moveItem arr i j = arr.eraseIdx i.toNat ++ [arr[i.toNat]] := by
  obtain ⟨h, hx⟩ := jsIndex_of_inRange arr i hi0 hi
  refine ⟨h, ?_⟩
  unfold moveItem spliceInsert spliceRemove
  rw [spliceStart_of_inRange arr.length i hi0 hi, hx]
  have hlen : (arr.eraseIdx i.toNat).length = arr.length - 1 := by
    rw [List.length_eraseIdx]; simp [h]
  have hs : spliceStart (arr.eraseIdx i.toNat).length j = (arr.eraseIdx i.toNat).length := by
    unfold spliceStart
    have : ¬ j < 0 := by omega
    simp only [this, if_false]
    omega
  rw [hs, List.take_length, List.drop_length]

/-- C15, as stated, fails.  With one module (id `1`), `handleModuleReorder(1, 0)` gives
`moduleOrder = [undefined, 1]`, one element longer and holding a value that is no
module id; `handleModuleReorder(-1, 0)` gives `[undefined]`, of the same length but
without the module's id. -/
theorem handleModuleReorder_outOfRange_changes :
    (handleSaveModule none 1 "" ⟨0, "A", none⟩ initialData).moduleOrder = [Val.id 1]
      ∧ (handleModuleReorder 1 0
          (handleSaveModule none 1 "" ⟨0, "A", none⟩ initialData)).moduleOrder
          = [Val.undefined, Val.id 1]
      ∧ (handleModuleReorder 1 0
          (handleSaveModule none 1 "" ⟨0, "A", none⟩ initialData)).moduleOrder.length
          ≠ (handleSaveModule none 1 "" ⟨0, "A", none⟩ initialData).moduleOrder.length
      ∧ Val.undefined ∉ moduleIds (handleModuleReorder 1 0
          (handleSaveModule none 1 "" ⟨0, "A", none⟩ initialData))
      ∧ (handleModuleReorder (-1) 0
          (handleSaveModule none 1 "" ⟨0, "A", none⟩ initialData)).moduleOrder
          = [Val.undefined] := by
  decide

/-- C15 (amended): `handleModuleReorder` checks no index and signals no error; `modules`,
`resources` and `resourceOrder` are unchanged.  When `dragIndex` is inside the range,
any `hoverIndex` is clamped the way `splice` clamps it: the new `moduleOrder` is a
permutation of the old one, of the same length, and a `hoverIndex` at or past the end
puts the dragged id last.  When `dragIndex` is outside the range, `undefined` is
inserted into `moduleOrder`; for `dragIndex` at or past the end nothing is removed, so
the list grows by one. -/
theorem handleModuleReorder_outOfRange (prev : CourseData) (dragIndex hoverIndex : Int)
    (_hout : ¬ (0 ≤ dragIndex ∧ dragIndex < prev.moduleOrder.length
      ∧ 0 ≤ hoverIndex ∧ hoverIndex < prev.moduleOrder.length)) :
    (handleModuleReorder dragIndex hoverIndex prev).modules = prev.modules
      ∧ (handleModuleReorder dragIndex hoverIndex prev).resources = prev.resources
      ∧ (handleModuleReorder dragIndex hoverIndex prev).resourceOrder = prev.resourceOrder
      ∧ (0 ≤ dragIndex ∧ dragIndex < prev.moduleOrder.length →
          (handleModuleReorder dragIndex hoverIndex prev).moduleOrder.Perm prev.moduleOrder
            ∧ (handleModuleReorder dragIndex hoverIndex prev).moduleOrder.length
                = prev.moduleOrder.length
            ∧ ((prev.moduleOrder.length : Int) ≤ hoverIndex →
                ∃ x, prev.moduleOrder[dragIndex.toNat]? = some x
                  ∧ (handleModuleReorder dragIndex hoverIndex prev).moduleOrder
                      = prev.moduleOrder.eraseIdx dragIndex.toNat ++ [x]))
      ∧ (¬ (0 ≤ dragIndex ∧ dragIndex < prev.moduleOrder.length) →
          (handleModuleReorder dragIndex hoverIndex prev).moduleOrder
              = spliceInsert (spliceRemove prev.moduleOrder dragIndex) hoverIndex Val.undefined
            ∧ Val.undefined ∈ (handleModuleReorder dragIndex hoverIndex prev).moduleOrder)
      ∧ ((prev.moduleOrder.length : Int) ≤ dragIndex →
          (handleModuleReorder dragIndex hoverIndex prev).moduleOrder
              = spliceInsert prev.moduleOrder hoverIndex Val.undefined
            ∧ (handleModuleReorder dragIndex hoverIndex prev).moduleOrder.length
                = prev.moduleOrder.length + 1) := by
  have hmo : (handleModuleReorder dragIndex hoverIndex prev).moduleOrder
      = moveItem prev.moduleOrder dragIndex hoverIndex := rfl
  refine ⟨rfl, rfl, rfl, ?_, ?_, ?_⟩
  · rintro ⟨h0, h1⟩
    have hp := moveItem_perm_of_drag prev.moduleOrder dragIndex hoverIndex h0 h1
    refine ⟨by rw [hmo]; exact hp, by rw [hmo]; exact hp.length_eq, ?_⟩
    intro hj
    obtain ⟨h, hm⟩ := moveItem_hover_past_end prev.moduleOrder dragIndex hoverIndex h0 h1 hj
    exact ⟨prev.moduleOrder[dragIndex.toNat], List.getElem?_eq_getElem h, by rw [hmo, hm]⟩
  · intro h
    have hm := moveItem_of_outOfRange prev.moduleOrder dragIndex hoverIndex h
    refine ⟨by rw [hmo, hm], ?_⟩
    rw [hmo, hm]
    exact mem_spliceInsert _ _ _
  · intro h
    have hno : ¬ (0 ≤ dragIndex ∧ dragIndex < prev.moduleOrder.length) := by
      intro h2; omega
    have hm := moveItem_of_outOfRange prev.moduleOrder dragIndex hoverIndex hno
    rw [spliceRemove_of_ge _ _ h] at hm
    refine ⟨by rw [hmo, hm], ?_⟩
    rw [hmo, hm]
    exact spliceInsert_length _ _ _

/-- An instance of C15: with two modules, `handleModuleReorder(0, 5)` clamps the target
and moves the first id to the end. -/
theorem handleModuleReorder_outOfRange_witness :
    (handleModuleReorder 0 5 (handleSaveModule none 2 "" ⟨0, "B", none⟩
        (handleSaveModule none 1 "" ⟨0, "A", none⟩ initialData))).moduleOrder
        = [Val.id 2, Val.id 1]
      ∧ (handleModuleReorder 0 5 (handleSaveModule none 2 "" ⟨0, "B", none⟩
        (handleSaveModule none 1 "" ⟨0, "A", none⟩ initialData))).moduleOrder.length
        = (handleSaveModule none 2 "" ⟨0, "B", none⟩
          (handleSaveModule none 1 "" ⟨0, "A", none⟩ initialData)).moduleOrder.length :=
  ⟨by decide,
    ((handleModuleReorder_outOfRange (handleSaveModule none 2 "" ⟨0, "B", none⟩
      (handleSaveModule none 1 "" ⟨0, "A", none⟩ initialData)) 0 5 (by decide)).2.2.2.1
      (by decide)).2.1⟩

theorem moveItem_nil (i j : Int) : moveItem [] i j = [Val.undefined] := by
  have h : ¬ (0 ≤ i ∧ i < (([] : List Val).length : Int)) := by
    simp only [List.length_nil, Nat.cast_zero]; omega
  rw [moveItem_of_outOfRange [] i j h]
  have h1 : spliceRemove [] i = [] := by simp [spliceRemove]
  rw [h1]
  simp [spliceInsert]

/-- C16, as stated, fails in its last part: on the empty document, where module `7` has
no order list, `handleResourceReorder(7, 0, 0)` creates the entry `7` in
`resourceOrder`, holding `[undefined]`. -/
theorem handleResourceReorder_missing_creates :
    initialData.resourceOrder.hasKey (Val.id 7) = false
      ∧ (handleResourceReorder (Val.id 7) 0 0 initialData).resourceOrder
          = [(Val.id 7, some [Val.undefined])]
      ∧ (handleResourceReorder (Val.id 7) 0 0 initialData).resourceOrder.hasKey (Val.id 7)
          = true := by
  decide

/-- C16 (amended): `handleResourceReorder(m, from, to)` leaves `modules`, `resources`,
`moduleOrder` and every key of `resourceOrder` other than `m` unchanged.  When `m` has
the order list `l` and both indices are inside it, `resourceOrder[m]` becomes `l` with
the element at `from` removed and re-inserted at index `to`: a permutation of `l`
with the moved id at index `to` and the other ids in their old relative order.  When
`m` has no order list, no error is signalled and the entry `m` is created, holding
`[undefined]`. -/
theorem handleResourceReorder_moves (prev : CourseData) (m : Val) (fromIndex toIndex : Int) :
    (handleResourceReorder m fromIndex toIndex prev).modules = prev.modules
      ∧ (handleResourceReorder m fromIndex toIndex prev).resources = prev.resources
      ∧ (handleResourceReorder m fromIndex toIndex prev).moduleOrder = prev.moduleOrder
      ∧ (∀ k, k ≠ m →
          (handleResourceReorder m fromIndex toIndex prev).resourceOrder.get k
              = prev.resourceOrder.get k
            ∧ (handleResourceReorder m fromIndex toIndex prev).resourceOrder.hasKey k
              = prev.resourceOrder.hasKey k)
      ∧ (∀ l, prev.resourceOrder.get m = some l →
          0 ≤ fromIndex → fromIndex < l.length → 0 ≤ toIndex → toIndex < l.length →
          ∃ l₁ x, (handleResourceReorder m fromIndex toIndex prev).resourceOrder.get m = some l₁
            ∧ l[fromIndex.toNat]? = some x
            ∧ l₁ = (l.eraseIdx fromIndex.toNat).take toIndex.toNat
                ++ x :: (l.eraseIdx fromIndex.toNat).drop toIndex.toNat
            ∧ l₁.Perm l
            ∧ l₁[toIndex.toNat]? = some x
            ∧ l₁.eraseIdx toIndex.toNat = l.eraseIdx fromIndex.toNat)
      ∧ (prev.resourceOrder.get m = none →
          (handleResourceReorder m fromIndex toIndex prev).resourceOrder.get m
              = some [Val.undefined]
            ∧ (handleResourceReorder m fromIndex toIndex prev).resourceOrder.hasKey m = true) := by
  have hget : (handleResourceReorder m fromIndex toIndex prev).resourceOrder.get m
      = some (moveItem (orEmpty (prev.resourceOrder.get m)) fromIndex toIndex) :=
    OrderMap.get_set_self _ _ _
  refine ⟨rfl, rfl, rfl, ?_, ?_, ?_⟩
  · intro k hk
    exact ⟨OrderMap.get_set_of_ne _ _ _ _ hk, OrderMap.hasKey_set_of_ne _ _ _ _ hk⟩
  · intro l hl hf0 hf ht0 ht
    rw [hl, orEmpty_some] at hget
    obtain ⟨h, hm⟩ := moveItem_of_inRange l fromIndex toIndex hf0 hf ht0 ht
    have hlen : (l.eraseIdx fromIndex.toNat).length = l.length - 1 := by
      rw [List.length_eraseIdx]; simp [h]
    have htle : toIndex.toNat ≤ (l.eraseIdx fromIndex.toNat).length := by omega
    refine ⟨moveItem l fromIndex toIndex, l[fromIndex.toNat], hget,
      List.getElem?_eq_getElem h, hm, moveItem_perm l fromIndex toIndex hf0 hf ht0 ht, ?_, ?_⟩
    · rw [hm]; exact getElem?_insert _ _ _ htle
    · rw [hm]; exact eraseIdx_insert _ _ _ htle
  · intro hn
    rw [hn, orEmpty_none, moveItem_nil] at hget
    exact ⟨hget, OrderMap.hasKey_set_self _ _ _⟩

/-- An instance of C16: module `1` lists the links `3`, `4`;
`handleResourceReorder(1, 0, 1)` turns the list into `4`, `3`. -/
theorem handleResourceReorder_moves_witness :
    (handleResourceReorder (Val.id 1) 0 1
        (handleSaveLink none (Val.id 1) 4 ""
          ⟨0, Val.undefined, "link", "y", some "u", none, none, none, none, none⟩
          (handleSaveLink none (Val.id 1) 3 ""
            ⟨0, Val.undefined, "link", "x", some "u", none, none, none, none, none⟩
            (handleSaveModule none 1 "" ⟨0, "A", none⟩ initialData)))).resourceOrder
        = [(Val.id 1, some [Val.id 4, Val.id 3])]
      ∧ ∃ l₁ x, (handleResourceReorder (Val.id 1) 0 1
        (handleSaveLink none (Val.id 1) 4 ""
          ⟨0, Val.undefined, "link", "y", some "u", none, none, none, none, none⟩
          (handleSaveLink none (Val.id 1) 3 ""
            ⟨0, Val.undefined, "link", "x", some "u", none, none, none, none, none⟩
            (handleSaveModule none 1 "" ⟨0, "A", none⟩ initialData)))).resourceOrder.get
            (Val.id 1) = some l₁
          ∧ [Val.id 3, Val.id 4][(0 : Int).toNat]? = some x
          ∧ l₁ = ([Val.id 3, Val.id 4].eraseIdx (0 : Int).toNat).take (1 : Int).toNat
              ++ x :: ([Val.id 3, Val.id 4].eraseIdx (0 : Int).toNat).drop (1 : Int).toNat
          ∧ l₁.Perm [Val.id 3, Val.id 4]
          ∧ l₁[(1 : Int).toNat]? = some x
          ∧ l₁.eraseIdx (1 : Int).toNat = [Val.id 3, Val.id 4].eraseIdx (0 : Int).toNat :=
  ⟨by decide,
    (handleResourceReorder_moves (handleSaveLink none (Val.id 1) 4 ""
        ⟨0, Val.undefined, "link", "y", some "u", none, none, none, none, none⟩
        (handleSaveLink none (Val.id 1) 3 ""
          ⟨0, Val.undefined, "link", "x", some "u", none, none, none, none, none⟩
          (handleSaveModule none 1 "" ⟨0, "A", none⟩ initialData))) (Val.id 1) 0 1).2.2.2.2.1
      [Val.id 3, Val.id 4] (by decide) (by decide) (by decide) (by decide) (by decide)⟩

/-- C17, as stated, fails in its last part: a link created standalone (id `5`) is listed
under the key `null` of `resourceOrder`; `handleDeleteItem(5)` removes the resource
and leaves that list alone, so the id still occurs in an order list. -/
theorem handleDeleteItem_standalone_still_listed :
    (∃ r ∈ (handleSaveLink none Val.null 5 ""
          ⟨0, Val.undefined, "link", "r", some "u", none, none, none, none, none⟩
          initialData).resources, r.id = 5)
      ∧ (handleDeleteItem (Val.id 5)
          (handleSaveLink none Val.null 5 ""
            ⟨0, Val.undefined, "link", "r", some "u", none, none, none, none, none⟩
            initialData)).resources = []
      ∧ (handleDeleteItem (Val.id 5)
          (handleSaveLink none Val.null 5 ""
            ⟨0, Val.undefined, "link", "r", some "u", none, none, none, none, none⟩
            initialData)).resourceOrder = [(Val.null, some [Val.id 5])]
      ∧ Val.id 5 ∈ orEmpty ((handleDeleteItem (Val.id 5)
          (handleSaveLink none Val.null 5 ""
            ⟨0, Val.undefined, "link", "r", some "u", none, none, none, none, none⟩
            initialData)).resourceOrder.get Val.null) := by
  decide

/-- C17 (amended): for a stored resource `r`, `handleDeleteItem(r.id)` removes every stored
resource whose id is `r.id`, which is `r` alone when the resource ids are distinct,
and keeps all others in their order; `modules` and `moduleOrder` are unchanged.  With
`r₀` the first stored resource of that id (`r` itself when the resource ids are
distinct): when `r₀` has a `moduleId`, `resourceOrder` is the old one with the id
filtered out of `resourceOrder[r₀.moduleId]`, so the id is no longer listed there;
when `r₀` has none, `resourceOrder` is unchanged.  Every key other than `r₀.moduleId`
is unchanged, so the id is listed under another key exactly if it was before, and no
key is added or removed. -/
theorem handleDeleteItem_removes (prev : CourseData) (r : Resource)
    (hr : r ∈ prev.resources) :
    (handleDeleteItem (Val.id r.id) prev).resources
        = prev.resources.filter (fun x => x.id ≠ r.id)
      ∧ ((prev.resources.map (fun x => x.id)).Nodup →
          (handleDeleteItem (Val.id r.id) prev).resources
            = prev.resources.filter (fun x => x ≠ r))
      ∧ (∀ x ∈ (handleDeleteItem (Val.id r.id) prev).resources, x.id ≠ r.id)
      ∧ r ∉ (handleDeleteItem (Val.id r.id) prev).resources
      ∧ (handleDeleteItem (Val.id r.id) prev).modules = prev.modules
      ∧ (handleDeleteItem (Val.id r.id) prev).moduleOrder = prev.moduleOrder
      ∧ ∃ r₀ ∈ prev.resources, r₀.id = r.id
          ∧ prev.resources.find? (fun x => Val.id x.id = Val.id r.id) = some r₀
          ∧ ((prev.resources.map (fun x => x.id)).Nodup → r₀ = r)
          ∧ (handleDeleteItem (Val.id r.id) prev).resourceOrder
              = removedOrder (Val.id r.id) r₀.moduleId prev.resourceOrder
          ∧ (r₀.moduleId.truthy = true →
              (handleDeleteItem (Val.id r.id) prev).resourceOrder.get r₀.moduleId
                  = (prev.resourceOrder.get r₀.moduleId).map
                      (fun l => l.filter (fun id => id ≠ Val.id r.id))
                ∧ Val.id r.id ∉ orEmpty ((handleDeleteItem (Val.id r.id) prev).resourceOrder.get
                    r₀.moduleId))
          ∧ (r₀.moduleId.truthy = false →
              (handleDeleteItem (Val.id r.id) prev).resourceOrder = prev.resourceOrder)
          ∧ (∀ k, k ≠ r₀.moduleId →
              (handleDeleteItem (Val.id r.id) prev).resourceOrder.get k
                  = prev.resourceOrder.get k)
          ∧ (∀ k, (handleDeleteItem (Val.id r.id) prev).resourceOrder.hasKey k
              = prev.resourceOrder.hasKey k) := by
  have hres : (handleDeleteItem (Val.id r.id) prev).resources
      = prev.resources.filter (fun x => x.id ≠ r.id) := by
    rw [handleDeleteItem_resources]
    apply List.filter_congr
    intro x _
    by_cases e : x.id = r.id
    · simp [e]
    · have : ¬ Val.id x.id = Val.id r.id := fun h => e (Val.id.inj h)
      simp [e, this]
  obtain ⟨r₀, hfind⟩ := find?_id_exists hr (v := Val.id r.id) rfl
  have h₀ := find?_id_some hfind
  have hid₀ : r₀.id = r.id := Val.id.inj h₀.1
  have hro : (handleDeleteItem (Val.id r.id) prev).resourceOrder
      = removedOrder (Val.id r.id) r₀.moduleId prev.resourceOrder := by
    rw [handleDeleteItem_resourceOrder, hfind]
  refine ⟨hres, ?_, ?_, ?_, (handleDeleteItem_modules _ _).1, (handleDeleteItem_modules _ _).2,
    r₀, h₀.2, hid₀, hfind, ?_, hro, ?_, ?_, ?_, ?_⟩
  · intro hnd
    rw [hres]
    apply List.filter_congr
    intro x hx
    by_cases e : x = r
    · subst e; simp
    · have hid : x.id ≠ r.id := fun h => e (List.inj_on_of_nodup_map hnd hx hr h)
      simp [e, hid]
  · intro x hx
    rw [hres, List.mem_filter] at hx
    simpa using hx.2
  · intro hmem
    rw [hres, List.mem_filter] at hmem
    simp at hmem
  · intro hnd
    exact List.inj_on_of_nodup_map hnd h₀.2 hr hid₀
  · intro ht
    rw [hro]
    exact ⟨removedOrder_get_from _ _ _ ht, removedOrder_not_mem _ _ _ ht⟩
  · intro ht
    rw [hro]
    exact removedOrder_of_falsy _ _ _ ht
  · intro k hk
    rw [hro]
    exact removedOrder_get_of_ne _ _ _ _ hk
  · intro k
    rw [hro]
    exact removedOrder_hasKey _ _ _ _

/-- An instance of C17: module `1` lists the links `3`, `4`; after `handleDeleteItem(3)`
only `4` is left, in `resources` and in the module's list. -/
theorem handleDeleteItem_removes_witness :
    (handleDeleteItem (Val.id 3)
        (handleSaveLink none (Val.id 1) 4 ""
          ⟨0, Val.undefined, "link", "y", some "u", none, none, none, none, none⟩
          (handleSaveLink none (Val.id 1) 3 ""
            ⟨0, Val.undefined, "link", "x", some "u", none, none, none, none, none⟩
            (handleSaveModule none 1 "" ⟨0, "A", none⟩ initialData)))).resources
        = [⟨4, Val.id 1, "link", "y", some "u", none, none, none, none, some ""⟩]
      ∧ (handleDeleteItem (Val.id 3)
        (handleSaveLink none (Val.id 1) 4 ""
          ⟨0, Val.undefined, "link", "y", some "u", none, none, none, none, none⟩
          (handleSaveLink none (Val.id 1) 3 ""
            ⟨0, Val.undefined, "link", "x", some "u", none, none, none, none, none⟩
            (handleSaveModule none 1 "" ⟨0, "A", none⟩ initialData)))).resourceOrder
        = [(Val.id 1, some [Val.id 4])] :=
  ⟨(handleDeleteItem_removes (handleSaveLink none (Val.id 1) 4 ""
      ⟨0, Val.undefined, "link", "y", some "u", none, none, none, none, none⟩
      (handleSaveLink none (Val.id 1) 3 ""
        ⟨0, Val.undefined, "link", "x", some "u", none, none, none, none, none⟩
        (handleSaveModule none 1 "" ⟨0, "A", none⟩ initialData)))
      ⟨3, Val.id 1, "link", "x", some "u", none, none, none, none, some ""⟩ (by decide)).1.trans
      (by decide), by decide⟩

/-! ## Editing -/

/-- C18, the code at the failing input.  Module `1` holds a link (id `3`) created at
`"2024-01-01T00:00:00.000Z"`.  It is opened with `handleEditResource`, its title is
changed in `LinkModal`, and `handleSubmit` passes the item to `handleSaveLink` in edit
mode.  The stored resource keeps its id and its `moduleId`, and `modules`,
`moduleOrder` and `resourceOrder` are unchanged, but its `createdAt` is gone.  The
same holds for every document and every edit through `LinkModal` or `UploadModal`:
the stored record is the submitted item, which carries no `createdAt`. -/
theorem edit_drops_createdAt :
    (handleSaveLink none (Val.id 1) 3 "2024-01-01T00:00:00.000Z"
        (LinkModal.handleSubmit none (Val.id 1) 3 "Syllabus" "https://x")
        (handleSaveModule none 1 "" ⟨0, "A", none⟩ initialData)).resources
        = [⟨3, Val.id 1, "link", "Syllabus", some "https://x", none, none, none, none,
            some "2024-01-01T00:00:00.000Z"⟩]
      ∧ (handleSaveLink
          (handleEditResource ⟨3, Val.id 1, "link", "Syllabus", some "https://x", none, none,
            none, none, some "2024-01-01T00:00:00.000Z"⟩).currentResource
          (handleEditResource ⟨3, Val.id 1, "link", "Syllabus", some "https://x", none, none,
            none, none, some "2024-01-01T00:00:00.000Z"⟩).currentModuleId
          9 "2024-02-02T00:00:00.000Z"
          (LinkModal.handleSubmit
            (handleEditResource ⟨3, Val.id 1, "link", "Syllabus", some "https://x", none, none,
              none, none, some "2024-01-01T00:00:00.000Z"⟩).currentResource
            (handleEditResource ⟨3, Val.id 1, "link", "Syllabus", some "https://x", none, none,
              none, none, some "2024-01-01T00:00:00.000Z"⟩).currentModuleId
            9 "Syllabus v2" "https://x")
          (handleSaveLink none (Val.id 1) 3 "2024-01-01T00:00:00.000Z"
            (LinkModal.handleSubmit none (Val.id 1) 3 "Syllabus" "https://x")
            (handleSaveModule none 1 "" ⟨0, "A", none⟩ initialData)))
        = { modules := [⟨1, "A", some ""⟩]
            resources := [⟨3, Val.id 1, "link", "Syllabus v2", some "https://x", none, none,
              none, none, none⟩]
            moduleOrder := [Val.id 1]
            resourceOrder := [(Val.id 1, some [Val.id 3])] }
      ∧ (∀ (prev : CourseData) (r : Resource) (now : Nat) (iso linkTitle linkUrl : String),
          ∀ x ∈ (handleSaveLink (handleEditResource r).currentResource
              (handleEditResource r).currentModuleId now iso
              (LinkModal.handleSubmit (handleEditResource r).currentResource
                (handleEditResource r).currentModuleId now linkTitle linkUrl) prev).resources,
            x.id = r.id → x.moduleId = r.moduleId ∧ x.createdAt = none)
      ∧ (∀ (prev : CourseData) (r : Resource) (now : Nat) (iso fileTitle : String)
          (selectedFile : Option SelectedFile) (filePreview : Option String) (item : Resource),
          UploadModal.handleSubmit (handleEditResource r).currentResource
              (handleEditResource r).currentModuleId now fileTitle selectedFile filePreview
              = some item →
          ∀ x ∈ (handleSaveUpload (handleEditResource r).currentResource
              (handleEditResource r).currentModuleId now iso item prev).resources,
            x.id = r.id → x.moduleId = r.moduleId ∧ x.createdAt = none) := by
  have hor : ∀ v : Val, jsOr v v = v := by
    intro v; unfold jsOr; split <;> rfl
  refine ⟨by decide, by decide, ?_, ?_⟩
  · intro prev r now iso linkTitle linkUrl x hx hid
    simp only [handleSaveLink, handleEditResource, List.mem_map] at hx
    obtain ⟨y, _, hy⟩ := hx
    by_cases e : y.id = (LinkModal.handleSubmit (some r) r.moduleId now linkTitle linkUrl).id
    · rw [if_pos e] at hy
      rw [← hy]
      exact ⟨hor r.moduleId, rfl⟩
    · rw [if_neg e] at hy
      rw [← hy] at hid
      exact absurd hid e
  · intro prev r now iso fileTitle selectedFile filePreview item hitem x hx hid
    have hi : item.id = r.id ∧ item.moduleId = r.moduleId ∧ item.createdAt = none := by
      cases selectedFile with
      | none =>
        simp only [UploadModal.handleSubmit, handleEditResource, Option.some.injEq] at hitem
        rw [← hitem]
        exact ⟨rfl, hor r.moduleId, rfl⟩
      | some f =>
        simp only [UploadModal.handleSubmit, handleEditResource, Option.some.injEq] at hitem
        rw [← hitem]
        exact ⟨rfl, hor r.moduleId, rfl⟩
    simp only [handleSaveUpload, handleEditResource, List.mem_map] at hx
    obtain ⟨y, _, hy⟩ := hx
    by_cases e : y.id = item.id
    · rw [if_pos e] at hy
      rw [← hy]
      exact ⟨hi.2.1, hi.2.2⟩
    · rw [if_neg e] at hy
      rw [← hy, ← hi.1] at hid
      exact absurd hid e

/-! ## The ordered queries -/

theorem moduleWithId_eq_find (modules : List CourseModule) (id : Val) :
    moduleWithId modules id = modules.find? (fun m => Val.id m.id = id) := by
  induction modules with
  | nil => rfl
  | cons m t ih =>
    by_cases h : Val.id m.id = id
    · simp [moduleWithId, List.find?, h]
    · simp [moduleWithId, List.find?, h, ih]

theorem resourceWithId_eq_find (resources : List Resource) (id : Val) :
    resourceWithId resources id = resources.find? (fun r => Val.id r.id = id) := by
  induction resources with
  | nil => rfl
  | cons r t ih =>
    by_cases h : Val.id r.id = id
    · simp [resourceWithId, List.find?, h]
    · simp [resourceWithId, List.find?, h, ih]

theorem resolveModules_eq_filterMap (modules : List CourseModule) (l : List Val) :
    resolveModules modules l
      = l.filterMap (fun id => modules.find? (fun m => Val.id m.id = id)) := by
  induction l with
  | nil => rfl
  | cons v t ih =>
    simp only [resolveModules, List.filterMap_cons, moduleWithId_eq_find]
    cases modules.find? (fun m => Val.id m.id = v) with
    | none => exact ih
    | some m => simp only [ih]

theorem resolveResources_eq_filterMap (resources : List Resource) (l : List Val) :
    resolveResources resources l
      = l.filterMap (fun id => resources.find? (fun r => Val.id r.id = id)) := by
  induction l with
  | nil => rfl
  | cons v t ih =>
    simp only [resolveResources, List.filterMap_cons, resourceWithId_eq_find]
    cases resources.find? (fun r => Val.id r.id = v) with
    | none => exact ih
    | some r => simp only [ih]

/-- When every id of the list names a stored module, the walk yields one module per id,
with that id. -/
theorem map_id_filterMap_find_modules (modules : List CourseModule) (l : List Val)
    (h : ∀ v ∈ l, ∃ m ∈ modules, Val.id m.id = v) :
    (l.filterMap (fun id => modules.find? (fun m => Val.id m.id = id))).map
      (fun m => Val.id m.id) = l := by
  induction l with
  | nil => rfl
  | cons v t ih =>
    obtain ⟨m, hm, hv⟩ := h v (List.mem_cons_self _ _)
    have hsome : (modules.find? (fun m => Val.id m.id = v)).isSome = true := by
      rw [List.find?_isSome]
      exact ⟨m, hm, by simpa using hv⟩
    obtain ⟨m₁, hm₁⟩ := Option.isSome_iff_exists.mp hsome
    have hid : Val.id m₁.id = v := by simpa using List.find?_some hm₁
    simp only [List.filterMap_cons, hm₁, List.map_cons, hid]
    rw [ih (fun w hw => h w (List.mem_cons_of_mem _ hw))]

theorem map_id_filterMap_find_resources (resources : List Resource) (l : List Val)
    (h : ∀ v ∈ l, ∃ r ∈ resources, Val.id r.id = v) :
    (l.filterMap (fun id => resources.find? (fun r => Val.id r.id = id))).map
      (fun r => Val.id r.id) = l := by
  induction l with
  | nil => rfl
  | cons v t ih =>
    obtain ⟨r, hr, hv⟩ := h v (List.mem_cons_self _ _)
    obtain ⟨r₁, hr₁⟩ := find?_id_exists hr hv
    have hid : Val.id r₁.id = v := (find?_id_some hr₁).1
    simp only [List.filterMap_cons, hr₁, List.map_cons, hid]
    rw [ih (fun w hw => h w (List.mem_cons_of_mem _ hw))]

/-- C19: `orderedModules` is the walk the spec describes (the modules looked up for each
id of `moduleOrder`, in that order, unresolved ids skipped), and
`getOrderedResources(m)` is the same walk over `resourceOrder[m]`, empty when `m` has
no order list.  When the ordering invariants hold, the ids of `orderedModules` are
exactly `moduleOrder`, and for every module `m` the ids of `getOrderedResources(m)`
are exactly `resourceOrder[m]`. -/
theorem ordered_queries (d : CourseData) :
    orderedModules d = orderedModulesSpec d
      ∧ (∀ m, getOrderedResources d m = orderedResourcesOfSpec d m)
      ∧ (∀ m, d.resourceOrder.get m = none → getOrderedResources d m = [])
      ∧ (OrdersConsistent d →
          (orderedModules d).map (fun m => Val.id m.id) = d.moduleOrder
            ∧ ∀ m ∈ moduleIds d,
                (getOrderedResources d m).map (fun r => Val.id r.id)
                  = orEmpty (d.resourceOrder.get m)) := by
  refine ⟨?_, ?_, ?_, ?_⟩
  · unfold orderedModules orderedModulesSpec
    rw [resolveModules_eq_filterMap]
  · intro m
    unfold getOrderedResources orderedResourcesOfSpec
    cases d.resourceOrder.get m with
    | none => rfl
    | some l => simp only [orEmpty_some]; rw [resolveResources_eq_filterMap]
  · intro m hm
    unfold getOrderedResources
    rw [hm]; rfl
  · intro h
    constructor
    · unfold orderedModules
      apply map_id_filterMap_find_modules
      intro v hv
      exact mem_moduleIds.mp (h.2.1.mem_iff.mp hv)
    · intro m hm
      unfold getOrderedResources
      apply map_id_filterMap_find_resources
      intro v hv
      obtain ⟨r, hr, _, hid⟩ := mem_resourceIdsOf.mp ((h.2.2 m hm).2.2.mem_iff.mp hv)
      exact ⟨r, hr, hid⟩

/-- An instance of C19: after the calls of `dragAcrossModules` the invariants hold, and
the ids of the ordered modules and of the ordered resources of module `2` are the two
order lists. -/
theorem ordered_queries_witness :
    (orderedModules (run dragAcrossModules initialData)).map (fun m => Val.id m.id)
        = [Val.id 1, Val.id 2]
      ∧ (getOrderedResources (run dragAcrossModules initialData) (Val.id 2)).map
        (fun r => Val.id r.id) = [Val.id 6, Val.id 5] :=
  ⟨((ordered_queries (run dragAcrossModules initialData)).2.2.2
      ((reachable_run Reachable.init dragAcrossModules (by decide)).inv.1.ordersConsistent)).1.trans
      (by decide),
    (((ordered_queries (run dragAcrossModules initialData)).2.2.2
      ((reachable_run Reachable.init dragAcrossModules (by decide)).inv.1.ordersConsistent)).2
      (Val.id 2) (by decide)).trans (by decide)⟩

/-- C20: in edit mode, for a payload whose id is that of an existing module,
`handleSaveModule` puts the payload, and with it the new name, in the place of the
module with that id and touches nothing else: `moduleOrder`, `resourceOrder` and
`resources` are unchanged, `modules` keeps its length and the id at every position,
every module with another id is unchanged at its position, and the edited module
keeps its id. -/
theorem handleSaveModule_edit (prev : CourseData) (currentModule : CourseModule) (now : Nat)
    (iso : String) (module : CourseModule)
    (hex : ∃ m ∈ prev.modules, m.id = module.id) :
    (handleSaveModule (some currentModule) now iso module prev).moduleOrder = prev.moduleOrder
      ∧ (handleSaveModule (some currentModule) now iso module prev).resourceOrder
          = prev.resourceOrder
      ∧ (handleSaveModule (some currentModule) now iso module prev).resources = prev.resources
      ∧ (handleSaveModule (some currentModule) now iso module prev).modules.length
          = prev.modules.length
      ∧ (handleSaveModule (some currentModule) now iso module prev).modules.map (fun m => m.id)
          = prev.modules.map (fun m => m.id)
      ∧ (∀ i : Nat, (handleSaveModule (some currentModule) now iso module prev).modules[i]?
          = (prev.modules[i]?).map (fun m => if m.id = module.id then module else m))
      ∧ (∃ m ∈ (handleSaveModule (some currentModule) now iso module prev).modules,
          m.id = module.id ∧ m.name = module.name)
      ∧ (∀ m ∈ (handleSaveModule (some currentModule) now iso module prev).modules,
          m.id = module.id → m = module) := by
  have hmods : (handleSaveModule (some currentModule) now iso module prev).modules
      = prev.modules.map (fun m => if m.id = module.id then module else m) := rfl
  refine ⟨rfl, rfl, rfl, ?_, ?_, ?_, ?_, ?_⟩
  · rw [hmods, List.length_map]
  · rw [hmods, List.map_map]
    apply List.map_congr_left
    intro m _
    simp only [Function.comp]
    split
    · next e => exact e.symm
    · rfl
  · intro i
    rw [hmods, List.getElem?_map]
  · obtain ⟨m, hm, hid⟩ := hex
    refine ⟨module, ?_, rfl, rfl⟩
    rw [hmods, List.mem_map]
    exact ⟨m, hm, by simp [hid]⟩
  · intro m hm hid
    rw [hmods, List.mem_map] at hm
    obtain ⟨m₀, _, hm₀⟩ := hm
    by_cases e : m₀.id = module.id
    · rw [if_pos e] at hm₀; exact hm₀.symm
    · rw [if_neg e] at hm₀
      rw [← hm₀] at hid
      exact absurd hid e

/-- An instance of C20: of two modules the first is renamed; its position, both ids and
`moduleOrder` stay. -/
theorem handleSaveModule_edit_witness :
    (handleSaveModule (some ⟨1, "A", some ""⟩) 9 "" ⟨1, "Intro", some ""⟩
        (handleSaveModule none 2 "" ⟨0, "B", none⟩
          (handleSaveModule none 1 "" ⟨0, "A", none⟩ initialData))).modules
        = [⟨1, "Intro", some ""⟩, ⟨2, "B", some ""⟩]
      ∧ (handleSaveModule (some ⟨1, "A", some ""⟩) 9 "" ⟨1, "Intro", some ""⟩
        (handleSaveModule none 2 "" ⟨0, "B", none⟩
          (handleSaveModule none 1 "" ⟨0, "A", none⟩ initialData))).modules.map (fun m => m.id)
        = (handleSaveModule none 2 "" ⟨0, "B", none⟩
          (handleSaveModule none 1 "" ⟨0, "A", none⟩ initialData)).modules.map (fun m => m.id) :=
  ⟨by decide,
    (handleSaveModule_edit (handleSaveModule none 2 "" ⟨0, "B", none⟩
      (handleSaveModule none 1 "" ⟨0, "A", none⟩ initialData)) ⟨1, "A", some ""⟩ 9 ""
      ⟨1, "Intro", some ""⟩ (by decide)).2.2.2.2.1⟩

/-! ## Loading at startup -/

/-- C21, the code at the failing input: the key `'courseBuilderData'` holds the text
`null`.  `JSON.parse` returns `null` for it (`hparse`), the text is truthy, so the load
effect stores `null` in `data`: the state is then no document with the four
collections.  The other parts of the claim do hold, for every `JSON.parse`: a
non-empty text that parses is stored as parsed, and the state stays `initialData`,
which is a document, when the key is absent, the text is empty, or parsing throws. -/
theorem loadEffect_null (parse : String → Except String JsValue)
    (hparse : parse "null" = Except.ok JsValue.null) :
    loadEffect parse (some "null") initialDataValue = JsValue.null
      ∧ isCourseDocument (loadEffect parse (some "null") initialDataValue) = false
      ∧ (∀ text value, text ≠ "" → parse text = Except.ok value →
          loadEffect parse (some text) initialDataValue = value)
      ∧ loadEffect parse none initialDataValue = initialDataValue
      ∧ loadEffect parse (some "") initialDataValue = initialDataValue
      ∧ (∀ text error, parse text = Except.error error →
          loadEffect parse (some text) initialDataValue = initialDataValue)
      ∧ isCourseDocument initialDataValue = true := by
  have h1 : loadEffect parse (some "null") initialDataValue = JsValue.null := by
    have hne : ¬ ("null" = "") := by decide
    simp only [loadEffect, hne, if_false, hparse]
  refine ⟨h1, ?_, ?_, rfl, ?_, ?_, ?_⟩
  · rw [h1]; rfl
  · intro text value hne hp
    simp only [loadEffect, hne, if_false, hp]
  · simp [loadEffect]
  · intro text error hp
    by_cases hne : text = ""
    · simp [loadEffect, hne]
    · simp only [loadEffect, hne, if_false, hp]
  · decide

/-- An instance of C21 with a reading of `JSON.parse` on the text `null`. -/
theorem loadEffect_null_witness :
    loadEffect (fun text => if text = "null" then Except.ok JsValue.null
        else Except.error "SyntaxError") (some "null") initialDataValue = JsValue.null :=
  (loadEffect_null (fun text => if text = "null" then Except.ok JsValue.null
    else Except.error "SyntaxError") (by simp)).1

/-! ## Preservation of the invariants by single calls -/

theorem Invariants.toInv {d : CourseData} (h : Invariants d) : Inv d where
  modNodup := h.1.2.1.nodup_iff.mp h.1.1
  ordNodup := h.1.1
  ordMem := fun _ => h.1.2.1.mem_iff
  resNodup := h.2
  lists := by
    intro k hk
    obtain ⟨hs, hnd, hp⟩ := h.1.2.2 k hk
    obtain ⟨l, hl⟩ := Option.isSome_iff_exists.mp hs
    rw [hl, orEmpty_some] at hnd hp
    exact ⟨l, hl, hnd, fun _ => hp.mem_iff⟩

theorem Inv.invariants {d : CourseData} (h : Inv d) : Invariants d :=
  ⟨h.ordersConsistent, h.resNodup⟩

/-- C22: a document that satisfies the invariants (`moduleOrder` a duplicate-free
permutation of the module ids; for every module `m`, `resourceOrder[m]` a
duplicate-free permutation of the ids of the resources with `moduleId` `m`; resource
ids pairwise distinct) still satisfies them after `handleSaveModule` in add mode with
an id not in use (no module has it and no resource names it as its `moduleId`), after
`handleSaveLink` or `handleSaveUpload` in add mode with an existing module and an id
not in use (no resource has it), after `handleDeleteModule` of an existing
module, after `handleDeleteItem` of an existing resource, after `handleModuleReorder`
and `handleResourceReorder` with both indices in range, and after
`handleResourceMove(r, from, to)` with `r` existing, `from` its current `moduleId` and
`to` an existing module other than `from`. -/
theorem invariants_preserved (d : CourseData) (h : Invariants d) :
    (∀ now iso module, Val.id now ∉ moduleIds d →
        (∀ r ∈ d.resources, r.moduleId ≠ Val.id now) →
        Invariants (handleSaveModule none now iso module d))
      ∧ (∀ m now iso item, m ∈ moduleIds d → (∀ r ∈ d.resources, r.id ≠ now) →
          Invariants (handleSaveLink none m now iso item d)
            ∧ Invariants (handleSaveUpload none m now iso item d))
      ∧ (∀ m, m ∈ moduleIds d → Invariants (handleDeleteModule m d))
      ∧ (∀ r ∈ d.resources, Invariants (handleDeleteItem (Val.id r.id) d))
      ∧ (∀ fromIndex toIndex : Int,
          0 ≤ fromIndex → fromIndex < d.moduleOrder.length →
          0 ≤ toIndex → toIndex < d.moduleOrder.length →
          Invariants (handleModuleReorder fromIndex toIndex d))
      ∧ (∀ (m : Val) (fromIndex toIndex : Int),
          0 ≤ fromIndex → fromIndex < (orEmpty (d.resourceOrder.get m)).length →
          0 ≤ toIndex → toIndex < (orEmpty (d.resourceOrder.get m)).length →
          Invariants (handleResourceReorder m fromIndex toIndex d))
      ∧ (∀ r ∈ d.resources, ∀ toModuleId, toModuleId ∈ moduleIds d →
          toModuleId ≠ r.moduleId →
          Invariants (handleResourceMove (Val.id r.id) r.moduleId toModuleId d)) := by
  have hi := h.toInv
  refine ⟨?_, ?_, ?_, ?_, ?_, ?_, ?_⟩
  · intro now iso module hfresh href
    exact (inv_handleSaveModule_add hi now iso module hfresh href).invariants
  · intro m now iso item _ hfresh
    have hl := (inv_handleSaveLink_add hi m now iso item hfresh).invariants
    refine ⟨hl, ?_⟩
    rw [handleSaveUpload_eq_handleSaveLink]
    exact hl
  · intro m _
    exact (inv_handleDeleteModule hi m).invariants
  · intro r _
    exact (inv_handleDeleteItem hi (Val.id r.id)).invariants
  · intro fromIndex toIndex h0 h1 _ _
    exact (inv_handleModuleReorder hi fromIndex toIndex h0 h1).invariants
  · intro m fromIndex toIndex h0 h1 _ _
    exact (inv_handleResourceReorder hi m fromIndex toIndex h0 h1).invariants
  · intro r hr toModuleId _ _
    exact (inv_handleResourceMove hi (Val.id r.id) r.moduleId toModuleId
      ⟨r, hr, rfl, rfl⟩).invariants

/-- An instance of C22: the document built by `dragAcrossModules` satisfies the
invariants, and so does the document after one more module is created with the unused
id `7`. -/
theorem invariants_preserved_witness :
    Invariants (run dragAcrossModules initialData)
      ∧ Invariants (handleSaveModule none 7 "" ⟨0, "C", none⟩
          (run dragAcrossModules initialData)) :=
  ⟨(reachable_run Reachable.init dragAcrossModules (by decide)).inv.1.invariants,
    (invariants_preserved (run dragAcrossModules initialData)
      (reachable_run Reachable.init dragAcrossModules (by decide)).inv.1.invariants).1
      7 "" ⟨0, "C", none⟩ (by decide) (by decide)⟩

end CourseBuilder
